import Mathlib

/-!
Verification of the JIT quantization graph-rewriting passes
(`torch/csrc/jit/passes/quantization.cpp`).

The IR is embedded shallowly: a `Graph` owns arenas of nodes, blocks and
values keyed by natural-number identifiers; in-place C++ mutation becomes
explicit state passing.  The worklist traversal over nested blocks
(`std::stack<Block*>`) becomes a fueled recursion; the passes invoke it with
fuel `g.blocks.length`, which suffices for every well-formed (forest-shaped)
block structure.
-/

namespace JitQuant

/-- Static type tag of an IR value.  `tensor` stands for any subtype of
`TensorType::get()`; every other type is represented by its name. -/
inductive VType where
  | tensor
  | other (tag : String)
deriving DecidableEq, Repr

/-- Payload of a `prim::Constant` node.  `floatL k` is the floating-point
literal with integral value `k` (the pass only ever inserts `1.0`), `intL`
an integer literal and `strL` a string literal. -/
inductive Lit where
  | floatL (num : Int)
  | intL (i : Int)
  | strL (s : String)
  | noneL
deriving DecidableEq, Repr

/-- Producer of a value: a node of the graph, or the graph-input marker
(the `prim::Param` node, which is never quantizable). -/
inductive Producer where
  | node (n : Nat)
  | graphInput
deriving DecidableEq, Repr

/-- One dataflow value: type tag, unique name, producer. -/
structure Value where
  vtype : VType := .tensor
  uniqueName : String := ""
  producer : Producer := .graphInput
deriving DecidableEq, Repr

/-- One operation instance: operator identity, ordered inputs (value ids),
owned outputs (value ids), nested blocks (block ids), constant payload, and
a scope tag. -/
structure Node where
  kind : String
  inputs : List Nat := []
  outputs : List Nat := []
  blocks : List Nat := []
  attr : Lit := .noneL
  scope : String := ""
deriving DecidableEq, Repr

/-- An ordered sequence of nodes plus the block's declared output values. -/
structure Block where
  nodes : List Nat := []
  outputs : List Nat := []
deriving DecidableEq, Repr

/-- A graph: arenas for nodes, blocks and values (association lists keyed by
id), the graph input values, the id of the top-level block, and the next
fresh node / value ids. -/
structure Graph where
  nodes : List (Nat × Node) := []
  blocks : List (Nat × Block) := []
  values : List (Nat × Value) := []
  inputs : List Nat := []
  topBlock : Nat := 0
  freshN : Nat := 0
  freshV : Nat := 0
deriving DecidableEq, Repr

/-! ### Primitive IR operations (the external graph interface) -/

/-- Rewrite every arena entry's payload, keeping the keys. -/
def mapVals (f : Nat → α → α) (l : List (Nat × α)) : List (Nat × α) :=
  l.map (fun p => (p.1, f p.1 p.2))

def findNode (g : Graph) (i : Nat) : Option Node := List.lookup i g.nodes

def findBlock (g : Graph) (i : Nat) : Option Block := List.lookup i g.blocks

def findValue (g : Graph) (i : Nat) : Option Value := List.lookup i g.values

def updNode (g : Graph) (i : Nat) (f : Node → Node) : Graph :=
  { g with nodes := mapVals (fun j nd => if j = i then f nd else nd) g.nodes }

def updValue (g : Graph) (i : Nat) (f : Value → Value) : Graph :=
  { g with values := mapVals (fun j vv => if j = i then f vv else vv) g.values }

/-- `v->uniqueName()` -/
def uniqueNameOf (g : Graph) (v : Nat) : String :=
  ((findValue g v).map Value.uniqueName).getD ""

/-- `v->type()` -/
def typeOf (g : Graph) (v : Nat) : VType :=
  ((findValue g v).map Value.vtype).getD (.other "unknown")

/-- `v->type()->isSubtypeOf(TensorType::get())` -/
def isTensorTyped (g : Graph) (v : Nat) : Bool :=
  match findValue g v with
  | some vv => vv.vtype == .tensor
  | none => false

/-- The producing node of a value (`v->node()`), when the producer is an
actual node rather than the graph-input marker. -/
def producerOf (g : Graph) (v : Nat) : Option Nat :=
  match findValue g v with
  | some vv =>
    match vv.producer with
    | .node n => some n
    | .graphInput => none
  | none => none

def scopeOf (g : Graph) (n : Nat) : String :=
  ((findNode g n).map Node.scope).getD ""

/-- `n->output()`: the node's first output value. -/
def nodeOutput (g : Graph) (n : Nat) : Nat :=
  (((findNode g n).map Node.outputs).getD []).headD 0

/-- Insert `nid` immediately after `anchor` in a node list (no change when
the anchor is absent). -/
def insertAfterL (anchor nid : Nat) : List Nat → List Nat
  | [] => []
  | x :: xs => if x = anchor then x :: nid :: xs else x :: insertAfterL anchor nid xs

/-- Insert `nid` immediately before `anchor` in a node list (no change when
the anchor is absent). -/
def insertBeforeL (anchor nid : Nat) : List Nat → List Nat
  | [] => []
  | x :: xs => if x = anchor then nid :: x :: xs else x :: insertBeforeL anchor nid xs

/-- `n->insertAfter(anchor)`: place node `nid` immediately after `anchor`
inside whichever block holds `anchor`. -/
def insertAfterNode (g : Graph) (anchor nid : Nat) : Graph :=
  { g with blocks := mapVals (fun _ b => { b with nodes := insertAfterL anchor nid b.nodes }) g.blocks }

/-- `n->insertBefore(anchor)`. -/
def insertBeforeNode (g : Graph) (anchor nid : Nat) : Graph :=
  { g with blocks := mapVals (fun _ b => { b with nodes := insertBeforeL anchor nid b.nodes }) g.blocks }

/-- `graph->create(kind)`: a fresh free node (not yet placed in any block)
with a single fresh output value of tensor type and a numeric name. -/
def createN (g : Graph) (kind : String) : Graph × Nat :=
  let nid := g.freshN
  let vid := g.freshV
  ({ g with
      nodes := g.nodes ++ [(nid, { kind := kind, outputs := [vid] })],
      values := g.values ++ [(vid, { vtype := .tensor, uniqueName := toString vid, producer := .node nid })],
      freshN := nid + 1, freshV := vid + 1 }, nid)

def setUniqueName (g : Graph) (v : Nat) (s : String) : Graph :=
  updValue g v (fun vv => { vv with uniqueName := s })

def setValueType (g : Graph) (v : Nat) (t : VType) : Graph :=
  updValue g v (fun vv => { vv with vtype := t })

def setScope (g : Graph) (n : Nat) (s : String) : Graph :=
  updNode g n (fun nd => { nd with scope := s })

/-- `n->addInput(v)` -/
def addInput (g : Graph) (n v : Nat) : Graph :=
  updNode g n (fun nd => { nd with inputs := nd.inputs ++ [v] })

/-- `n->addOutput()`: append a fresh output value (default tensor type,
numeric name) to node `n`. -/
def addOutput (g : Graph) (n : Nat) : Graph × Nat :=
  let vid := g.freshV
  ({ g with
      nodes := mapVals (fun j nd => if j = n then { nd with outputs := nd.outputs ++ [vid] } else nd) g.nodes,
      values := g.values ++ [(vid, { vtype := .tensor, uniqueName := toString vid, producer := .node n })],
      freshV := vid + 1 }, vid)

/-- `v->replaceAllUsesWith(w)`: every node input and every block output
that referenced `v` now references `w`. -/
def replaceAllUsesWith (g : Graph) (v w : Nat) : Graph :=
  { g with
      nodes := mapVals (fun _ nd => { nd with inputs := nd.inputs.map (fun x => if x = v then w else x) }) g.nodes,
      blocks := mapVals (fun _ b => { b with outputs := b.outputs.map (fun x => if x = v then w else x) }) g.blocks }

/-- `n->replaceInputWith(v, w)`: only node `n`'s references to `v` move. -/
def replaceInputWith (g : Graph) (n v w : Nat) : Graph :=
  updNode g n (fun nd => { nd with inputs := nd.inputs.map (fun x => if x = v then w else x) })

def litVType : Lit → VType
  | .floatL _ => .other "Float"
  | .intL _ => .other "Int"
  | .strL _ => .other "String"
  | .noneL => .other "None"

/-- `graph->insertConstant(lit)` under `WithInsertPoint`: a fresh
`prim::Constant` node placed immediately before the insert-point anchor
(or appended to the top block when the insert point is the end of the
graph).  Returns the constant's output value. -/
def insertConstant (g : Graph) (ip : Option Nat) (lit : Lit) : Graph × Nat :=
  let nid := g.freshN
  let vid := g.freshV
  let g1 : Graph := { g with
    nodes := g.nodes ++ [(nid, { kind := "prim::Constant", outputs := [vid], attr := lit })],
    values := g.values ++ [(vid, { vtype := litVType lit, uniqueName := toString vid, producer := .node nid })],
    freshN := nid + 1, freshV := vid + 1 }
  match ip with
  | some anchor => (insertBeforeNode g1 anchor nid, vid)
  | none =>
    ({ g1 with blocks := mapVals (fun j b => if j = g1.topBlock then { b with nodes := b.nodes ++ [nid] } else b) g1.blocks }, vid)

/-! ### QuantizerUtils (quantization.cpp, anonymous namespace) -/

/-- The fixed allow-list of quantizable operator signatures
(`quantnodeLookup`, lines 19-25), identified by operator name. -/
def quantnodeLookup : List String :=
  ["aten::conv2d", "aten::relu", "aten::_convolution"]

/-- `checkIfNodeQuantizable` (lines 15-27). -/
def checkIfNodeQuantizable (n : Node) : Bool :=
  quantnodeLookup.contains n.kind

/-- `checkIfNodeQuantizable(v->node())`: is the value's producer a
quantizable node?  A graph input is produced by the `prim::Param` marker,
which is not in the allow-list. -/
def producerQuantizable (g : Graph) (v : Nat) : Bool :=
  match producerOf g v with
  | some n =>
    match findNode g n with
    | some nd => checkIfNodeQuantizable nd
    | none => false
  | none => false

/-- `insertQuantNodeParams` (lines 29-35): insert the scale and zero-point
constants at the quant node's insert point and wire them as its inputs. -/
def insertQuantNodeParams (g : Graph) (quant : Nat) (qparam : Int × Int) : Graph :=
  let r1 := insertConstant g (some quant) (.floatL qparam.1)
  let r2 := insertConstant r1.1 (some quant) (.intL qparam.2)
  addInput (addInput r2.1 quant r1.2) quant r2.2

/-- `createQuantDeQuantNodes` (lines 38-53): create the free quant and
dequant nodes, name their outputs after `v`, copy `n`'s scope. -/
def createQuantDeQuantNodes (g : Graph) (v n : Nat) : Graph × Nat × Nat :=
  let r1 := createN g "aten::quantize_linear"
  let quant := r1.2
  let g2 := setUniqueName r1.1 (nodeOutput r1.1 quant) (uniqueNameOf g v ++ ".quant")
  let r3 := createN g2 "aten::dequantize"
  let dequant := r3.2
  let g4 := setUniqueName r3.1 (nodeOutput r3.1 dequant) (uniqueNameOf g v ++ ".dequant")
  let g5 := setScope g4 quant (scopeOf g4 n)
  let g6 := setScope g5 dequant (scopeOf g5 n)
  (g6, quant, dequant)

/-- `addQuantDeQuantNodes` (lines 56-73): output-side rewrite for value
`v`.  Insert the pair after `v`'s producer, replace all uses of `v` by the
dequant output, then wire quant to `v` and the default parameters
`<Scale:1.0, ZeroPoint:0>` and dequant to quant's output. -/
def addQuantDeQuantNodes (g : Graph) (v : Nat) : Graph :=
  match producerOf g v with
  | none => g
  | some n =>
    let r := createQuantDeQuantNodes g v n
    let quant := r.2.1
    let dequant := r.2.2
    let g2 := insertAfterNode r.1 n quant
    let g3 := insertAfterNode g2 quant dequant
    let g4 := replaceAllUsesWith g3 v (nodeOutput g3 dequant)
    let g5 := addInput g4 quant v
    let g6 := insertQuantNodeParams g5 quant (1, 0)
    addInput g6 dequant (nodeOutput g6 quant)

/-- `addQuantDeQuantNodesForInput` (lines 76-95): input-side rewrite for
the pair `(v, n)`.  Insert dequant before `n` and quant before dequant,
redirect only `n`'s references to `v`, and wire as on the output side. -/
def addQuantDeQuantNodesForInput (g : Graph) (v n : Nat) : Graph :=
  let r := createQuantDeQuantNodes g v n
  let quant := r.2.1
  let dequant := r.2.2
  let g2 := insertBeforeNode r.1 n dequant
  let g3 := insertBeforeNode g2 dequant quant
  let g4 := replaceInputWith g3 n v (nodeOutput g3 dequant)
  let g5 := addInput g4 quant v
  let g6 := insertQuantNodeParams g5 quant (1, 0)
  addInput g6 dequant (nodeOutput g6 quant)

/-! ### PyBind entry points -/

/-- Result of a pass that can fail: `error` carries the failure message and
the graph exactly as it stood when the exception was thrown. -/
abbrev PassResult := Except (String × Graph) Graph

/-- `PropagateQuantInfo` (lines 100-102): unconditionally not implemented. -/
def PropagateQuantInfo (g : Graph) : PassResult :=
  .error ("Pass not implemented yet!", g)

/-- `QuantLinting` (lines 298-300). -/
def QuantLinting (g : Graph) : PassResult :=
  .error ("Pass not implemented yet!", g)

/-- `FoldQuantNodesIntoInputsOutputs` (lines 302-304). -/
def FoldQuantNodesIntoInputsOutputs (g : Graph) : PassResult :=
  .error ("Pass not implemented yet!", g)

/-! ### Observer insertion -/

/-- The observer node template handed to `InsertObserverNodes`.  Cloning it
(`createClone` with `copy_blocks = false`) copies the operator kind, the
attribute payload, the scope, the input list (the value map is the
identity) and metadata of its declared outputs. -/
structure ObserverTemplate where
  kind : String
  inputs : List Nat := []
  attr : Lit := .noneL
  scope : String := ""
  outMeta : List (VType × String) := []
deriving DecidableEq, Repr

/-- `graph->createClone(observer, identity, false)`: a fresh free node with
the template's kind, attributes, scope and inputs, and fresh output values
mirroring the template's output metadata. -/
def createCloneNoBlocks (g : Graph) (tmpl : ObserverTemplate) : Graph × Nat :=
  let nid := g.freshN
  let outIds := (List.range tmpl.outMeta.length).map (fun k => g.freshV + k)
  let outVals := (tmpl.outMeta.zip outIds).map
    (fun p => (p.2, ({ vtype := p.1.1, uniqueName := p.1.2, producer := .node nid } : Value)))
  ({ g with
      nodes := g.nodes ++ [(nid, { kind := tmpl.kind, inputs := tmpl.inputs, outputs := outIds, attr := tmpl.attr, scope := tmpl.scope })],
      values := g.values ++ outVals,
      freshN := nid + 1,
      freshV := g.freshV + tmpl.outMeta.length }, nid)

/-- `addObserverFor` (lines 104-129): insert a constant holding `v`'s name
at the insert point, clone the observer template, give the clone one new
output of `v`'s type named `v.observed`, and wire the clone to consume `v`
and the name constant. -/
def addObserverFor (g : Graph) (v : Nat) (tmpl : ObserverTemplate) (insert_point : Option Nat) : Graph × Nat :=
  let r1 := insertConstant g insert_point (.strL (uniqueNameOf g v))
  let vname := r1.2
  let r2 := createCloneNoBlocks r1.1 tmpl
  let observerNode := r2.2
  let r3 := addOutput r2.1 observerNode
  let observedValue := r3.2
  let g4 := setValueType r3.1 observedValue (typeOf r3.1 v)
  let g5 := setUniqueName g4 observedValue (uniqueNameOf g4 v ++ ".observed")
  let g6 := addInput g5 observerNode v
  let g7 := addInput g6 observerNode vname
  (g7, observerNode)

/-- `outputsNeedToBeObserved` (lines 131-133). -/
def outputsNeedToBeObserved (n : Node) : Bool :=
  n.kind != "prim::Constant"

/-- The block-worklist traversal of `InsertObserverNodes` (lines 170-192):
pop a block, scan its nodes in order, skip constants and input observers,
collect the outputs of every other node and schedule its sub-blocks. -/
def obsCollect (g : Graph) (observer_for_input : List Nat) : Nat → List Nat → List Nat → List Nat
  | 0, _, acc => acc
  | _ + 1, [], acc => acc
  | fuel + 1, b :: rest, acc =>
    match List.lookup b g.blocks with
    | none => obsCollect g observer_for_input fuel rest acc
    | some blk =>
      let r := blk.nodes.foldl
        (fun (st : List Nat × List Nat) nid =>
          match List.lookup nid g.nodes with
          | none => st
          | some nd =>
            if !outputsNeedToBeObserved nd || observer_for_input.contains nid then st
            else (st.1 ++ nd.outputs, st.2 ++ nd.blocks))
        (acc, [])
      obsCollect g observer_for_input fuel (r.2.reverse ++ rest) r.1

/-- `InsertObserverNodes` (lines 135-201).  Fails (carrying the untouched
graph) when the requested activation-input count exceeds the graph's input
count; otherwise: observe the tensor-typed activation inputs at the start
of the top block, traverse all blocks collecting tensor outputs of
non-constant, non-input-observer nodes, and observe each collected value
right after its producer. -/
def InsertObserverNodes (g : Graph) (observer_node : ObserverTemplate) (num_activation_inputs : Nat) : PassResult :=
  if num_activation_inputs ≤ g.inputs.length then
    let insert_node : Option Nat := (((List.lookup g.topBlock g.blocks).map Block.nodes).getD []).head?
    let step1 := (g.inputs.take num_activation_inputs).foldl
      (fun (acc : Graph × List Nat) v =>
        if isTensorTyped acc.1 v then
          let r := addObserverFor acc.1 v observer_node insert_node
          (match insert_node with
            | some anchor => insertBeforeNode r.1 anchor r.2
            | none => { r.1 with blocks := mapVals (fun j b => if j = r.1.topBlock then { b with nodes := b.nodes ++ [r.2] } else b) r.1.blocks },
           acc.2 ++ [r.2])
        else acc)
      (g, [])
    let g1 := step1.1
    let observer_for_input := step1.2
    let values_to_observe := obsCollect g1 observer_for_input g1.blocks.length [g1.topBlock] []
    let g2 := values_to_observe.foldl
      (fun gk v =>
        if isTensorTyped gk v then
          match producerOf gk v with
          | some pn =>
            let r := addObserverFor gk v observer_node (some pn)
            insertAfterNode r.1 pn r.2
          | none => gk
        else gk)
      g1
    .ok g2
  else
    .error ("num_activation_inputs <= graph->inputs().size()", g)

/-! ### Quant-dequant insertion -/

/-- The worklists built by the traversal of `InsertQuantDequantNodes`:
`(value, node)` pairs that get an input-side rewrite, values that get an
output-side rewrite, and the dedup set keyed by value identity. -/
structure QState where
  quantInputs : List (Nat × Nat) := []
  quantOutputs : List Nat := []
  valueLookup : List Nat := []
deriving DecidableEq, Repr

/-- Classification of one input value `v` of node `nid` (lines 242-272):
skip non-tensors; a value produced by a quantizable node goes to the
output-side worklist once (dedup set); otherwise, when the consumer itself
is quantizable, record the `(v, n)` pair for an input-side rewrite. -/
def classifyInput (g : Graph) (nid : Nat) (nd : Node) (st : QState) (v : Nat) : QState :=
  if !isTensorTyped g v then st
  else if producerQuantizable g v then
    if st.valueLookup.contains v then st
    else { st with valueLookup := st.valueLookup ++ [v], quantOutputs := st.quantOutputs ++ [v] }
  else if checkIfNodeQuantizable nd then
    { st with quantInputs := st.quantInputs ++ [(v, nid)] }
  else st

/-- The block-worklist traversal of `InsertQuantDequantNodes` (lines
230-285): pop a block, schedule each node's sub-blocks, classify each
node's inputs, then scan the block's declared outputs — a block output of
a quantizable producer is pushed to the output-side worklist *without*
consulting the dedup set (line 282). -/
def qdqCollect (g : Graph) : Nat → List Nat → QState → QState
  | 0, _, st => st
  | _ + 1, [], st => st
  | fuel + 1, b :: rest, st =>
    match List.lookup b g.blocks with
    | none => qdqCollect g fuel rest st
    | some blk =>
      let r := blk.nodes.foldl
        (fun (acc : QState × List Nat) nid =>
          match List.lookup nid g.nodes with
          | none => acc
          | some nd =>
            (nd.inputs.foldl (classifyInput g nid nd) acc.1, acc.2 ++ nd.blocks))
        (st, [])
      let st2 := blk.outputs.foldl
        (fun s v =>
          if producerQuantizable g v && isTensorTyped g v then
            { s with quantOutputs := s.quantOutputs ++ [v] }
          else s)
        r.1
      qdqCollect g fuel (r.2.reverse ++ rest) st2

/-- `InsertQuantDequantNodes` (lines 218-296): one full traversal builds
the two worklists, then the output-side rewrites are applied, then the
input-side rewrites. -/
def InsertQuantDequantNodes (g : Graph) : Graph :=
  let st := qdqCollect g g.blocks.length [g.topBlock] {}
  let g1 := st.quantOutputs.foldl addQuantDeQuantNodes g
  st.quantInputs.foldl (fun gk p => addQuantDeQuantNodesForInput gk p.1 p.2) g1

/-! ### Derived observations on graphs -/

/-- Number of nodes of a given operator kind in the graph. -/
def countKind (g : Graph) (k : String) : Nat :=
  (g.nodes.filter (fun p => p.2.kind == k)).length

/-- The node list of block `b`. -/
def blockNodesAt (g : Graph) (b : Nat) : List Nat :=
  ((findBlock g b).map Block.nodes).getD []

/-- The declared output values of block `b`. -/
def blockOutputsAt (g : Graph) (b : Nat) : List Nat :=
  ((findBlock g b).map Block.outputs).getD []

/-- The nodes consuming value `v` (in arena order). -/
def nodeConsumers (g : Graph) (v : Nat) : List Nat :=
  (g.nodes.filter (fun p => p.2.inputs.contains v)).map Prod.fst

/-! ### Example graphs used as witnesses and counterexamples -/

/-- A quantizable `conv2d` whose tensor output `10` is both an input of the
`relu` node and the top block's declared output value. -/
def exG1 : Graph :=
  { nodes := [(0, { kind := "aten::conv2d", outputs := [10] }),
              (1, { kind := "aten::relu", inputs := [10], outputs := [11] })],
    blocks := [(0, { nodes := [0, 1], outputs := [10] })],
    values := [(10, { vtype := .tensor, uniqueName := "t0", producer := .node 0 }),
               (11, { vtype := .tensor, uniqueName := "t1", producer := .node 1 })],
    inputs := [], topBlock := 0, freshN := 2, freshV := 12 }

/-- A quantizable `conv2d` whose tensor output `10` feeds three separate
consumer nodes. -/
def exG2 : Graph :=
  { nodes := [(0, { kind := "aten::conv2d", outputs := [10] }),
              (1, { kind := "aten::relu", inputs := [10], outputs := [11] }),
              (2, { kind := "aten::relu", inputs := [10], outputs := [12] }),
              (3, { kind := "aten::relu", inputs := [10], outputs := [13] })],
    blocks := [(0, { nodes := [0, 1, 2, 3] })],
    values := [(10, { vtype := .tensor, uniqueName := "t0", producer := .node 0 }),
               (11, { vtype := .tensor, uniqueName := "t1", producer := .node 1 }),
               (12, { vtype := .tensor, uniqueName := "t2", producer := .node 2 }),
               (13, { vtype := .tensor, uniqueName := "t3", producer := .node 3 })],
    inputs := [], topBlock := 0, freshN := 4, freshV := 14 }

/-- `N1(non-quantizable) -> v -> {N4(quantizable), N5(non-quantizable)}`:
node 0 produces tensor `10`, consumed by quantizable node 1 and
non-quantizable node 2. -/
def exG3 : Graph :=
  { nodes := [(0, { kind := "aten::add", outputs := [10] }),
              (1, { kind := "aten::relu", inputs := [10], outputs := [11] }),
              (2, { kind := "aten::add", inputs := [10], outputs := [12] })],
    blocks := [(0, { nodes := [0, 1, 2] })],
    values := [(10, { vtype := .tensor, uniqueName := "v", producer := .node 0 }),
               (11, { vtype := .tensor, uniqueName := "t1", producer := .node 1 }),
               (12, { vtype := .tensor, uniqueName := "t2", producer := .node 2 })],
    inputs := [], topBlock := 0, freshN := 3, freshV := 13 }

/-- A control-flow node whose sub-block holds `conv2d -> relu`: the tensor
value `10` is produced and consumed entirely inside the sub-block. -/
def exG4 : Graph :=
  { nodes := [(0, { kind := "prim::Loop", blocks := [1] }),
              (1, { kind := "aten::conv2d", outputs := [10] }),
              (2, { kind := "aten::relu", inputs := [10], outputs := [11] })],
    blocks := [(0, { nodes := [0] }), (1, { nodes := [1, 2] })],
    values := [(10, { vtype := .tensor, uniqueName := "t0", producer := .node 1 }),
               (11, { vtype := .tensor, uniqueName := "t1", producer := .node 2 })],
    inputs := [], topBlock := 0, freshN := 3, freshV := 12 }

/-- An observer template with no inputs and no declared outputs. -/
def obsTmpl : ObserverTemplate := { kind := "observer::o" }

/-- Two graph inputs (a tensor and an int), a `conv2d`, a constant, and an
`add`; tensor values `110` and `112` are intermediate outputs. -/
def exG5 : Graph :=
  { nodes := [(0, { kind := "aten::conv2d", inputs := [100], outputs := [110] }),
              (1, { kind := "prim::Constant", outputs := [111], attr := .intL 7 }),
              (2, { kind := "aten::add", inputs := [110, 111], outputs := [112] })],
    blocks := [(0, { nodes := [0, 1, 2], outputs := [112] })],
    values := [(100, { vtype := .tensor, uniqueName := "a", producer := .graphInput }),
               (101, { vtype := .other "Int", uniqueName := "b", producer := .graphInput }),
               (110, { vtype := .tensor, uniqueName := "t", producer := .node 0 }),
               (111, { vtype := .other "Int", uniqueName := "c", producer := .node 1 }),
               (112, { vtype := .tensor, uniqueName := "u", producer := .node 2 })],
    inputs := [100, 101], topBlock := 0, freshN := 3, freshV := 113 }

/-- The graph `InsertObserverNodes` produces from `exG5` with the template
`obsTmpl` and two activation inputs (the pass succeeds there). -/
def exG5obs : Graph :=
  match InsertObserverNodes exG5 obsTmpl 2 with
  | .ok h => h
  | .error e => e.2

/-! ### The traversal skeleton and the block-tree specification

Both passes use the same worklist skeleton: pop a block id, scan its node
list in order, schedule each node's sub-blocks on the stack.  `visitPairs`
records the visited `(id, node)` pairs of that skeleton, parameterized by
the push choice `pushF` (the quant-dequant pass always pushes
`nd.blocks`; the observer pass pushes nothing for skipped nodes, which in
any real graph have no sub-blocks). -/

def visitPairs (g : Graph) (pushF : Nat → Node → List Nat) :
    Nat → List Nat → List (Nat × Node) → List (Nat × Node)
  | 0, _, acc => acc
  | _ + 1, [], acc => acc
  | fuel + 1, b :: rest, acc =>
    match List.lookup b g.blocks with
    | none => visitPairs g pushF fuel rest acc
    | some blk =>
      let r := blk.nodes.foldl
        (fun (st : List (Nat × Node) × List Nat) nid =>
          match List.lookup nid g.nodes with
          | none => st
          | some nd => (st.1 ++ [(nid, nd)], st.2 ++ pushF nid nd))
        (acc, [])
      visitPairs g pushF fuel (r.2.reverse ++ rest) r.1

/-- Concatenation of a list-valued map (kept self-contained). -/
def cmap (f : α → List β) : List α → List β
  | [] => []
  | x :: xs => f x ++ cmap f xs

/-- The sub-block ids announced by a block: the concatenation, in node
order, of its nodes' sub-block lists. -/
def blockSubIds (g : Graph) (blk : Block) : List Nat :=
  cmap (fun nid =>
    match List.lookup nid g.nodes with
    | some nd => nd.blocks
    | none => []) blk.nodes

/-- The `(id, node)` pairs of one block, in order. -/
def blockPairs (g : Graph) (blk : Block) : List (Nat × Node) :=
  cmap (fun nid =>
    match List.lookup nid g.nodes with
    | some nd => [(nid, nd)]
    | none => []) blk.nodes

/-- A finitely-branching tree of block ids, describing the nesting
structure of a well-formed graph's blocks. -/
inductive BTree where
  | mk (id : Nat) (children : List BTree)

def BTree.rootId : BTree → Nat
  | .mk i _ => i

mutual

/-- Number of blocks in a tree. -/
def BTree.size : BTree → Nat
  | .mk _ cs => 1 + sizeF cs

def sizeF : List BTree → Nat
  | [] => 0
  | t :: ts => t.size + sizeF ts

end

mutual

/-- Does the tree describe the graph's block structure?  The root must be
a block of the arena whose announced sub-block ids are exactly the
children's roots, in order, and recursively so. -/
def describes (g : Graph) : BTree → Bool
  | .mk i cs =>
    (match List.lookup i g.blocks with
     | none => false
     | some blk => blockSubIds g blk == cs.map BTree.rootId) && describesF g cs

def describesF (g : Graph) : List BTree → Bool
  | [] => true
  | t :: ts => describes g t && describesF g ts

end

mutual

/-- All `(id, node)` pairs reachable through the tree, depth-first. -/
def treePairs (g : Graph) : BTree → List (Nat × Node)
  | .mk i cs =>
    (match List.lookup i g.blocks with
     | none => []
     | some blk => blockPairs g blk) ++ forestPairs g cs

def forestPairs (g : Graph) : List BTree → List (Nat × Node)
  | [] => []
  | t :: ts => treePairs g t ++ forestPairs g ts

end

/-- The node ids reachable from the tree's blocks. -/
def BTree.nodeIds (g : Graph) (t : BTree) : List Nat :=
  (treePairs g t).map Prod.fst

/-- The visit list of the quant-dequant pass's traversal: every looked-up
node of every reached block, in visit order, with every node's sub-blocks
scheduled. -/
def visitIds (g : Graph) : List Nat :=
  (visitPairs g (fun _ nd => nd.blocks) g.blocks.length [g.topBlock] []).map Prod.fst

/-- The tensor-typed activation inputs: the tensor-typed values among the
first `k` graph inputs. -/
def tensorActivationInputs (g : Graph) (k : Nat) : List Nat :=
  (g.inputs.take k).filter (fun v => isTensorTyped g v)

/-- The tensor-typed output values of all non-constant nodes reachable
through the block tree `t` — the `j` values of the observer-coverage
property. -/
def observableTensorOutputs (g : Graph) (t : BTree) : List Nat :=
  (cmap (fun p => if outputsNeedToBeObserved p.2 then p.2.outputs else [])
      (treePairs g t)).filter (fun v => isTensorTyped g v)

/-- The arena entries a pass appended to the graph (all mutations keep the
pre-existing entries in place, in order). -/
def newNodes (g gafter : Graph) : List (Nat × Node) :=
  gafter.nodes.drop g.nodes.length

/-- The appended nodes of a given operator kind. -/
def newNodesOfKind (g gafter : Graph) (kind : String) : List (Nat × Node) :=
  (newNodes g gafter).filter (fun p => p.2.kind == kind)

/-- The sub-block ids announced by the block with id `cb`. -/
def blockSubIdsAt (g : Graph) (cb : Nat) : List Nat :=
  blockSubIds g { nodes := blockNodesAt g cb }

/-- `Ins P l l1`: `l1` is `l` with extra elements satisfying `P` inserted
at arbitrary positions (the relative order of `l` is preserved).  This is
how a pass's node insertions relate a block's node list before and after
the pass. -/
inductive Ins (P : Nat → Prop) : List Nat → List Nat → Prop where
  | nil : Ins P [] []
  | keep (x : Nat) {l l1 : List Nat} : Ins P l l1 → Ins P (x :: l) (x :: l1)
  | extra (x : Nat) {l l1 : List Nat} : P x → Ins P l l1 → Ins P l (x :: l1)

/-- The shape of an observer clone: the template's inputs followed by the
observed value `v` and the name constant, the template's outputs followed
by exactly one new observed output `o`, and `o`'s value entry carries
`v`'s type and `v`'s name suffixed with `.observed`. -/
def CloneShape (tmpl : ObserverTemplate) (vals : List (Nat × Value)) (nd : Node) : Prop :=
  ∃ v w outs o ov vv,
    nd.inputs = tmpl.inputs ++ [v, w] ∧
    nd.outputs = outs ++ [o] ∧
    outs.length = tmpl.outMeta.length ∧
    List.lookup o vals = some ov ∧
    List.lookup v vals = some vv ∧
    ov.vtype = vv.vtype ∧
    ov.uniqueName = vv.uniqueName ++ ".observed"

/-- Relation between the original graph `g` and a graph `gk` reached by
observer insertions: the node arena is `g`'s plus appended entries `E`
(fresh ids, no sub-blocks, constants or observer clones, clones
well-shaped, exactly `c` clones), the value arena is `g`'s plus fresh
entries, fresh counters only grow, block outputs are untouched and block
node lists only gained fresh ids. -/
def ObsCore (g : Graph) (tmpl : ObserverTemplate) (gk : Graph)
    (E : List (Nat × Node)) (c : Nat) : Prop :=
  gk.nodes = g.nodes ++ E ∧
  (∀ p ∈ E, g.freshN ≤ p.1 ∧ p.2.blocks = [] ∧
     (p.2.kind = "prim::Constant" ∨ p.2.kind = tmpl.kind)) ∧
  (∀ p ∈ E, p.2.kind = tmpl.kind → CloneShape tmpl gk.values p.2) ∧
  (E.filter (fun p => p.2.kind == tmpl.kind)).length = c ∧
  (∃ F, gk.values = g.values ++ F ∧ ∀ p ∈ F, g.freshV ≤ p.1) ∧
  g.freshN ≤ gk.freshN ∧ g.freshV ≤ gk.freshV ∧
  (∀ p ∈ gk.nodes, p.1 < gk.freshN) ∧
  (∀ p ∈ gk.values, p.1 < gk.freshV) ∧
  gk.blocks.length = g.blocks.length ∧
  (∀ cb, (List.lookup cb gk.blocks).isSome = (List.lookup cb g.blocks).isSome) ∧
  (∀ cb, blockOutputsAt gk cb = blockOutputsAt g cb) ∧
  (∀ cb, Ins (fun x => g.freshN ≤ x) (blockNodesAt g cb) (blockNodesAt gk cb)) ∧
  gk.topBlock = g.topBlock ∧ gk.inputs = g.inputs

/-- The two arena entries `addObserverFor` appends to the node list: the
name constant and the observer clone. -/
def obsNewNodes (tmpl : ObserverTemplate) (fN fV v : Nat) (s : String) : List (Nat × Node) :=
  [(fN, { kind := "prim::Constant", inputs := [], outputs := [fV], blocks := [],
          attr := .strL s, scope := "" }),
   (fN + 1, { kind := tmpl.kind, inputs := tmpl.inputs ++ [v, fV],
              outputs := ((List.range tmpl.outMeta.length).map (fun k => fV + 1 + k)) ++
                [fV + 1 + tmpl.outMeta.length],
              blocks := [], attr := tmpl.attr, scope := tmpl.scope })]

/-- The value entries `addObserverFor` appends: the name string, the clone's
template outputs, and the observed output carrying `vv`'s type and name. -/
def obsNewVals (tmpl : ObserverTemplate) (fN fV : Nat) (vv : Value) : List (Nat × Value) :=
  (fV, { vtype := .other "String", uniqueName := toString fV, producer := .node fN }) ::
  (((tmpl.outMeta.zip ((List.range tmpl.outMeta.length).map (fun k => fV + 1 + k))).map
      (fun p => (p.2, ({ vtype := p.1.1, uniqueName := p.1.2,
                         producer := .node (fN + 1) } : Value)))) ++
   [(fV + 1 + tmpl.outMeta.length,
     { vtype := vv.vtype, uniqueName := vv.uniqueName ++ ".observed",
       producer := .node (fN + 1) })])


/-- The outputs the observer traversal collects from one visited node:
none when the node is skipped (constant or input observer), its output
list otherwise. -/
def obsSel (g : Graph) (ofi : List Nat) (p : Nat × Node) : List Nat :=
  if !outputsNeedToBeObserved p.2 || ofi.contains p.1 then [] else p.2.outputs


/-- One node's contribution, keyed by id, to a per-pair collection over a
block's node list (the lookup-then-select step of the traversals). -/
def pairSel (gX : Graph) (f : Nat × Node → List Nat) (nid : Nat) : List Nat :=
  match List.lookup nid gX.nodes with
  | some nd => f (nid, nd)
  | none => []

/-! ### Association-list and insertion lemmas -/

theorem lookup_append (i : Nat) (l r : List (Nat × α)) :
    List.lookup i (l ++ r) = ((List.lookup i l).or (List.lookup i r)) := by
  induction l with
  | nil => simp [List.lookup]
  | cons p t ih =>
    by_cases h : i = p.1
    · simp [List.lookup, h]
    · simp [List.lookup, beq_false_of_ne h, ih]

theorem lookup_mapVals (f : Nat → α → α) (i : Nat) (l : List (Nat × α)) :
    List.lookup i (mapVals f l) = (List.lookup i l).map (f i) := by
  induction l with
  | nil => simp [List.lookup, mapVals]
  | cons p t ih =>
    by_cases h : i = p.1
    · subst h; simp [List.lookup, mapVals]
    · simp [List.lookup, mapVals, beq_false_of_ne h] at ih ⊢; exact ih

theorem lookup_eq_none_of_lt (l : List (Nat × α)) (m k : Nat)
    (hl : ∀ p ∈ l, p.1 < m) (hk : m ≤ k) : List.lookup k l = none := by
  induction l with
  | nil => simp [List.lookup]
  | cons p t ih =>
    obtain ⟨a, b⟩ := p
    have h1 : a < m := hl (a, b) (by simp)
    have hne : (k == a) = false := beq_false_of_ne (by omega)
    simp only [List.lookup, hne]
    exact ih (fun q hq => hl q (by simp [hq]))

theorem lookup_mem {l : List (Nat × α)} {k : Nat} {v : α}
    (h : List.lookup k l = some v) : (k, v) ∈ l := by
  induction l with
  | nil => simp [List.lookup] at h
  | cons p t ih =>
    by_cases hk : k = p.1
    · subst hk
      simp [List.lookup] at h
      subst h
      simp
    · simp [List.lookup, beq_false_of_ne hk] at h
      exact List.mem_cons_of_mem _ (ih h)

theorem mapVals_append (f : Nat → α → α) (l r : List (Nat × α)) :
    mapVals f (l ++ r) = mapVals f l ++ mapVals f r := by
  simp [mapVals]

theorem mapVals_nil (f : Nat → α → α) : mapVals f [] = [] := rfl

theorem mapVals_cons (f : Nat → α → α) (k : Nat) (x : α) (l : List (Nat × α)) :
    mapVals f ((k, x) :: l) = (k, f k x) :: mapVals f l := rfl

theorem lookup_single (i k : Nat) (x : α) :
    List.lookup i [(k, x)] = if i = k then some x else none := by
  by_cases h : i = k
  · subst h; simp [List.lookup]
  · simp [List.lookup, beq_false_of_ne h, h]

theorem lookup_cons (i k : Nat) (x : α) (l : List (Nat × α)) :
    List.lookup i ((k, x) :: l) = if i = k then some x else List.lookup i l := by
  by_cases h : i = k
  · subst h; simp [List.lookup]
  · simp [List.lookup, beq_false_of_ne h, h]

theorem omap_id (o : Option α) : o.map (fun x => x) = o := by
  cases o <;> rfl

theorem lookup_of_mem_nodup {k : Nat} {v : α} :
    ∀ {l : List (Nat × α)}, (l.map Prod.fst).Nodup → (k, v) ∈ l → List.lookup k l = some v
  | [], _, h => by simp at h
  | p :: t, hn, h => by
    rcases List.mem_cons.mp h with h | h
    · rw [← h]; simp [List.lookup]
    · have hk : k ≠ p.1 := by
        intro he
        have hmem : k ∈ t.map Prod.fst := List.mem_map.mpr ⟨(k, v), h, rfl⟩
        rw [List.map_cons] at hn
        exact (List.nodup_cons.mp hn).1 (he ▸ hmem)
      simp only [List.lookup, beq_false_of_ne hk]
      exact lookup_of_mem_nodup
        (by rw [List.map_cons] at hn; exact (List.nodup_cons.mp hn).2) h

theorem mapVals_eq_self {f : Nat → α → α} {l : List (Nat × α)}
    (h : ∀ p ∈ l, f p.1 p.2 = p.2) : mapVals f l = l := by
  unfold mapVals
  calc l.map (fun p => (p.1, f p.1 p.2)) = l.map id := by
        apply List.map_congr_left
        intro p hp
        simp [h p hp]
       _ = l := List.map_id l

theorem mapVals_mapVals (f h : Nat → α → α) (l : List (Nat × α)) :
    mapVals f (mapVals h l) = mapVals (fun k v => f k (h k v)) l := by
  simp [mapVals, Function.comp]

theorem insertAfterL_of_not_mem {anchor : Nat} (nid : Nat) {l : List Nat}
    (h : anchor ∉ l) : insertAfterL anchor nid l = l := by
  induction l with
  | nil => rfl
  | cons x xs ih =>
    have hx : x ≠ anchor := by
      intro he; exact h (by simp [he])
    simp [insertAfterL, hx]
    exact ih (fun hm => h (by simp [hm]))

theorem insertAfterL_app {anchor : Nat} (nid : Nat) {p : List Nat} (q : List Nat)
    (hp : anchor ∉ p) : insertAfterL anchor nid (p ++ anchor :: q) = p ++ anchor :: nid :: q := by
  induction p with
  | nil => simp [insertAfterL]
  | cons x xs ih =>
    have hx : x ≠ anchor := by
      intro he; exact hp (by simp [he])
    simp [insertAfterL, hx]
    exact ih (fun hm => hp (by simp [hm]))

theorem insertBeforeL_of_not_mem {anchor : Nat} (nid : Nat) {l : List Nat}
    (h : anchor ∉ l) : insertBeforeL anchor nid l = l := by
  induction l with
  | nil => rfl
  | cons x xs ih =>
    have hx : x ≠ anchor := by
      intro he; exact h (by simp [he])
    simp [insertBeforeL, hx]
    exact ih (fun hm => h (by simp [hm]))

theorem insertBeforeL_app {anchor : Nat} (nid : Nat) {p : List Nat} (q : List Nat)
    (hp : anchor ∉ p) : insertBeforeL anchor nid (p ++ anchor :: q) = p ++ nid :: anchor :: q := by
  induction p with
  | nil => simp [insertBeforeL]
  | cons x xs ih =>
    have hx : x ≠ anchor := by
      intro he; exact hp (by simp [he])
    simp [insertBeforeL, hx]
    exact ih (fun hm => hp (by simp [hm]))

/-! ### Claim theorems: stubs and precondition failures -/

/-- C1: the claim that `InsertQuantDequantNodes` rewrites a value at most
once per pass invocation fails precisely in the case the claim singles
out: when `v` is simultaneously a node input and a block's declared output
value.  In `exG1`, value `10` (output of a quantizable `conv2d`) is an
input of node `1` and the top block's output; the block-output scan (line
282 of the source) pushes it to `quantOutputs` without consulting the
`valueLookup` dedup set, so the worklist holds it twice and two
quantize/dequantize pairs are chained onto it.  The dedup part of the
claim does hold for plain fan-out: in `exG2` one quantizable output with
three consumers gets exactly one pair, id `4`/`5`, and all three
consumers end up consuming the single dequantize output `15`. -/
theorem qdq_block_output_rewritten_twice :
    (qdqCollect exG1 exG1.blocks.length [exG1.topBlock] {}).quantOutputs = [10, 10] ∧
    countKind (InsertQuantDequantNodes exG1) "aten::quantize_linear" = 2 ∧
    countKind (InsertQuantDequantNodes exG1) "aten::dequantize" = 2 ∧
    countKind (InsertQuantDequantNodes exG2) "aten::quantize_linear" = 1 ∧
    ((InsertQuantDequantNodes exG2).nodes.filter
        (fun p => 1 ≤ p.1 && p.1 ≤ 3)).map (fun p => p.2.inputs) = [[15], [15], [15]] ∧
    nodeOutput (InsertQuantDequantNodes exG2) 5 = 15 := by
  exact ⟨by decide, by decide, by decide, by decide, by decide, by decide⟩

/-- C6: each of the three unimplemented entry points fails unconditionally
with the not-implemented message, and the error carries the graph exactly
as it was passed in — no mutation ever happens. -/
theorem stub_passes_fail_unconditionally (g : Graph) :
    PropagateQuantInfo g = .error ("Pass not implemented yet!", g) ∧
    QuantLinting g = .error ("Pass not implemented yet!", g) ∧
    FoldQuantNodesIntoInputsOutputs g = .error ("Pass not implemented yet!", g) :=
  ⟨rfl, rfl, rfl⟩

/-- C7: whenever the requested activation-input count strictly exceeds the
graph's input count, `InsertObserverNodes` fails with the precondition
violation (the `AT_ASSERT` on line 142) instead of proceeding. -/
theorem insertObservers_precondition_violation (g : Graph) (tmpl : ObserverTemplate)
    (k : Nat) (h : g.inputs.length < k) :
    InsertObserverNodes g tmpl k =
      .error ("num_activation_inputs <= graph->inputs().size()", g) := by
  unfold InsertObserverNodes
  rw [if_neg (by omega)]

/-- Witness for C7 at `exG5` (2 inputs) with requested count 3. -/
theorem insertObservers_precondition_violation_witness :
    exG5.inputs.length < 3 ∧
    InsertObserverNodes exG5 obsTmpl 3 =
      .error ("num_activation_inputs <= graph->inputs().size()", exG5) :=
  ⟨by decide, insertObservers_precondition_violation exG5 obsTmpl 3 (by decide)⟩

/-- C10: whenever `InsertObserverNodes` fails, the failure is the
activation-count precondition and the graph carried by the error is
exactly the original graph: the check precedes the first mutation, so this
failure is atomic.  (The other precondition of the source, the null-graph
`AT_ASSERT` on line 139, has no counterpart here because the embedding
cannot express a null graph reference.) -/
theorem insertObservers_failure_atomic (g : Graph) (tmpl : ObserverTemplate) (k : Nat)
    (msg : String) (g' : Graph)
    (h : InsertObserverNodes g tmpl k = .error (msg, g')) :
    g' = g ∧ msg = "num_activation_inputs <= graph->inputs().size()" := by
  unfold InsertObserverNodes at h
  by_cases hk : k ≤ g.inputs.length
  · rw [if_pos hk] at h
    exact absurd h (by simp)
  · rw [if_neg hk] at h
    simp only [Except.error.injEq, Prod.mk.injEq] at h
    exact ⟨h.2.symm, h.1.symm⟩

/-- Witness for C10: the failing invocation on `exG5` with count 3 carries
back `exG5` itself. -/
theorem insertObservers_failure_atomic_witness :
    (InsertObserverNodes exG5 obsTmpl 3 =
      .error ("num_activation_inputs <= graph->inputs().size()", exG5)) ∧
    (exG5 = exG5 ∧
      "num_activation_inputs <= graph->inputs().size()" =
        "num_activation_inputs <= graph->inputs().size()") :=
  ⟨by rfl, insertObservers_failure_atomic exG5 obsTmpl 3
      "num_activation_inputs <= graph->inputs().size()" exG5 (by rfl)⟩

/-! ### Characterization of the output-side rewrite (`addQuantDeQuantNodes`)

The rewrite allocates the quantize node at id `g.freshN`, the dequantize
node at `g.freshN + 1`, and the scale / zero-point constants at
`g.freshN + 2` / `g.freshN + 3`; their outputs are the values `g.freshV`
through `g.freshV + 3`.  The lemmas below pin down each arena entry, the
final node order inside the producer's block, and the frame effect on all
pre-existing nodes and block outputs. -/

section OutputSide

variable {g : Graph} {v n : Nat} {vv : Value} {nd : Node}

theorem addQDQ_quant (hv : findValue g v = some vv)
    (hprod : vv.producer = .node n)
    (hn : findNode g n = some nd)
    (hnlt : ∀ r ∈ g.nodes, r.1 < g.freshN)
    (hvlt : ∀ r ∈ g.values, r.1 < g.freshV) :
    findNode (addQuantDeQuantNodes g v) g.freshN =
      some { kind := "aten::quantize_linear", inputs := [v, g.freshV + 2, g.freshV + 3],
             outputs := [g.freshV], blocks := [], attr := .noneL, scope := nd.scope } := by
  have hv' : List.lookup v g.values = some vv := hv
  have hn' : List.lookup n g.nodes = some nd := hn
  have hnN : n < g.freshN := hnlt (n, nd) (lookup_mem hn')
  have hL0 : List.lookup g.freshN g.nodes = none := lookup_eq_none_of_lt _ _ _ hnlt le_rfl
  have hL1 : List.lookup (g.freshN + 1) g.nodes = none := lookup_eq_none_of_lt _ _ _ hnlt (by omega)
  have hV0 : List.lookup g.freshV g.values = none := lookup_eq_none_of_lt _ _ _ hvlt le_rfl
  have hV1 : List.lookup (g.freshV + 1) g.values = none := lookup_eq_none_of_lt _ _ _ hvlt (by omega)
  have hprod' : producerOf g v = some n := by simp [producerOf, hv, hprod]
  have ga2 : g.freshN + 1 + 1 = g.freshN + 2 := by omega
  have ga3 : g.freshN + 1 + 1 + 1 = g.freshN + 3 := by omega
  have gv2 : g.freshV + 1 + 1 = g.freshV + 2 := by omega
  have gv3 : g.freshV + 1 + 1 + 1 = g.freshV + 3 := by omega
  have e01 : ¬ (g.freshN = g.freshN + 1) := by omega
  have e02 : ¬ (g.freshN = g.freshN + 2) := by omega
  have e03 : ¬ (g.freshN = g.freshN + 3) := by omega
  have en0 : ¬ (n = g.freshN) := by omega
  have en1 : ¬ (n = g.freshN + 1) := by omega
  simp only [addQuantDeQuantNodes, hprod', createQuantDeQuantNodes, createN,
    insertQuantNodeParams, insertConstant, insertAfterNode, insertBeforeNode,
    replaceAllUsesWith, addInput, setUniqueName, setScope, updValue, updNode,
    nodeOutput, scopeOf, uniqueNameOf, findNode, findValue,
    lookup_append, lookup_mapVals, lookup_single, mapVals_nil, mapVals_cons,
    mapVals_append, hv', hn', hL0, hL1, hV0, hV1,
    List.append_assoc, List.cons_append, List.nil_append,
    Option.map_some, Option.map_none, Option.or_some, Option.or_none,
    Option.getD_some, Option.getD_none, List.headD,
    e01, e02, e03, en0, en1, if_true, if_false, ite_true, ite_false]
  simp [lookup_cons, ga2, ga3, gv2, gv3, e01, e02, e03, en0, en1]

theorem addQDQ_dequant (hv : findValue g v = some vv)
    (hprod : vv.producer = .node n)
    (hn : findNode g n = some nd)
    (hnlt : ∀ r ∈ g.nodes, r.1 < g.freshN)
    (hvlt : ∀ r ∈ g.values, r.1 < g.freshV) :
    findNode (addQuantDeQuantNodes g v) (g.freshN + 1) =
      some { kind := "aten::dequantize", inputs := [g.freshV], outputs := [g.freshV + 1],
             blocks := [], attr := .noneL, scope := nd.scope } := by
  have hv' : List.lookup v g.values = some vv := hv
  have hn' : List.lookup n g.nodes = some nd := hn
  have hnN : n < g.freshN := hnlt (n, nd) (lookup_mem hn')
  have hL0 : List.lookup g.freshN g.nodes = none := lookup_eq_none_of_lt _ _ _ hnlt le_rfl
  have hL1 : List.lookup (g.freshN + 1) g.nodes = none := lookup_eq_none_of_lt _ _ _ hnlt (by omega)
  have hV0 : List.lookup g.freshV g.values = none := lookup_eq_none_of_lt _ _ _ hvlt le_rfl
  have hV1 : List.lookup (g.freshV + 1) g.values = none := lookup_eq_none_of_lt _ _ _ hvlt (by omega)
  have hprod' : producerOf g v = some n := by simp [producerOf, hv, hprod]
  have ga2 : g.freshN + 1 + 1 = g.freshN + 2 := by omega
  have ga3 : g.freshN + 1 + 1 + 1 = g.freshN + 3 := by omega
  have gv2 : g.freshV + 1 + 1 = g.freshV + 2 := by omega
  have gv3 : g.freshV + 1 + 1 + 1 = g.freshV + 3 := by omega
  have e10 : ¬ (g.freshN + 1 = g.freshN) := by omega
  have e12 : ¬ (g.freshN + 1 = g.freshN + 2) := by omega
  have e13 : ¬ (g.freshN + 1 = g.freshN + 3) := by omega
  have en0 : ¬ (n = g.freshN) := by omega
  have en1 : ¬ (n = g.freshN + 1) := by omega
  simp only [addQuantDeQuantNodes, hprod', createQuantDeQuantNodes, createN,
    insertQuantNodeParams, insertConstant, insertAfterNode, insertBeforeNode,
    replaceAllUsesWith, addInput, setUniqueName, setScope, updValue, updNode,
    nodeOutput, scopeOf, uniqueNameOf, findNode, findValue,
    lookup_append, lookup_mapVals, lookup_single, mapVals_nil, mapVals_cons,
    mapVals_append, hv', hn', hL0, hL1, hV0, hV1,
    List.append_assoc, List.cons_append, List.nil_append,
    Option.map_some, Option.map_none, Option.or_some, Option.or_none,
    Option.getD_some, Option.getD_none, List.headD,
    e10, e12, e13, en0, en1, if_true, if_false, ite_true, ite_false]
  simp [lookup_cons, ga2, ga3, gv2, gv3, e10, e12, e13, en0, en1]

theorem addQDQ_scale (hv : findValue g v = some vv)
    (hprod : vv.producer = .node n)
    (hn : findNode g n = some nd)
    (hnlt : ∀ r ∈ g.nodes, r.1 < g.freshN)
    (hvlt : ∀ r ∈ g.values, r.1 < g.freshV) :
    findNode (addQuantDeQuantNodes g v) (g.freshN + 2) =
      some { kind := "prim::Constant", inputs := [], outputs := [g.freshV + 2],
             blocks := [], attr := .floatL 1, scope := "" } := by
  have hv' : List.lookup v g.values = some vv := hv
  have hn' : List.lookup n g.nodes = some nd := hn
  have hnN : n < g.freshN := hnlt (n, nd) (lookup_mem hn')
  have hL0 : List.lookup g.freshN g.nodes = none := lookup_eq_none_of_lt _ _ _ hnlt le_rfl
  have hL1 : List.lookup (g.freshN + 1) g.nodes = none := lookup_eq_none_of_lt _ _ _ hnlt (by omega)
  have hL2 : List.lookup (g.freshN + 2) g.nodes = none := lookup_eq_none_of_lt _ _ _ hnlt (by omega)
  have hV0 : List.lookup g.freshV g.values = none := lookup_eq_none_of_lt _ _ _ hvlt le_rfl
  have hV1 : List.lookup (g.freshV + 1) g.values = none := lookup_eq_none_of_lt _ _ _ hvlt (by omega)
  have hprod' : producerOf g v = some n := by simp [producerOf, hv, hprod]
  have ga2 : g.freshN + 1 + 1 = g.freshN + 2 := by omega
  have ga3 : g.freshN + 1 + 1 + 1 = g.freshN + 3 := by omega
  have gv2 : g.freshV + 1 + 1 = g.freshV + 2 := by omega
  have gv3 : g.freshV + 1 + 1 + 1 = g.freshV + 3 := by omega
  have e20 : ¬ (g.freshN + 2 = g.freshN) := by omega
  have e21 : ¬ (g.freshN + 2 = g.freshN + 1) := by omega
  have e23 : ¬ (g.freshN + 2 = g.freshN + 3) := by omega
  have en0 : ¬ (n = g.freshN) := by omega
  have en1 : ¬ (n = g.freshN + 1) := by omega
  simp only [addQuantDeQuantNodes, hprod', createQuantDeQuantNodes, createN,
    insertQuantNodeParams, insertConstant, insertAfterNode, insertBeforeNode,
    replaceAllUsesWith, addInput, setUniqueName, setScope, updValue, updNode,
    nodeOutput, scopeOf, uniqueNameOf, findNode, findValue,
    lookup_append, lookup_mapVals, lookup_single, mapVals_nil, mapVals_cons,
    mapVals_append, hv', hn', hL0, hL1, hL2, hV0, hV1,
    List.append_assoc, List.cons_append, List.nil_append,
    Option.map_some, Option.map_none, Option.or_some, Option.or_none,
    Option.getD_some, Option.getD_none, List.headD,
    e20, e21, e23, en0, en1, if_true, if_false, ite_true, ite_false]
  simp [lookup_cons, ga2, ga3, gv2, gv3, e20, e21, e23, en0, en1]

theorem addQDQ_zeropoint (hv : findValue g v = some vv)
    (hprod : vv.producer = .node n)
    (hn : findNode g n = some nd)
    (hnlt : ∀ r ∈ g.nodes, r.1 < g.freshN)
    (hvlt : ∀ r ∈ g.values, r.1 < g.freshV) :
    findNode (addQuantDeQuantNodes g v) (g.freshN + 3) =
      some { kind := "prim::Constant", inputs := [], outputs := [g.freshV + 3],
             blocks := [], attr := .intL 0, scope := "" } := by
  have hv' : List.lookup v g.values = some vv := hv
  have hn' : List.lookup n g.nodes = some nd := hn
  have hnN : n < g.freshN := hnlt (n, nd) (lookup_mem hn')
  have hL0 : List.lookup g.freshN g.nodes = none := lookup_eq_none_of_lt _ _ _ hnlt le_rfl
  have hL1 : List.lookup (g.freshN + 1) g.nodes = none := lookup_eq_none_of_lt _ _ _ hnlt (by omega)
  have hL3 : List.lookup (g.freshN + 3) g.nodes = none := lookup_eq_none_of_lt _ _ _ hnlt (by omega)
  have hV0 : List.lookup g.freshV g.values = none := lookup_eq_none_of_lt _ _ _ hvlt le_rfl
  have hV1 : List.lookup (g.freshV + 1) g.values = none := lookup_eq_none_of_lt _ _ _ hvlt (by omega)
  have hprod' : producerOf g v = some n := by simp [producerOf, hv, hprod]
  have ga2 : g.freshN + 1 + 1 = g.freshN + 2 := by omega
  have ga3 : g.freshN + 1 + 1 + 1 = g.freshN + 3 := by omega
  have gv2 : g.freshV + 1 + 1 = g.freshV + 2 := by omega
  have gv3 : g.freshV + 1 + 1 + 1 = g.freshV + 3 := by omega
  have e30 : ¬ (g.freshN + 3 = g.freshN) := by omega
  have e31 : ¬ (g.freshN + 3 = g.freshN + 1) := by omega
  have e32 : ¬ (g.freshN + 3 = g.freshN + 2) := by omega
  have en0 : ¬ (n = g.freshN) := by omega
  have en1 : ¬ (n = g.freshN + 1) := by omega
  simp only [addQuantDeQuantNodes, hprod', createQuantDeQuantNodes, createN,
    insertQuantNodeParams, insertConstant, insertAfterNode, insertBeforeNode,
    replaceAllUsesWith, addInput, setUniqueName, setScope, updValue, updNode,
    nodeOutput, scopeOf, uniqueNameOf, findNode, findValue,
    lookup_append, lookup_mapVals, lookup_single, mapVals_nil, mapVals_cons,
    mapVals_append, hv', hn', hL0, hL1, hL3, hV0, hV1,
    List.append_assoc, List.cons_append, List.nil_append,
    Option.map_some, Option.map_none, Option.or_some, Option.or_none,
    Option.getD_some, Option.getD_none, List.headD,
    e30, e31, e32, en0, en1, if_true, if_false, ite_true, ite_false]
  simp [lookup_cons, ga2, ga3, gv2, gv3, e30, e31, e32, en0, en1]

theorem addQDQ_block (hv : findValue g v = some vv)
    (hprod : vv.producer = .node n)
    (hn : findNode g n = some nd)
    (hnlt : ∀ r ∈ g.nodes, r.1 < g.freshN)
    (hvlt : ∀ r ∈ g.values, r.1 < g.freshV) (b : Nat) (blk : Block) (p q : List Nat)
    (hb : findBlock g b = some blk)
    (hbn : blk.nodes = p ++ n :: q)
    (hnp : n ∉ p)
    (hplt : ∀ x ∈ p, x < g.freshN) :
    blockNodesAt (addQuantDeQuantNodes g v) b =
      p ++ n :: (g.freshN + 2) :: (g.freshN + 3) :: g.freshN :: (g.freshN + 1) :: q := by
  have hv' : List.lookup v g.values = some vv := hv
  have hn' : List.lookup n g.nodes = some nd := hn
  have hb' : List.lookup b g.blocks = some blk := hb
  have hnN : n < g.freshN := hnlt (n, nd) (lookup_mem hn')
  have hL0 : List.lookup g.freshN g.nodes = none := lookup_eq_none_of_lt _ _ _ hnlt le_rfl
  have hL1 : List.lookup (g.freshN + 1) g.nodes = none := lookup_eq_none_of_lt _ _ _ hnlt (by omega)
  have hV0 : List.lookup g.freshV g.values = none := lookup_eq_none_of_lt _ _ _ hvlt le_rfl
  have hV1 : List.lookup (g.freshV + 1) g.values = none := lookup_eq_none_of_lt _ _ _ hvlt (by omega)
  have hprod' : producerOf g v = some n := by simp [producerOf, hv, hprod]
  have ga2 : g.freshN + 1 + 1 = g.freshN + 2 := by omega
  have ga3 : g.freshN + 1 + 1 + 1 = g.freshN + 3 := by omega
  have gv2 : g.freshV + 1 + 1 = g.freshV + 2 := by omega
  have gv3 : g.freshV + 1 + 1 + 1 = g.freshV + 3 := by omega
  have en0 : ¬ (n = g.freshN) := by omega
  have en1 : ¬ (n = g.freshN + 1) := by omega
  have hNn : g.freshN ∉ p ++ [n] := by
    intro hm
    rcases List.mem_append.mp hm with hm | hm
    · exact absurd (hplt _ hm) (by omega)
    · simp at hm; omega
  have s1 : insertAfterL n g.freshN (p ++ n :: q) = p ++ n :: g.freshN :: q :=
    insertAfterL_app _ _ hnp
  have s2 : insertAfterL g.freshN (g.freshN + 1) (p ++ n :: g.freshN :: q) =
      p ++ n :: g.freshN :: (g.freshN + 1) :: q := by
    rw [show p ++ n :: g.freshN :: q = (p ++ [n]) ++ g.freshN :: q by simp,
      insertAfterL_app _ _ hNn]
    simp
  have s3 : insertBeforeL g.freshN (g.freshN + 2) (p ++ n :: g.freshN :: (g.freshN + 1) :: q) =
      p ++ n :: (g.freshN + 2) :: g.freshN :: (g.freshN + 1) :: q := by
    rw [show p ++ n :: g.freshN :: (g.freshN + 1) :: q =
          (p ++ [n]) ++ g.freshN :: (g.freshN + 1) :: q by simp,
      insertBeforeL_app _ _ hNn]
    simp
  have s4 : insertBeforeL g.freshN (g.freshN + 3)
      (p ++ n :: (g.freshN + 2) :: g.freshN :: (g.freshN + 1) :: q) =
      p ++ n :: (g.freshN + 2) :: (g.freshN + 3) :: g.freshN :: (g.freshN + 1) :: q := by
    have hpre : g.freshN ∉ p ++ [n, g.freshN + 2] := by
      intro hm
      rcases List.mem_append.mp hm with hm | hm
      · exact absurd (hplt _ hm) (by omega)
      · simp at hm; omega
    rw [show p ++ n :: (g.freshN + 2) :: g.freshN :: (g.freshN + 1) :: q =
          (p ++ [n, g.freshN + 2]) ++ g.freshN :: (g.freshN + 1) :: q by simp,
      insertBeforeL_app _ _ hpre]
    simp
  simp only [addQuantDeQuantNodes, hprod', createQuantDeQuantNodes, createN,
    insertQuantNodeParams, insertConstant, insertAfterNode, insertBeforeNode,
    replaceAllUsesWith, addInput, setUniqueName, setScope, updValue, updNode,
    nodeOutput, scopeOf, uniqueNameOf, findNode, findValue, findBlock, blockNodesAt,
    lookup_append, lookup_mapVals, lookup_single, mapVals_nil, mapVals_cons,
    mapVals_append, hv', hn', hb', hL0, hL1, hV0, hV1, ga2, ga3, gv2, gv3,
    List.append_assoc, List.cons_append, List.nil_append,
    Option.map_some, Option.map_none, Option.or_some, Option.or_none,
    Option.map_map, Option.getD_some, Option.getD_none, List.headD,
    en0, en1, if_true, if_false, ite_true, ite_false, Function.comp]
  simp [Function.comp, s1, s2, s3, s4, hbn, hb', en0, en1, ga2, ga3, gv2, gv3, lookup_cons]

theorem addQDQ_old_nodes (hv : findValue g v = some vv)
    (hprod : vv.producer = .node n)
    (hn : findNode g n = some nd)
    (hnlt : ∀ r ∈ g.nodes, r.1 < g.freshN)
    (hvlt : ∀ r ∈ g.values, r.1 < g.freshV) (hkeys : (g.nodes.map Prod.fst).Nodup) :
    ∀ r ∈ g.nodes, findNode (addQuantDeQuantNodes g v) r.1 =
      some { r.2 with inputs := r.2.inputs.map (fun x => if x = v then g.freshV + 1 else x) } := by
  intro r hr
  have hv' : List.lookup v g.values = some vv := hv
  have hn' : List.lookup n g.nodes = some nd := hn
  have hnN : n < g.freshN := hnlt (n, nd) (lookup_mem hn')
  have hr' : List.lookup r.1 g.nodes = some r.2 := lookup_of_mem_nodup hkeys hr
  have hrlt : r.1 < g.freshN := hnlt r hr
  have hL0 : List.lookup g.freshN g.nodes = none := lookup_eq_none_of_lt _ _ _ hnlt le_rfl
  have hL1 : List.lookup (g.freshN + 1) g.nodes = none := lookup_eq_none_of_lt _ _ _ hnlt (by omega)
  have hV0 : List.lookup g.freshV g.values = none := lookup_eq_none_of_lt _ _ _ hvlt le_rfl
  have hV1 : List.lookup (g.freshV + 1) g.values = none := lookup_eq_none_of_lt _ _ _ hvlt (by omega)
  have hprod' : producerOf g v = some n := by simp [producerOf, hv, hprod]
  have ga2 : g.freshN + 1 + 1 = g.freshN + 2 := by omega
  have ga3 : g.freshN + 1 + 1 + 1 = g.freshN + 3 := by omega
  have gv2 : g.freshV + 1 + 1 = g.freshV + 2 := by omega
  have gv3 : g.freshV + 1 + 1 + 1 = g.freshV + 3 := by omega
  have en0 : ¬ (n = g.freshN) := by omega
  have en1 : ¬ (n = g.freshN + 1) := by omega
  have f0 : ¬ (r.1 = g.freshN) := by omega
  have f1 : ¬ (r.1 = g.freshN + 1) := by omega
  have f2 : ¬ (r.1 = g.freshN + 2) := by omega
  have f3 : ¬ (r.1 = g.freshN + 3) := by omega
  simp only [addQuantDeQuantNodes, hprod', createQuantDeQuantNodes, createN,
    insertQuantNodeParams, insertConstant, insertAfterNode, insertBeforeNode,
    replaceAllUsesWith, addInput, setUniqueName, setScope, updValue, updNode,
    nodeOutput, scopeOf, uniqueNameOf, findNode, findValue,
    lookup_append, lookup_mapVals, lookup_single, mapVals_nil, mapVals_cons,
    mapVals_append, hv', hn', hr', hL0, hL1, hV0, hV1,
    List.append_assoc, List.cons_append, List.nil_append,
    Option.map_some, Option.map_none, Option.or_some, Option.or_none,
    Option.getD_some, Option.getD_none, List.headD,
    en0, en1, f0, f1, f2, f3, if_true, if_false, ite_true, ite_false]
  simp [omap_id, lookup_cons, en0, en1, ga2, ga3, gv2, gv3, f0, f1, f2, f3]

theorem addQDQ_other_nodes (hv : findValue g v = some vv)
    (hprod : vv.producer = .node n)
    (hn : findNode g n = some nd)
    (hnlt : ∀ r ∈ g.nodes, r.1 < g.freshN)
    (hvlt : ∀ r ∈ g.values, r.1 < g.freshV) :
    ∀ j, ¬ (j = g.freshN) → ¬ (j = g.freshN + 1) → ¬ (j = g.freshN + 2) → ¬ (j = g.freshN + 3) →
      findNode (addQuantDeQuantNodes g v) j =
        (findNode g j).map
          (fun m => { m with inputs := m.inputs.map (fun x => if x = v then g.freshV + 1 else x) }) := by
  intro j f0 f1 f2 f3
  have hv' : List.lookup v g.values = some vv := hv
  have hn' : List.lookup n g.nodes = some nd := hn
  have hnN : n < g.freshN := hnlt (n, nd) (lookup_mem hn')
  have hL0 : List.lookup g.freshN g.nodes = none := lookup_eq_none_of_lt _ _ _ hnlt le_rfl
  have hL1 : List.lookup (g.freshN + 1) g.nodes = none := lookup_eq_none_of_lt _ _ _ hnlt (by omega)
  have hV0 : List.lookup g.freshV g.values = none := lookup_eq_none_of_lt _ _ _ hvlt le_rfl
  have hV1 : List.lookup (g.freshV + 1) g.values = none := lookup_eq_none_of_lt _ _ _ hvlt (by omega)
  have hprod' : producerOf g v = some n := by simp [producerOf, hv, hprod]
  have ga2 : g.freshN + 1 + 1 = g.freshN + 2 := by omega
  have ga3 : g.freshN + 1 + 1 + 1 = g.freshN + 3 := by omega
  have gv2 : g.freshV + 1 + 1 = g.freshV + 2 := by omega
  have gv3 : g.freshV + 1 + 1 + 1 = g.freshV + 3 := by omega
  have en0 : ¬ (n = g.freshN) := by omega
  have en1 : ¬ (n = g.freshN + 1) := by omega
  simp only [addQuantDeQuantNodes, hprod', createQuantDeQuantNodes, createN,
    insertQuantNodeParams, insertConstant, insertAfterNode, insertBeforeNode,
    replaceAllUsesWith, addInput, setUniqueName, setScope, updValue, updNode,
    nodeOutput, scopeOf, uniqueNameOf, findNode, findValue,
    lookup_append, lookup_mapVals, lookup_single, mapVals_nil, mapVals_cons,
    mapVals_append, hv', hn', hL0, hL1, hV0, hV1,
    List.append_assoc, List.cons_append, List.nil_append,
    Option.map_some, Option.map_none, Option.or_some, Option.or_none,
    Option.getD_some, Option.getD_none, List.headD,
    en0, en1, f0, f1, f2, f3, if_true, if_false, ite_true, ite_false]
  cases hj : List.lookup j g.nodes <;>
    simp [hj, omap_id, lookup_cons, en0, en1, ga2, ga3, gv2, gv3, f0, f1, f2, f3]

theorem addQDQ_block_outputs (hv : findValue g v = some vv)
    (hprod : vv.producer = .node n)
    (hn : findNode g n = some nd)
    (hnlt : ∀ r ∈ g.nodes, r.1 < g.freshN)
    (hvlt : ∀ r ∈ g.values, r.1 < g.freshV) :
    ∀ c, blockOutputsAt (addQuantDeQuantNodes g v) c =
      (blockOutputsAt g c).map (fun x => if x = v then g.freshV + 1 else x) := by
  intro c
  have hv' : List.lookup v g.values = some vv := hv
  have hn' : List.lookup n g.nodes = some nd := hn
  have hnN : n < g.freshN := hnlt (n, nd) (lookup_mem hn')
  have hL0 : List.lookup g.freshN g.nodes = none := lookup_eq_none_of_lt _ _ _ hnlt le_rfl
  have hL1 : List.lookup (g.freshN + 1) g.nodes = none := lookup_eq_none_of_lt _ _ _ hnlt (by omega)
  have hV0 : List.lookup g.freshV g.values = none := lookup_eq_none_of_lt _ _ _ hvlt le_rfl
  have hV1 : List.lookup (g.freshV + 1) g.values = none := lookup_eq_none_of_lt _ _ _ hvlt (by omega)
  have hprod' : producerOf g v = some n := by simp [producerOf, hv, hprod]
  have ga2 : g.freshN + 1 + 1 = g.freshN + 2 := by omega
  have ga3 : g.freshN + 1 + 1 + 1 = g.freshN + 3 := by omega
  have gv2 : g.freshV + 1 + 1 = g.freshV + 2 := by omega
  have gv3 : g.freshV + 1 + 1 + 1 = g.freshV + 3 := by omega
  have en0 : ¬ (n = g.freshN) := by omega
  have en1 : ¬ (n = g.freshN + 1) := by omega
  simp only [addQuantDeQuantNodes, hprod', createQuantDeQuantNodes, createN,
    insertQuantNodeParams, insertConstant, insertAfterNode, insertBeforeNode,
    replaceAllUsesWith, addInput, setUniqueName, setScope, updValue, updNode,
    nodeOutput, scopeOf, uniqueNameOf, findNode, findValue, findBlock, blockOutputsAt,
    lookup_append, lookup_mapVals, lookup_single, mapVals_nil, mapVals_cons,
    mapVals_append, hv', hn', hL0, hL1, hV0, hV1,
    List.append_assoc, List.cons_append, List.nil_append,
    Option.map_some, Option.map_none, Option.or_some, Option.or_none,
    Option.getD_some, Option.getD_none, List.headD,
    en0, en1, if_true, if_false, ite_true, ite_false]
  cases hc : List.lookup c g.blocks <;>
    simp [hc, omap_id, lookup_cons, en0, en1, ga2, ga3, gv2, gv3, Function.comp]

end OutputSide

/-- C2: for a tensor-typed value `v` selected for the output-side rewrite
(producer node `n`, sitting in block `b` between `p` and `q`),
`addQuantDeQuantNodes` creates the quantize node (id `g.freshN`) and the
dequantize node (id `g.freshN + 1`); the final node order of the block is
`p, n, scale-const, zero-point-const, quant, dequant, q` — the quantize
node was inserted immediately after the producer and the dequantize node
immediately after it, the two parameter constants being inserted at the
quantize node's insert point afterwards; every pre-existing consumer of
`v` (node inputs and block outputs alike) is redirected to the dequantize
output `g.freshV + 1`; the quantize node consumes `v` plus the two newly
inserted constants (scale `1.0`, zero-point `0`), and the dequantize node
consumes the quantize output `g.freshV`. -/
theorem output_side_rewrite_spec (g : Graph) (v n b : Nat) (vv : Value) (nd : Node)
    (blk : Block) (p q : List Nat)
    (hv : findValue g v = some vv)
    (hvt : vv.vtype = .tensor)
    (hprod : vv.producer = .node n)
    (hn : findNode g n = some nd)
    (hkeys : (g.nodes.map Prod.fst).Nodup)
    (hnlt : ∀ r ∈ g.nodes, r.1 < g.freshN)
    (hvlt : ∀ r ∈ g.values, r.1 < g.freshV)
    (hb : findBlock g b = some blk)
    (hbn : blk.nodes = p ++ n :: q)
    (hnp : n ∉ p)
    (hplt : ∀ x ∈ p, x < g.freshN) :
    findNode (addQuantDeQuantNodes g v) g.freshN =
      some { kind := "aten::quantize_linear", inputs := [v, g.freshV + 2, g.freshV + 3],
             outputs := [g.freshV], blocks := [], attr := .noneL, scope := nd.scope } ∧
    findNode (addQuantDeQuantNodes g v) (g.freshN + 1) =
      some { kind := "aten::dequantize", inputs := [g.freshV], outputs := [g.freshV + 1],
             blocks := [], attr := .noneL, scope := nd.scope } ∧
    findNode (addQuantDeQuantNodes g v) (g.freshN + 2) =
      some { kind := "prim::Constant", inputs := [], outputs := [g.freshV + 2],
             blocks := [], attr := .floatL 1, scope := "" } ∧
    findNode (addQuantDeQuantNodes g v) (g.freshN + 3) =
      some { kind := "prim::Constant", inputs := [], outputs := [g.freshV + 3],
             blocks := [], attr := .intL 0, scope := "" } ∧
    blockNodesAt (addQuantDeQuantNodes g v) b =
      p ++ n :: (g.freshN + 2) :: (g.freshN + 3) :: g.freshN :: (g.freshN + 1) :: q ∧
    (∀ r ∈ g.nodes, findNode (addQuantDeQuantNodes g v) r.1 =
      some { r.2 with inputs := r.2.inputs.map (fun x => if x = v then g.freshV + 1 else x) }) ∧
    (∀ c, blockOutputsAt (addQuantDeQuantNodes g v) c =
      (blockOutputsAt g c).map (fun x => if x = v then g.freshV + 1 else x)) :=
  ⟨addQDQ_quant hv hprod hn hnlt hvlt,
   addQDQ_dequant hv hprod hn hnlt hvlt,
   addQDQ_scale hv hprod hn hnlt hvlt,
   addQDQ_zeropoint hv hprod hn hnlt hvlt,
   addQDQ_block hv hprod hn hnlt hvlt b blk p q hb hbn hnp hplt,
   addQDQ_old_nodes hv hprod hn hnlt hvlt hkeys,
   addQDQ_block_outputs hv hprod hn hnlt hvlt⟩

/-- Witness for C2 at `exG2`: the rewrite of value `10` (producer node
`0`, block `0`, three relu consumers). -/
theorem output_side_rewrite_spec_witness :
    findNode (addQuantDeQuantNodes exG2 10) 4 =
      some { kind := "aten::quantize_linear", inputs := [10, 16, 17], outputs := [14],
             blocks := [], attr := .noneL, scope := "" } ∧
    blockNodesAt (addQuantDeQuantNodes exG2 10) 0 = [0, 6, 7, 4, 5, 1, 2, 3] := by
  have h := output_side_rewrite_spec exG2 10 0 0
    { vtype := .tensor, uniqueName := "t0", producer := .node 0 }
    { kind := "aten::conv2d", outputs := [10] }
    { nodes := [0, 1, 2, 3] } [] [1, 2, 3]
    rfl rfl rfl rfl (by decide) (by decide) (by decide) rfl rfl (by decide) (by decide)
  exact ⟨h.1, h.2.2.2.2.1⟩

/-- C9: after the output-side rewrite of `v`, the quantize node's data
input is the original value `v` itself (first input), every other node of
the result that consumes `v` is the quantize node, no block output still
references `v`, the dequantize node consumes exactly the quantize output,
and the quantize node consumes neither of the two new outputs — so the new
pair is cycle-free and the quantize node is the sole consumer of `v`. -/
theorem output_side_quant_sole_consumer (g : Graph) (v n : Nat) (vv : Value) (nd : Node)
    (hv : findValue g v = some vv)
    (hprod : vv.producer = .node n)
    (hn : findNode g n = some nd)
    (hnlt : ∀ r ∈ g.nodes, r.1 < g.freshN)
    (hvlt : ∀ r ∈ g.values, r.1 < g.freshV) :
    ((findNode (addQuantDeQuantNodes g v) g.freshN).map Node.inputs =
      some [v, g.freshV + 2, g.freshV + 3]) ∧
    (∀ j m, findNode (addQuantDeQuantNodes g v) j = some m → v ∈ m.inputs → j = g.freshN) ∧
    (∀ c, v ∉ blockOutputsAt (addQuantDeQuantNodes g v) c) ∧
    ((findNode (addQuantDeQuantNodes g v) (g.freshN + 1)).map Node.inputs = some [g.freshV]) ∧
    v ≠ g.freshV ∧ v ≠ g.freshV + 1 ∧
    g.freshV ∉ ([v, g.freshV + 2, g.freshV + 3] : List Nat) ∧
    g.freshV + 1 ∉ ([v, g.freshV + 2, g.freshV + 3] : List Nat) := by
  have hvV : v < g.freshV := hvlt (v, vv) (lookup_mem hv)
  refine ⟨?_, ?_, ?_, ?_, by omega, by omega, ?_, ?_⟩
  · rw [addQDQ_quant hv hprod hn hnlt hvlt]; rfl
  · intro j m hm hmem
    by_cases f0 : j = g.freshN
    · exact f0
    by_cases f1 : j = g.freshN + 1
    · rw [f1, addQDQ_dequant hv hprod hn hnlt hvlt] at hm
      simp only [Option.some.injEq] at hm
      rw [← hm] at hmem
      simp at hmem
      omega
    by_cases f2 : j = g.freshN + 2
    · rw [f2, addQDQ_scale hv hprod hn hnlt hvlt] at hm
      simp only [Option.some.injEq] at hm
      rw [← hm] at hmem
      simp at hmem
    by_cases f3 : j = g.freshN + 3
    · rw [f3, addQDQ_zeropoint hv hprod hn hnlt hvlt] at hm
      simp only [Option.some.injEq] at hm
      rw [← hm] at hmem
      simp at hmem
    rw [addQDQ_other_nodes hv hprod hn hnlt hvlt j f0 f1 f2 f3] at hm
    rcases Option.map_eq_some'.mp hm with ⟨m0, hm0, hme⟩
    rw [← hme] at hmem
    simp only at hmem
    rcases List.mem_map.mp hmem with ⟨x, hx, hxe⟩
    by_cases hxv : x = v
    · rw [if_pos hxv] at hxe; omega
    · rw [if_neg hxv] at hxe; exact absurd hxe hxv
  · intro c hmem
    rw [addQDQ_block_outputs hv hprod hn hnlt hvlt c] at hmem
    rcases List.mem_map.mp hmem with ⟨x, hx, hxe⟩
    by_cases hxv : x = v
    · rw [if_pos hxv] at hxe; omega
    · rw [if_neg hxv] at hxe; exact absurd hxe hxv
  · rw [addQDQ_dequant hv hprod hn hnlt hvlt]; rfl
  · simp only [List.mem_cons, List.not_mem_nil, or_false]
    push_neg
    omega
  · simp only [List.mem_cons, List.not_mem_nil, or_false]
    push_neg
    omega

/-- Witness for C9 at `exG2`: value `10`, producer node `0`. -/
theorem output_side_quant_sole_consumer_witness :
    ((findNode (addQuantDeQuantNodes exG2 10) 4).map Node.inputs = some [10, 16, 17]) ∧
    ((findNode (addQuantDeQuantNodes exG2 10) 5).map Node.inputs = some [14]) := by
  have h := output_side_quant_sole_consumer exG2 10 0
    { vtype := .tensor, uniqueName := "t0", producer := .node 0 }
    { kind := "aten::conv2d", outputs := [10] }
    rfl rfl rfl (by decide) (by decide)
  exact ⟨h.1, h.2.2.2.1⟩

/-! ### Characterization of the input-side rewrite
(`addQuantDeQuantNodesForInput`) -/

section InputSide

variable {g : Graph} {v n : Nat} {nd : Node}

theorem addQDQi_quant (hn : findNode g n = some nd)
    (hnlt : ∀ r ∈ g.nodes, r.1 < g.freshN)
    (hvlt : ∀ r ∈ g.values, r.1 < g.freshV) :
    findNode (addQuantDeQuantNodesForInput g v n) g.freshN =
      some { kind := "aten::quantize_linear", inputs := [v, g.freshV + 2, g.freshV + 3],
             outputs := [g.freshV], blocks := [], attr := .noneL, scope := nd.scope } := by
  have hn' : List.lookup n g.nodes = some nd := hn
  have hnN : n < g.freshN := hnlt (n, nd) (lookup_mem hn')
  have hL0 : List.lookup g.freshN g.nodes = none := lookup_eq_none_of_lt _ _ _ hnlt le_rfl
  have hL1 : List.lookup (g.freshN + 1) g.nodes = none := lookup_eq_none_of_lt _ _ _ hnlt (by omega)
  have hV0 : List.lookup g.freshV g.values = none := lookup_eq_none_of_lt _ _ _ hvlt le_rfl
  have hV1 : List.lookup (g.freshV + 1) g.values = none := lookup_eq_none_of_lt _ _ _ hvlt (by omega)
  have ga2 : g.freshN + 1 + 1 = g.freshN + 2 := by omega
  have ga3 : g.freshN + 1 + 1 + 1 = g.freshN + 3 := by omega
  have gv2 : g.freshV + 1 + 1 = g.freshV + 2 := by omega
  have gv3 : g.freshV + 1 + 1 + 1 = g.freshV + 3 := by omega
  have e01 : ¬ (g.freshN = g.freshN + 1) := by omega
  have e02 : ¬ (g.freshN = g.freshN + 2) := by omega
  have e03 : ¬ (g.freshN = g.freshN + 3) := by omega
  have en0 : ¬ (n = g.freshN) := by omega
  have en1 : ¬ (n = g.freshN + 1) := by omega
  have eq0n : ¬ (g.freshN = n) := by omega
  simp only [addQuantDeQuantNodesForInput, createQuantDeQuantNodes, createN,
    insertQuantNodeParams, insertConstant, insertAfterNode, insertBeforeNode,
    replaceInputWith, addInput, setUniqueName, setScope, updValue, updNode,
    nodeOutput, scopeOf, uniqueNameOf, findNode, findValue,
    lookup_append, lookup_mapVals, lookup_single, mapVals_nil, mapVals_cons,
    mapVals_append, hn', hL0, hL1, hV0, hV1,
    List.append_assoc, List.cons_append, List.nil_append,
    Option.map_some, Option.map_none, Option.or_some, Option.or_none,
    Option.getD_some, Option.getD_none, List.headD,
    e01, e02, e03, en0, en1, eq0n, if_true, if_false, ite_true, ite_false]
  simp [lookup_cons, ga2, ga3, gv2, gv3, e01, e02, e03, en0, en1, eq0n]

theorem addQDQi_dequant (hn : findNode g n = some nd)
    (hnlt : ∀ r ∈ g.nodes, r.1 < g.freshN)
    (hvlt : ∀ r ∈ g.values, r.1 < g.freshV) :
    findNode (addQuantDeQuantNodesForInput g v n) (g.freshN + 1) =
      some { kind := "aten::dequantize", inputs := [g.freshV], outputs := [g.freshV + 1],
             blocks := [], attr := .noneL, scope := nd.scope } := by
  have hn' : List.lookup n g.nodes = some nd := hn
  have hnN : n < g.freshN := hnlt (n, nd) (lookup_mem hn')
  have hL0 : List.lookup g.freshN g.nodes = none := lookup_eq_none_of_lt _ _ _ hnlt le_rfl
  have hL1 : List.lookup (g.freshN + 1) g.nodes = none := lookup_eq_none_of_lt _ _ _ hnlt (by omega)
  have hV0 : List.lookup g.freshV g.values = none := lookup_eq_none_of_lt _ _ _ hvlt le_rfl
  have hV1 : List.lookup (g.freshV + 1) g.values = none := lookup_eq_none_of_lt _ _ _ hvlt (by omega)
  have ga2 : g.freshN + 1 + 1 = g.freshN + 2 := by omega
  have ga3 : g.freshN + 1 + 1 + 1 = g.freshN + 3 := by omega
  have gv2 : g.freshV + 1 + 1 = g.freshV + 2 := by omega
  have gv3 : g.freshV + 1 + 1 + 1 = g.freshV + 3 := by omega
  have e10 : ¬ (g.freshN + 1 = g.freshN) := by omega
  have e12 : ¬ (g.freshN + 1 = g.freshN + 2) := by omega
  have e13 : ¬ (g.freshN + 1 = g.freshN + 3) := by omega
  have en0 : ¬ (n = g.freshN) := by omega
  have en1 : ¬ (n = g.freshN + 1) := by omega
  have eq1n : ¬ (g.freshN + 1 = n) := by omega
  simp only [addQuantDeQuantNodesForInput, createQuantDeQuantNodes, createN,
    insertQuantNodeParams, insertConstant, insertAfterNode, insertBeforeNode,
    replaceInputWith, addInput, setUniqueName, setScope, updValue, updNode,
    nodeOutput, scopeOf, uniqueNameOf, findNode, findValue,
    lookup_append, lookup_mapVals, lookup_single, mapVals_nil, mapVals_cons,
    mapVals_append, hn', hL0, hL1, hV0, hV1,
    List.append_assoc, List.cons_append, List.nil_append,
    Option.map_some, Option.map_none, Option.or_some, Option.or_none,
    Option.getD_some, Option.getD_none, List.headD,
    e10, e12, e13, en0, en1, eq1n, if_true, if_false, ite_true, ite_false]
  simp [lookup_cons, ga2, ga3, gv2, gv3, e10, e12, e13, en0, en1, eq1n]

theorem addQDQi_scale (hn : findNode g n = some nd)
    (hnlt : ∀ r ∈ g.nodes, r.1 < g.freshN)
    (hvlt : ∀ r ∈ g.values, r.1 < g.freshV) :
    findNode (addQuantDeQuantNodesForInput g v n) (g.freshN + 2) =
      some { kind := "prim::Constant", inputs := [], outputs := [g.freshV + 2],
             blocks := [], attr := .floatL 1, scope := "" } := by
  have hn' : List.lookup n g.nodes = some nd := hn
  have hnN : n < g.freshN := hnlt (n, nd) (lookup_mem hn')
  have hL0 : List.lookup g.freshN g.nodes = none := lookup_eq_none_of_lt _ _ _ hnlt le_rfl
  have hL1 : List.lookup (g.freshN + 1) g.nodes = none := lookup_eq_none_of_lt _ _ _ hnlt (by omega)
  have hL2 : List.lookup (g.freshN + 2) g.nodes = none := lookup_eq_none_of_lt _ _ _ hnlt (by omega)
  have hV0 : List.lookup g.freshV g.values = none := lookup_eq_none_of_lt _ _ _ hvlt le_rfl
  have hV1 : List.lookup (g.freshV + 1) g.values = none := lookup_eq_none_of_lt _ _ _ hvlt (by omega)
  have ga2 : g.freshN + 1 + 1 = g.freshN + 2 := by omega
  have ga3 : g.freshN + 1 + 1 + 1 = g.freshN + 3 := by omega
  have gv2 : g.freshV + 1 + 1 = g.freshV + 2 := by omega
  have gv3 : g.freshV + 1 + 1 + 1 = g.freshV + 3 := by omega
  have e20 : ¬ (g.freshN + 2 = g.freshN) := by omega
  have e21 : ¬ (g.freshN + 2 = g.freshN + 1) := by omega
  have e23 : ¬ (g.freshN + 2 = g.freshN + 3) := by omega
  have en0 : ¬ (n = g.freshN) := by omega
  have en1 : ¬ (n = g.freshN + 1) := by omega
  have eq2n : ¬ (g.freshN + 2 = n) := by omega
  simp only [addQuantDeQuantNodesForInput, createQuantDeQuantNodes, createN,
    insertQuantNodeParams, insertConstant, insertAfterNode, insertBeforeNode,
    replaceInputWith, addInput, setUniqueName, setScope, updValue, updNode,
    nodeOutput, scopeOf, uniqueNameOf, findNode, findValue,
    lookup_append, lookup_mapVals, lookup_single, mapVals_nil, mapVals_cons,
    mapVals_append, hn', hL0, hL1, hL2, hV0, hV1,
    List.append_assoc, List.cons_append, List.nil_append,
    Option.map_some, Option.map_none, Option.or_some, Option.or_none,
    Option.getD_some, Option.getD_none, List.headD,
    e20, e21, e23, en0, en1, eq2n, if_true, if_false, ite_true, ite_false]
  simp [lookup_cons, ga2, ga3, gv2, gv3, e20, e21, e23, en0, en1, eq2n]

theorem addQDQi_zeropoint (hn : findNode g n = some nd)
    (hnlt : ∀ r ∈ g.nodes, r.1 < g.freshN)
    (hvlt : ∀ r ∈ g.values, r.1 < g.freshV) :
    findNode (addQuantDeQuantNodesForInput g v n) (g.freshN + 3) =
      some { kind := "prim::Constant", inputs := [], outputs := [g.freshV + 3],
             blocks := [], attr := .intL 0, scope := "" } := by
  have hn' : List.lookup n g.nodes = some nd := hn
  have hnN : n < g.freshN := hnlt (n, nd) (lookup_mem hn')
  have hL0 : List.lookup g.freshN g.nodes = none := lookup_eq_none_of_lt _ _ _ hnlt le_rfl
  have hL1 : List.lookup (g.freshN + 1) g.nodes = none := lookup_eq_none_of_lt _ _ _ hnlt (by omega)
  have hL3 : List.lookup (g.freshN + 3) g.nodes = none := lookup_eq_none_of_lt _ _ _ hnlt (by omega)
  have hV0 : List.lookup g.freshV g.values = none := lookup_eq_none_of_lt _ _ _ hvlt le_rfl
  have hV1 : List.lookup (g.freshV + 1) g.values = none := lookup_eq_none_of_lt _ _ _ hvlt (by omega)
  have ga2 : g.freshN + 1 + 1 = g.freshN + 2 := by omega
  have ga3 : g.freshN + 1 + 1 + 1 = g.freshN + 3 := by omega
  have gv2 : g.freshV + 1 + 1 = g.freshV + 2 := by omega
  have gv3 : g.freshV + 1 + 1 + 1 = g.freshV + 3 := by omega
  have e30 : ¬ (g.freshN + 3 = g.freshN) := by omega
  have e31 : ¬ (g.freshN + 3 = g.freshN + 1) := by omega
  have e32 : ¬ (g.freshN + 3 = g.freshN + 2) := by omega
  have en0 : ¬ (n = g.freshN) := by omega
  have en1 : ¬ (n = g.freshN + 1) := by omega
  have eq3n : ¬ (g.freshN + 3 = n) := by omega
  simp only [addQuantDeQuantNodesForInput, createQuantDeQuantNodes, createN,
    insertQuantNodeParams, insertConstant, insertAfterNode, insertBeforeNode,
    replaceInputWith, addInput, setUniqueName, setScope, updValue, updNode,
    nodeOutput, scopeOf, uniqueNameOf, findNode, findValue,
    lookup_append, lookup_mapVals, lookup_single, mapVals_nil, mapVals_cons,
    mapVals_append, hn', hL0, hL1, hL3, hV0, hV1,
    List.append_assoc, List.cons_append, List.nil_append,
    Option.map_some, Option.map_none, Option.or_some, Option.or_none,
    Option.getD_some, Option.getD_none, List.headD,
    e30, e31, e32, en0, en1, eq3n, if_true, if_false, ite_true, ite_false]
  simp [lookup_cons, ga2, ga3, gv2, gv3, e30, e31, e32, en0, en1, eq3n]

theorem addQDQi_block (hn : findNode g n = some nd)
    (hnlt : ∀ r ∈ g.nodes, r.1 < g.freshN)
    (hvlt : ∀ r ∈ g.values, r.1 < g.freshV)
    (b : Nat) (blk : Block) (p q : List Nat)
    (hb : findBlock g b = some blk)
    (hbn : blk.nodes = p ++ n :: q)
    (hnp : n ∉ p)
    (hplt : ∀ x ∈ p, x < g.freshN) :
    blockNodesAt (addQuantDeQuantNodesForInput g v n) b =
      p ++ (g.freshN + 2) :: (g.freshN + 3) :: g.freshN :: (g.freshN + 1) :: n :: q := by
  have hn' : List.lookup n g.nodes = some nd := hn
  have hb' : List.lookup b g.blocks = some blk := hb
  have hnN : n < g.freshN := hnlt (n, nd) (lookup_mem hn')
  have hL0 : List.lookup g.freshN g.nodes = none := lookup_eq_none_of_lt _ _ _ hnlt le_rfl
  have hL1 : List.lookup (g.freshN + 1) g.nodes = none := lookup_eq_none_of_lt _ _ _ hnlt (by omega)
  have hV0 : List.lookup g.freshV g.values = none := lookup_eq_none_of_lt _ _ _ hvlt le_rfl
  have hV1 : List.lookup (g.freshV + 1) g.values = none := lookup_eq_none_of_lt _ _ _ hvlt (by omega)
  have ga2 : g.freshN + 1 + 1 = g.freshN + 2 := by omega
  have ga3 : g.freshN + 1 + 1 + 1 = g.freshN + 3 := by omega
  have gv2 : g.freshV + 1 + 1 = g.freshV + 2 := by omega
  have gv3 : g.freshV + 1 + 1 + 1 = g.freshV + 3 := by omega
  have en0 : ¬ (n = g.freshN) := by omega
  have en1 : ¬ (n = g.freshN + 1) := by omega
  have hN1p : g.freshN + 1 ∉ p := by
    intro hm; exact absurd (hplt _ hm) (by omega)
  have hNp : g.freshN ∉ p := by
    intro hm; exact absurd (hplt _ hm) (by omega)
  have t1 : insertBeforeL n (g.freshN + 1) (p ++ n :: q) = p ++ (g.freshN + 1) :: n :: q :=
    insertBeforeL_app _ _ hnp
  have t2 : insertBeforeL (g.freshN + 1) g.freshN (p ++ (g.freshN + 1) :: n :: q) =
      p ++ g.freshN :: (g.freshN + 1) :: n :: q :=
    insertBeforeL_app _ _ hN1p
  have t3 : insertBeforeL g.freshN (g.freshN + 2) (p ++ g.freshN :: (g.freshN + 1) :: n :: q) =
      p ++ (g.freshN + 2) :: g.freshN :: (g.freshN + 1) :: n :: q :=
    insertBeforeL_app _ _ hNp
  have t4 : insertBeforeL g.freshN (g.freshN + 3)
      (p ++ (g.freshN + 2) :: g.freshN :: (g.freshN + 1) :: n :: q) =
      p ++ (g.freshN + 2) :: (g.freshN + 3) :: g.freshN :: (g.freshN + 1) :: n :: q := by
    have hpre : g.freshN ∉ p ++ [g.freshN + 2] := by
      intro hm
      rcases List.mem_append.mp hm with hm | hm
      · exact absurd (hplt _ hm) (by omega)
      · simp only [List.mem_singleton] at hm; omega
    rw [show p ++ (g.freshN + 2) :: g.freshN :: (g.freshN + 1) :: n :: q =
          (p ++ [g.freshN + 2]) ++ g.freshN :: (g.freshN + 1) :: n :: q by simp,
      insertBeforeL_app _ _ hpre]
    simp
  simp only [addQuantDeQuantNodesForInput, createQuantDeQuantNodes, createN,
    insertQuantNodeParams, insertConstant, insertAfterNode, insertBeforeNode,
    replaceInputWith, addInput, setUniqueName, setScope, updValue, updNode,
    nodeOutput, scopeOf, uniqueNameOf, findNode, findValue, findBlock, blockNodesAt,
    lookup_append, lookup_mapVals, lookup_single, mapVals_nil, mapVals_cons,
    mapVals_append, hn', hb', hL0, hL1, hV0, hV1, ga2, ga3, gv2, gv3,
    List.append_assoc, List.cons_append, List.nil_append,
    Option.map_some, Option.map_none, Option.or_some, Option.or_none,
    Option.map_map, Option.getD_some, Option.getD_none, List.headD,
    en0, en1, if_true, if_false, ite_true, ite_false, Function.comp]
  simp [Function.comp, t1, t2, t3, t4, hbn, hb', en0, en1, ga2, ga3, gv2, gv3, lookup_cons]

theorem addQDQi_consumer (hn : findNode g n = some nd)
    (hnlt : ∀ r ∈ g.nodes, r.1 < g.freshN)
    (hvlt : ∀ r ∈ g.values, r.1 < g.freshV) :
    findNode (addQuantDeQuantNodesForInput g v n) n =
      some { nd with inputs := nd.inputs.map (fun x => if x = v then g.freshV + 1 else x) } := by
  have hn' : List.lookup n g.nodes = some nd := hn
  have hnN : n < g.freshN := hnlt (n, nd) (lookup_mem hn')
  have hL0 : List.lookup g.freshN g.nodes = none := lookup_eq_none_of_lt _ _ _ hnlt le_rfl
  have hL1 : List.lookup (g.freshN + 1) g.nodes = none := lookup_eq_none_of_lt _ _ _ hnlt (by omega)
  have hV0 : List.lookup g.freshV g.values = none := lookup_eq_none_of_lt _ _ _ hvlt le_rfl
  have hV1 : List.lookup (g.freshV + 1) g.values = none := lookup_eq_none_of_lt _ _ _ hvlt (by omega)
  have ga2 : g.freshN + 1 + 1 = g.freshN + 2 := by omega
  have ga3 : g.freshN + 1 + 1 + 1 = g.freshN + 3 := by omega
  have gv2 : g.freshV + 1 + 1 = g.freshV + 2 := by omega
  have gv3 : g.freshV + 1 + 1 + 1 = g.freshV + 3 := by omega
  have en0 : ¬ (n = g.freshN) := by omega
  have en1 : ¬ (n = g.freshN + 1) := by omega
  have en2 : ¬ (n = g.freshN + 2) := by omega
  have en3 : ¬ (n = g.freshN + 3) := by omega
  simp only [addQuantDeQuantNodesForInput, createQuantDeQuantNodes, createN,
    insertQuantNodeParams, insertConstant, insertAfterNode, insertBeforeNode,
    replaceInputWith, addInput, setUniqueName, setScope, updValue, updNode,
    nodeOutput, scopeOf, uniqueNameOf, findNode, findValue,
    lookup_append, lookup_mapVals, lookup_single, mapVals_nil, mapVals_cons,
    mapVals_append, hn', hL0, hL1, hV0, hV1,
    List.append_assoc, List.cons_append, List.nil_append,
    Option.map_some, Option.map_none, Option.or_some, Option.or_none,
    Option.getD_some, Option.getD_none, List.headD,
    en0, en1, en2, en3, if_true, if_false, ite_true, ite_false]
  simp [omap_id, lookup_cons, en0, en1, en2, en3, ga2, ga3, gv2, gv3]

theorem addQDQi_old_nodes (hn : findNode g n = some nd)
    (hnlt : ∀ r ∈ g.nodes, r.1 < g.freshN)
    (hvlt : ∀ r ∈ g.values, r.1 < g.freshV)
    (hkeys : (g.nodes.map Prod.fst).Nodup) :
    ∀ r ∈ g.nodes, r.1 ≠ n → findNode (addQuantDeQuantNodesForInput g v n) r.1 = some r.2 := by
  intro r hr hrn
  have hn' : List.lookup n g.nodes = some nd := hn
  have hnN : n < g.freshN := hnlt (n, nd) (lookup_mem hn')
  have hr' : List.lookup r.1 g.nodes = some r.2 := lookup_of_mem_nodup hkeys hr
  have hrlt : r.1 < g.freshN := hnlt r hr
  have hL0 : List.lookup g.freshN g.nodes = none := lookup_eq_none_of_lt _ _ _ hnlt le_rfl
  have hL1 : List.lookup (g.freshN + 1) g.nodes = none := lookup_eq_none_of_lt _ _ _ hnlt (by omega)
  have hV0 : List.lookup g.freshV g.values = none := lookup_eq_none_of_lt _ _ _ hvlt le_rfl
  have hV1 : List.lookup (g.freshV + 1) g.values = none := lookup_eq_none_of_lt _ _ _ hvlt (by omega)
  have ga2 : g.freshN + 1 + 1 = g.freshN + 2 := by omega
  have ga3 : g.freshN + 1 + 1 + 1 = g.freshN + 3 := by omega
  have gv2 : g.freshV + 1 + 1 = g.freshV + 2 := by omega
  have gv3 : g.freshV + 1 + 1 + 1 = g.freshV + 3 := by omega
  have en0 : ¬ (n = g.freshN) := by omega
  have en1 : ¬ (n = g.freshN + 1) := by omega
  have f0 : ¬ (r.1 = g.freshN) := by omega
  have f1 : ¬ (r.1 = g.freshN + 1) := by omega
  have f2 : ¬ (r.1 = g.freshN + 2) := by omega
  have f3 : ¬ (r.1 = g.freshN + 3) := by omega
  simp only [addQuantDeQuantNodesForInput, createQuantDeQuantNodes, createN,
    insertQuantNodeParams, insertConstant, insertAfterNode, insertBeforeNode,
    replaceInputWith, addInput, setUniqueName, setScope, updValue, updNode,
    nodeOutput, scopeOf, uniqueNameOf, findNode, findValue,
    lookup_append, lookup_mapVals, lookup_single, mapVals_nil, mapVals_cons,
    mapVals_append, hn', hr', hL0, hL1, hV0, hV1,
    List.append_assoc, List.cons_append, List.nil_append,
    Option.map_some, Option.map_none, Option.or_some, Option.or_none,
    Option.getD_some, Option.getD_none, List.headD,
    en0, en1, f0, f1, f2, f3, hrn, if_true, if_false, ite_true, ite_false]
  simp [omap_id, lookup_cons, en0, en1, ga2, ga3, gv2, gv3, f0, f1, f2, f3, hrn]

theorem addQDQi_block_outputs (hn : findNode g n = some nd)
    (hnlt : ∀ r ∈ g.nodes, r.1 < g.freshN)
    (hvlt : ∀ r ∈ g.values, r.1 < g.freshV) :
    ∀ c, blockOutputsAt (addQuantDeQuantNodesForInput g v n) c = blockOutputsAt g c := by
  intro c
  have hn' : List.lookup n g.nodes = some nd := hn
  have hnN : n < g.freshN := hnlt (n, nd) (lookup_mem hn')
  have hL0 : List.lookup g.freshN g.nodes = none := lookup_eq_none_of_lt _ _ _ hnlt le_rfl
  have hL1 : List.lookup (g.freshN + 1) g.nodes = none := lookup_eq_none_of_lt _ _ _ hnlt (by omega)
  have hV0 : List.lookup g.freshV g.values = none := lookup_eq_none_of_lt _ _ _ hvlt le_rfl
  have hV1 : List.lookup (g.freshV + 1) g.values = none := lookup_eq_none_of_lt _ _ _ hvlt (by omega)
  have ga2 : g.freshN + 1 + 1 = g.freshN + 2 := by omega
  have ga3 : g.freshN + 1 + 1 + 1 = g.freshN + 3 := by omega
  have en0 : ¬ (n = g.freshN) := by omega
  have en1 : ¬ (n = g.freshN + 1) := by omega
  simp only [addQuantDeQuantNodesForInput, createQuantDeQuantNodes, createN,
    insertQuantNodeParams, insertConstant, insertAfterNode, insertBeforeNode,
    replaceInputWith, addInput, setUniqueName, setScope, updValue, updNode,
    nodeOutput, scopeOf, uniqueNameOf, findNode, findValue, findBlock, blockOutputsAt,
    lookup_append, lookup_mapVals, lookup_single, mapVals_nil, mapVals_cons,
    mapVals_append, hn', hL0, hL1, hV0, hV1,
    List.append_assoc, List.cons_append, List.nil_append,
    Option.map_some, Option.map_none, Option.or_some, Option.or_none,
    Option.getD_some, Option.getD_none, List.headD,
    en0, en1, if_true, if_false, ite_true, ite_false]
  cases hc : List.lookup c g.blocks <;>
    simp [hc, omap_id, lookup_cons, en0, en1, ga2, ga3, Function.comp]

end InputSide

/-- C3: for a recorded input-side pair `(v, n)` — consumer `n` quantizable
while `v`'s producer is not — the rewrite inserts, inside `n`'s block, the
sequence `scale-const, zero-point-const, quant, dequant` immediately
before `n` (so the dequantize node is immediately before `n` and the
quantize node immediately before the dequantize node); only `n`'s
references to `v` are redirected to the dequantize output, every other
pre-existing node entry and every block-output list is untouched; and in
the concrete graph `exG3` (`N1(add) -> v=10 -> {N4(relu), N5(add)}`) the
full pass redirects only `N4` through the single inserted pair while `N5`
still consumes `10` directly. -/
theorem input_side_rewrite_spec (g : Graph) (v n b : Nat) (vv : Value) (nd : Node)
    (blk : Block) (p q : List Nat)
    (hv : findValue g v = some vv)
    (hvt : vv.vtype = .tensor)
    (hnq : producerQuantizable g v = false)
    (hcq : checkIfNodeQuantizable nd = true)
    (hn : findNode g n = some nd)
    (hkeys : (g.nodes.map Prod.fst).Nodup)
    (hnlt : ∀ r ∈ g.nodes, r.1 < g.freshN)
    (hvlt : ∀ r ∈ g.values, r.1 < g.freshV)
    (hb : findBlock g b = some blk)
    (hbn : blk.nodes = p ++ n :: q)
    (hnp : n ∉ p)
    (hplt : ∀ x ∈ p, x < g.freshN) :
    findNode (addQuantDeQuantNodesForInput g v n) g.freshN =
      some { kind := "aten::quantize_linear", inputs := [v, g.freshV + 2, g.freshV + 3],
             outputs := [g.freshV], blocks := [], attr := .noneL, scope := nd.scope } ∧
    findNode (addQuantDeQuantNodesForInput g v n) (g.freshN + 1) =
      some { kind := "aten::dequantize", inputs := [g.freshV], outputs := [g.freshV + 1],
             blocks := [], attr := .noneL, scope := nd.scope } ∧
    findNode (addQuantDeQuantNodesForInput g v n) (g.freshN + 2) =
      some { kind := "prim::Constant", inputs := [], outputs := [g.freshV + 2],
             blocks := [], attr := .floatL 1, scope := "" } ∧
    findNode (addQuantDeQuantNodesForInput g v n) (g.freshN + 3) =
      some { kind := "prim::Constant", inputs := [], outputs := [g.freshV + 3],
             blocks := [], attr := .intL 0, scope := "" } ∧
    blockNodesAt (addQuantDeQuantNodesForInput g v n) b =
      p ++ (g.freshN + 2) :: (g.freshN + 3) :: g.freshN :: (g.freshN + 1) :: n :: q ∧
    findNode (addQuantDeQuantNodesForInput g v n) n =
      some { nd with inputs := nd.inputs.map (fun x => if x = v then g.freshV + 1 else x) } ∧
    (∀ r ∈ g.nodes, r.1 ≠ n → findNode (addQuantDeQuantNodesForInput g v n) r.1 = some r.2) ∧
    (∀ c, blockOutputsAt (addQuantDeQuantNodesForInput g v n) c = blockOutputsAt g c) ∧
    (findNode (InsertQuantDequantNodes exG3) 1).map Node.inputs = some [14] ∧
    (findNode (InsertQuantDequantNodes exG3) 2).map Node.inputs = some [10] ∧
    countKind (InsertQuantDequantNodes exG3) "aten::quantize_linear" = 1 ∧
    nodeOutput (InsertQuantDequantNodes exG3) 4 = 14 :=
  ⟨addQDQi_quant hn hnlt hvlt,
   addQDQi_dequant hn hnlt hvlt,
   addQDQi_scale hn hnlt hvlt,
   addQDQi_zeropoint hn hnlt hvlt,
   addQDQi_block hn hnlt hvlt b blk p q hb hbn hnp hplt,
   addQDQi_consumer hn hnlt hvlt,
   addQDQi_old_nodes hn hnlt hvlt hkeys,
   addQDQi_block_outputs hn hnlt hvlt,
   by decide, by decide, by decide, by decide⟩

/-- Witness for C3 at `exG3`: pair `(10, 1)` — the relu consumer node. -/
theorem input_side_rewrite_spec_witness :
    findNode (addQuantDeQuantNodesForInput exG3 10 1) 1 =
      some { kind := "aten::relu", inputs := [14], outputs := [11],
             blocks := [], attr := .noneL, scope := "" } ∧
    findNode (addQuantDeQuantNodesForInput exG3 10 1) 2 =
      some { kind := "aten::add", inputs := [10], outputs := [12],
             blocks := [], attr := .noneL, scope := "" } := by
  have h := input_side_rewrite_spec exG3 10 1 0
    { vtype := .tensor, uniqueName := "v", producer := .node 0 }
    { kind := "aten::relu", inputs := [10], outputs := [11] }
    { nodes := [0, 1, 2] } [0] [2]
    rfl rfl (by decide) (by decide) rfl (by decide) (by decide) (by decide) rfl rfl
    (by decide) (by decide)
  refine ⟨?_, h.2.2.2.2.2.2.1 (2, { kind := "aten::add", inputs := [10], outputs := [12] })
    (by decide) (by decide)⟩
  have h6 := h.2.2.2.2.2.1
  simpa using h6

/-! ### The worklist traversal visits every reachable node exactly once -/

theorem cmap_append (f : α → List β) (l r : List α) :
    cmap f (l ++ r) = cmap f l ++ cmap f r := by
  induction l with
  | nil => simp [cmap]
  | cons x xs ih => simp [cmap, ih]

theorem cmap_perm (f : α → List β) {l r : List α} (h : l.Perm r) :
    (cmap f l).Perm (cmap f r) := by
  induction h with
  | nil => exact List.Perm.refl _
  | cons x _ ih =>
    simp only [cmap]
    exact ih.append_left (f x)
  | swap x y l =>
    show (cmap f (y :: x :: l)).Perm (cmap f (x :: y :: l))
    simp only [cmap, ← List.append_assoc]
    exact List.perm_append_comm.append_right _
  | trans _ _ ih1 ih2 => exact ih1.trans ih2

theorem sizeF_append (l r : List BTree) : sizeF (l ++ r) = sizeF l + sizeF r := by
  induction l with
  | nil => simp [sizeF]
  | cons t ts ih => simp [sizeF, ih]; omega

theorem sizeF_reverse (l : List BTree) : sizeF l.reverse = sizeF l := by
  induction l with
  | nil => rfl
  | cons t ts ih =>
    simp [sizeF, List.reverse_cons, sizeF_append, ih]
    try omega

theorem bsize_pos (t : BTree) : 1 ≤ t.size := by
  cases t with
  | mk i cs =>
    simp [BTree.size]
    try omega

theorem describesF_forall (g : Graph) (l : List BTree) :
    describesF g l = true ↔ ∀ t ∈ l, describes g t = true := by
  induction l with
  | nil => simp [describesF]
  | cons t ts ih =>
    simp only [describesF, Bool.and_eq_true, List.mem_cons, ih]
    constructor
    · rintro ⟨h1, h2⟩ s hs
      rcases hs with hs | hs
      · rw [hs]; exact h1
      · exact h2 s hs
    · intro h
      exact ⟨h t (Or.inl rfl), fun s hs => h s (Or.inr hs)⟩

theorem forestPairs_append (g : Graph) (l r : List BTree) :
    forestPairs g (l ++ r) = forestPairs g l ++ forestPairs g r := by
  induction l with
  | nil => simp [forestPairs]
  | cons t ts ih => simp [forestPairs, ih]

theorem forestPairs_reverse_perm (g : Graph) (l : List BTree) :
    (forestPairs g l.reverse).Perm (forestPairs g l) := by
  induction l with
  | nil => exact List.Perm.refl _
  | cons t ts ih =>
    rw [List.reverse_cons, forestPairs_append]
    have h1 := (ih.append_right (forestPairs g [t])).trans List.perm_append_comm
    refine h1.trans ?_
    simp only [forestPairs, List.append_nil]
    exact List.Perm.refl _

theorem visit_fold (g : Graph) (pushF : Nat → Node → List Nat)
    (hpush : ∀ r ∈ g.nodes, pushF r.1 r.2 = r.2.blocks) (ns : List Nat) :
    ∀ (acc : List (Nat × Node)) (subs0 : List Nat),
    ns.foldl
      (fun (st : List (Nat × Node) × List Nat) nid =>
        match List.lookup nid g.nodes with
        | none => st
        | some nd => (st.1 ++ [(nid, nd)], st.2 ++ pushF nid nd))
      (acc, subs0) =
      (acc ++ blockPairs g { nodes := ns }, subs0 ++ blockSubIds g { nodes := ns }) := by
  induction ns with
  | nil => intro acc subs0; simp [blockPairs, blockSubIds, cmap]
  | cons x xs ih =>
    intro acc subs0
    simp only [List.foldl_cons]
    cases hx : List.lookup x g.nodes with
    | none =>
      simp only [hx, ih]
      simp [blockPairs, blockSubIds, cmap, hx]
    | some nd =>
      have hp : pushF x nd = nd.blocks := hpush (x, nd) (lookup_mem hx)
      simp only [hx, ih]
      simp [blockPairs, blockSubIds, cmap, hx, hp, List.append_assoc]

theorem visitPairs_perm (g : Graph) (pushF : Nat → Node → List Nat)
    (hpush : ∀ r ∈ g.nodes, pushF r.1 r.2 = r.2.blocks) :
    ∀ (fuel : Nat) (forest : List BTree) (acc : List (Nat × Node)),
      describesF g forest = true → sizeF forest ≤ fuel →
      (visitPairs g pushF fuel (forest.map BTree.rootId) acc).Perm
        (acc ++ forestPairs g forest) := by
  intro fuel
  induction fuel with
  | zero =>
    intro forest acc hdesc hsize
    cases forest with
    | nil => simp [visitPairs, forestPairs]
    | cons t ts =>
      exfalso
      have := bsize_pos t
      simp [sizeF] at hsize
      omega
  | succ fuel ih =>
    intro forest acc hdesc hsize
    cases forest with
    | nil => simp [visitPairs, forestPairs]
    | cons t ts =>
      cases t with
      | mk i cs =>
        have hdesc' := hdesc
        rw [show ((BTree.mk i cs) :: ts) = [BTree.mk i cs] ++ ts from rfl] at hdesc'
        have hall := (describesF_forall g _).mp hdesc
        have hdt : describes g (BTree.mk i cs) = true := hall _ (by simp)
        have hdts : describesF g ts = true :=
          (describesF_forall g ts).mpr (fun s hs => hall s (by simp [hs]))
        cases hlk : List.lookup i g.blocks with
        | none => rw [describes, hlk] at hdt; simp at hdt
        | some blk =>
          rw [describes, hlk] at hdt
          simp only [Bool.and_eq_true, beq_iff_eq] at hdt
          obtain ⟨hsub, hdcs⟩ := hdt
          have hszt : sizeF cs + sizeF ts ≤ fuel := by
            have h1 : sizeF (BTree.mk i cs :: ts) = (1 + sizeF cs) + sizeF ts := by
              simp [sizeF, BTree.size]
            omega
          show (visitPairs g pushF (fuel + 1) (i :: ts.map BTree.rootId) acc).Perm _
          rw [show visitPairs g pushF (fuel + 1) (i :: ts.map BTree.rootId) acc =
                visitPairs g pushF fuel
                  ((blockSubIds g blk).reverse ++ ts.map BTree.rootId)
                  (acc ++ blockPairs g blk) by
            simp only [visitPairs, hlk]
            rw [show blk = { nodes := blk.nodes, outputs := blk.outputs } from rfl]
            rw [visit_fold g pushF hpush]
            simp [blockPairs, blockSubIds]]
          have hstack : (blockSubIds g blk).reverse ++ ts.map BTree.rootId =
              (cs.reverse ++ ts).map BTree.rootId := by
            rw [hsub]
            simp [List.map_reverse]
          rw [hstack]
          have hdrev : describesF g (cs.reverse ++ ts) = true := by
            rw [describesF_forall]
            intro s hs
            rcases List.mem_append.mp hs with hs | hs
            · exact (describesF_forall g cs).mp hdcs s (List.mem_reverse.mp hs)
            · exact (describesF_forall g ts).mp hdts s hs
          have hsrev : sizeF (cs.reverse ++ ts) ≤ fuel := by
            rw [sizeF_append, sizeF_reverse]; omega
          have hmain := ih (cs.reverse ++ ts) (acc ++ blockPairs g blk) hdrev hsrev
          refine hmain.trans ?_
          rw [forestPairs_append, List.append_assoc]
          refine (List.Perm.refl acc).append ?_
          have hx := List.Perm.append_left (blockPairs g blk)
            ((forestPairs_reverse_perm g cs).append_right (forestPairs g ts))
          refine hx.trans ?_
          rw [show forestPairs g (BTree.mk i cs :: ts) =
                (blockPairs g blk ++ forestPairs g cs) ++ forestPairs g ts from by
              simp [forestPairs, treePairs, hlk]]
          rw [List.append_assoc]

/-- C4: for every graph whose block structure is described by a tree `t`
rooted at the top block (any nesting depth), the worklist traversal
shared by both passes — pop a block, scan its nodes, push each node's
sub-blocks — visits every node reachable through the tree exactly once
and visits nothing else; consequently a tensor value produced and
consumed by quantizable nodes inside a sub-block is rewritten by
`InsertQuantDequantNodes` exactly like a top-level value, as the nested
graph `exG4` shows: one quantize/dequantize pair is inserted inside the
sub-block and the inner consumer is redirected to the dequantize
output. -/
theorem traversal_visits_each_node_once (g : Graph) (t : BTree)
    (hroot : t.rootId = g.topBlock)
    (hdesc : describes g t = true)
    (hnodup : (BTree.nodeIds g t).Nodup)
    (hsize : BTree.size t ≤ g.blocks.length) :
    (∀ nid ∈ BTree.nodeIds g t, (visitIds g).count nid = 1) ∧
    (∀ nid, nid ∉ BTree.nodeIds g t → (visitIds g).count nid = 0) ∧
    countKind (InsertQuantDequantNodes exG4) "aten::quantize_linear" = 1 ∧
    (findNode (InsertQuantDequantNodes exG4) 2).map Node.inputs = some [13] ∧
    blockNodesAt (InsertQuantDequantNodes exG4) 1 = [1, 5, 6, 3, 4, 2] := by
  have h := visitPairs_perm g (fun _ nd => nd.blocks) (fun _ _ => rfl)
    g.blocks.length [t] []
    (by
      rw [describesF_forall]
      intro s hs
      simp only [List.mem_singleton] at hs
      rw [hs]
      exact hdesc)
    (by
      simp only [sizeF]
      omega)
  have hperm : (visitIds g).Perm (BTree.nodeIds g t) := by
    have h2 : ([t].map BTree.rootId) = [g.topBlock] := by simp [hroot]
    rw [h2] at h
    have h3 : ([] ++ forestPairs g [t]) = treePairs g t := by simp [forestPairs]
    rw [h3] at h
    exact h.map Prod.fst
  refine ⟨?_, ?_, by decide, by decide, by decide⟩
  · intro nid hmem
    rw [hperm.count_eq]
    exact List.count_eq_one_of_mem hnodup hmem
  · intro nid hmem
    rw [hperm.count_eq]
    exact List.count_eq_zero_of_not_mem hmem

/-- Witness for C4 at `exG4` with its two-block tree: the top-level node
`0` and the nested nodes `1`, `2` are each visited exactly once. -/
theorem traversal_visits_each_node_once_witness :
    (visitIds exG4).count 0 = 1 ∧ (visitIds exG4).count 2 = 1 ∧
    (visitIds exG4).count 7 = 0 := by
  have h := traversal_visits_each_node_once exG4 (BTree.mk 0 [BTree.mk 1 []])
    rfl (by decide) (by decide) (by decide)
  exact ⟨h.1 0 (by decide), h.1 2 (by decide), h.2.1 7 (by decide)⟩


/-! ### Insertion-order lemmas and the observer-step characterization -/

theorem Ins_refl (P : Nat → Prop) : ∀ l, Ins P l l
  | [] => Ins.nil
  | x :: xs => Ins.keep x (Ins_refl P xs)

theorem Ins_trans {P : Nat → Prop} {a b c : List Nat}
    (hab : Ins P a b) (hbc : Ins P b c) : Ins P a c := by
  induction hbc generalizing a with
  | nil => exact hab
  | keep x hbc ih =>
    cases hab with
    | keep _ hab2 => exact Ins.keep x (ih hab2)
    | extra _ hx hab2 => exact Ins.extra x hx (ih hab2)
  | extra x hx hbc ih => exact Ins.extra x hx (ih hab)

theorem Ins_mono {P Q : Nat → Prop} (hpq : ∀ x, P x → Q x) {l l1 : List Nat}
    (h : Ins P l l1) : Ins Q l l1 := by
  induction h with
  | nil => exact Ins.nil
  | keep x _ ih => exact Ins.keep x ih
  | extra x hx _ ih => exact Ins.extra x (hpq x hx) ih

theorem Ins_insertBeforeL {P : Nat → Prop} {x : Nat} (hx : P x) (a : Nat) :
    ∀ l, Ins P l (insertBeforeL a x l)
  | [] => Ins.nil
  | y :: ys => by
    by_cases h : y = a
    · simp only [insertBeforeL, if_pos h]
      exact Ins.extra x hx (Ins_refl P (y :: ys))
    · simp only [insertBeforeL, if_neg h]
      exact Ins.keep y (Ins_insertBeforeL hx a ys)

theorem Ins_insertAfterL {P : Nat → Prop} {x : Nat} (hx : P x) (a : Nat) :
    ∀ l, Ins P l (insertAfterL a x l)
  | [] => Ins.nil
  | y :: ys => by
    by_cases h : y = a
    · simp only [insertAfterL, if_pos h]
      exact Ins.keep y (Ins.extra x hx (Ins_refl P ys))
    · simp only [insertAfterL, if_neg h]
      exact Ins.keep y (Ins_insertAfterL hx a ys)

theorem Ins_snoc {P : Nat → Prop} {x : Nat} (hx : P x) :
    ∀ l, Ins P l (l ++ [x])
  | [] => Ins.extra x hx Ins.nil
  | y :: ys => Ins.keep y (Ins_snoc hx ys)

theorem cmap_Ins_eq {P : Nat → Prop} {f : Nat → List β} {l l1 : List Nat}
    (h : Ins P l l1) (hf : ∀ x, P x → f x = []) : cmap f l1 = cmap f l := by
  induction h with
  | nil => rfl
  | keep x _ ih => simp [cmap, ih]
  | extra x hx _ ih => simp [cmap, hf x hx, ih]

theorem lookup_eq_none_of_ge (l : List (Nat × α)) (m k : Nat)
    (hl : ∀ p ∈ l, m ≤ p.1) (hk : k < m) : List.lookup k l = none := by
  induction l with
  | nil => simp [List.lookup]
  | cons p t ih =>
    obtain ⟨a, b⟩ := p
    have h1 : m ≤ a := hl (a, b) (by simp)
    have hne : (k == a) = false := beq_false_of_ne (by omega)
    simp only [List.lookup, hne]
    exact ih (fun q hq => hl q (by simp [hq]))


/-! ### Observer-pass machinery: addObserverFor characterization,
ObsCore preservation, fold and traversal lemmas -/



theorem insertConstant_nodes (g : Graph) (ip : Option Nat) (lit : Lit) :
    (insertConstant g ip lit).1.nodes = g.nodes ++
      [(g.freshN, { kind := "prim::Constant", inputs := [], outputs := [g.freshV],
                    blocks := [], attr := lit, scope := "" })] := by
  cases ip <;> rfl

theorem insertConstant_values (g : Graph) (ip : Option Nat) (lit : Lit) :
    (insertConstant g ip lit).1.values = g.values ++
      [(g.freshV, { vtype := litVType lit, uniqueName := toString g.freshV,
                    producer := .node g.freshN })] := by
  cases ip <;> rfl

theorem insertConstant_freshN (g : Graph) (ip : Option Nat) (lit : Lit) :
    (insertConstant g ip lit).1.freshN = g.freshN + 1 := by
  cases ip <;> rfl

theorem insertConstant_freshV (g : Graph) (ip : Option Nat) (lit : Lit) :
    (insertConstant g ip lit).1.freshV = g.freshV + 1 := by
  cases ip <;> rfl

theorem insertConstant_topBlock (g : Graph) (ip : Option Nat) (lit : Lit) :
    (insertConstant g ip lit).1.topBlock = g.topBlock := by
  cases ip <;> rfl

theorem insertConstant_inputs (g : Graph) (ip : Option Nat) (lit : Lit) :
    (insertConstant g ip lit).1.inputs = g.inputs := by
  cases ip <;> rfl

theorem insertConstant_out (g : Graph) (ip : Option Nat) (lit : Lit) :
    (insertConstant g ip lit).2 = g.freshV := by
  cases ip <;> rfl

theorem insertConstant_blockOutputs (g : Graph) (ip : Option Nat) (lit : Lit) :
    ∀ cb, blockOutputsAt (insertConstant g ip lit).1 cb = blockOutputsAt g cb := by
  intro cb
  cases ip with
  | some a =>
    simp only [insertConstant, insertBeforeNode, blockOutputsAt, findBlock, lookup_mapVals]
    cases List.lookup cb g.blocks <;> rfl
  | none =>
    simp only [insertConstant, blockOutputsAt, findBlock, lookup_mapVals]
    cases hc : List.lookup cb g.blocks with
    | none => rfl
    | some b => by_cases h : cb = g.topBlock <;> simp [h]

theorem insertConstant_blocksSome (g : Graph) (ip : Option Nat) (lit : Lit) :
    ∀ cb, (List.lookup cb (insertConstant g ip lit).1.blocks).isSome =
      (List.lookup cb g.blocks).isSome := by
  intro cb
  cases ip with
  | some a =>
    simp only [insertConstant, insertBeforeNode, lookup_mapVals]
    cases List.lookup cb g.blocks <;> rfl
  | none =>
    simp only [insertConstant, lookup_mapVals]
    cases List.lookup cb g.blocks <;> rfl

theorem insertConstant_Ins (g : Graph) (ip : Option Nat) (lit : Lit) :
    ∀ cb, Ins (fun x => g.freshN ≤ x) (blockNodesAt g cb)
      (blockNodesAt (insertConstant g ip lit).1 cb) := by
  intro cb
  cases ip with
  | some a =>
    simp only [insertConstant, insertBeforeNode, blockNodesAt, findBlock, lookup_mapVals]
    cases List.lookup cb g.blocks with
    | none => exact Ins.nil
    | some b =>
      simp
      exact Ins_insertBeforeL le_rfl a b.nodes
  | none =>
    simp only [insertConstant, blockNodesAt, findBlock, lookup_mapVals]
    cases List.lookup cb g.blocks with
    | none => exact Ins.nil
    | some b =>
      simp
      by_cases h : cb = g.topBlock
      · simp only [if_pos h]
        exact Ins_snoc le_rfl b.nodes
      · simp only [if_neg h]
        exact Ins_refl _ b.nodes



theorem mapVals_eq_self2 {f : Nat → α → α} {l : List (Nat × α)}
    (h : ∀ p ∈ l, f p.1 p.2 = p.2) : mapVals f l = l :=
  mapVals_eq_self h

theorem mapVals_upd_at (f : α → α) (i : Nat) (l r : List (Nat × α)) (x : α)
    (hl : ∀ p ∈ l, ¬ (p.1 = i)) (hr : ∀ p ∈ r, ¬ (p.1 = i)) :
    mapVals (fun j y => if j = i then f y else y) (l ++ (i, x) :: r) =
      l ++ (i, f x) :: r := by
  rw [show (i, x) :: r = [(i, x)] ++ r from rfl, ← List.append_assoc]
  rw [mapVals_append, mapVals_append]
  have h1 : mapVals (fun j y => if j = i then f y else y) l = l :=
    mapVals_eq_self (fun p hp => by simp [hl p hp])
  have h2 : mapVals (fun j y => if j = i then f y else y) r = r :=
    mapVals_eq_self (fun p hp => by simp [hr p hp])
  rw [h1, h2]
  simp [mapVals]

theorem mapVals_upd_snd (f : α → α) (i0 i1 : Nat) (l : List (Nat × α)) (x0 x1 : α)
    (hl : ∀ p ∈ l, ¬ (p.1 = i1)) (h01 : ¬ (i0 = i1)) :
    mapVals (fun j y => if j = i1 then f y else y) (l ++ [(i0, x0), (i1, x1)]) =
      l ++ [(i0, x0), (i1, f x1)] := by
  rw [show l ++ [(i0, x0), (i1, x1)] = (l ++ [(i0, x0)]) ++ (i1, x1) :: [] by simp]
  rw [mapVals_upd_at f i1 (l ++ [(i0, x0)]) [] x1
    (by
      intro p hp
      rcases List.mem_append.mp hp with hp | hp
      · exact hl p hp
      · simp at hp
        rw [hp]
        exact h01)
    (by intro p hp; simp at hp)]
  simp



theorem mapVals_tail2 (F : Nat → α → α) (i0 i1 : Nat) (l : List (Nat × α)) (x0 x1 : α)
    (hl : ∀ p ∈ l, F p.1 p.2 = p.2) :
    mapVals F (l ++ [(i0, x0), (i1, x1)]) = l ++ [(i0, F i0 x0), (i1, F i1 x1)] := by
  rw [mapVals_append, mapVals_eq_self hl]
  rfl

example (g : Graph) (hnlt : ∀ p ∈ g.nodes, p.1 < g.freshN) (c cl : Node) :
    mapVals (fun j y => if j = g.freshN + 1 then { y with inputs := y.inputs ++ [5] } else y)
        (g.nodes ++ [(g.freshN, c), (g.freshN + 1, cl)]) =
      g.nodes ++ [(g.freshN, c), (g.freshN + 1, { cl with inputs := cl.inputs ++ [5] })] := by
  rw [mapVals_tail2 _ _ _ _ _ _ (fun p hp => by
    have := hnlt p hp
    simp only [if_neg (by omega : ¬ (p.1 = g.freshN + 1))])]
  simp

example (g : Graph) (hnlt : ∀ p ∈ g.nodes, p.1 < g.freshN) (c cl : Node) :
    mapVals (fun j y => if j = g.freshN + 1 then { y with inputs := y.inputs ++ [7] } else y)
      (mapVals (fun j y => if j = g.freshN + 1 then { y with inputs := y.inputs ++ [5] } else y)
        (g.nodes ++ [(g.freshN, c), (g.freshN + 1, cl)])) =
      g.nodes ++ [(g.freshN, c), (g.freshN + 1, { cl with inputs := cl.inputs ++ [5, 7] })] := by
  rw [mapVals_mapVals]
  rw [mapVals_tail2 _ _ _ _ _ _ (fun p hp => by
    have := hnlt p hp
    simp only [if_neg (by omega : ¬ (p.1 = g.freshN + 1))])]
  simp



theorem obsNewNodes_facts (tmpl : ObserverTemplate) (fN fV v : Nat) (s : String) :
    ∀ p ∈ obsNewNodes tmpl fN fV v s, fN ≤ p.1 ∧ p.1 < fN + 2 ∧ p.2.blocks = [] ∧
      (p.2.kind = "prim::Constant" ∨ p.2.kind = tmpl.kind) := by
  intro p hp
  simp only [obsNewNodes, List.mem_cons, List.not_mem_nil, or_false] at hp
  rcases hp with hp | hp <;> (rw [hp]; simp)

theorem obsNewVals_facts (tmpl : ObserverTemplate) (fN fV : Nat) (vv : Value) :
    ∀ p ∈ obsNewVals tmpl fN fV vv, fV ≤ p.1 ∧ p.1 < fV + tmpl.outMeta.length + 2 := by
  intro p hp
  simp only [obsNewVals, List.mem_cons, List.mem_append, List.mem_map,
    List.not_mem_nil, or_false] at hp
  rcases hp with hp | hp | hp
  · rw [hp]; simp; omega
  · obtain ⟨z, hz, he⟩ := hp
    have hz2 := (List.of_mem_zip hz).2
    obtain ⟨k, hk, hke⟩ := List.mem_map.mp hz2
    have hklt := List.mem_range.mp hk
    rw [← he]
    simp only
    omega
  · rw [hp]; simp; omega

theorem blockOutputsAt_ext {g1 g2 : Graph} (h : g1.blocks = g2.blocks) (cb : Nat) :
    blockOutputsAt g1 cb = blockOutputsAt g2 cb := by
  simp [blockOutputsAt, findBlock, h]

theorem blockNodesAt_ext {g1 g2 : Graph} (h : g1.blocks = g2.blocks) (cb : Nat) :
    blockNodesAt g1 cb = blockNodesAt g2 cb := by
  simp [blockNodesAt, findBlock, h]

theorem addObserverFor_ret (g : Graph) (v : Nat) (tmpl : ObserverTemplate) (ip : Option Nat) :
    (addObserverFor g v tmpl ip).2 = g.freshN + 1 := by
  simp [addObserverFor, createCloneNoBlocks, insertConstant_freshN]

theorem addObserverFor_freshN (g : Graph) (v : Nat) (tmpl : ObserverTemplate) (ip : Option Nat) :
    (addObserverFor g v tmpl ip).1.freshN = g.freshN + 2 := by
  simp [addObserverFor, createCloneNoBlocks, addOutput, setValueType, setUniqueName,
    updValue, addInput, updNode, insertConstant_freshN]

theorem addObserverFor_freshV (g : Graph) (v : Nat) (tmpl : ObserverTemplate) (ip : Option Nat) :
    (addObserverFor g v tmpl ip).1.freshV = g.freshV + tmpl.outMeta.length + 2 := by
  simp [addObserverFor, createCloneNoBlocks, addOutput, setValueType, setUniqueName,
    updValue, addInput, updNode, insertConstant_freshV]
  omega

theorem addObserverFor_blocks_frame (g : Graph) (v : Nat) (tmpl : ObserverTemplate)
    (ip : Option Nat) :
    (addObserverFor g v tmpl ip).1.blocks =
      (insertConstant g ip (.strL (uniqueNameOf g v))).1.blocks := rfl

theorem addObserverFor_blockOutputs (g : Graph) (v : Nat) (tmpl : ObserverTemplate)
    (ip : Option Nat) (cb : Nat) :
    blockOutputsAt (addObserverFor g v tmpl ip).1 cb = blockOutputsAt g cb := by
  rw [blockOutputsAt_ext (addObserverFor_blocks_frame g v tmpl ip) cb]
  exact insertConstant_blockOutputs g ip _ cb

theorem addObserverFor_blocksSome (g : Graph) (v : Nat) (tmpl : ObserverTemplate)
    (ip : Option Nat) (cb : Nat) :
    (List.lookup cb (addObserverFor g v tmpl ip).1.blocks).isSome =
      (List.lookup cb g.blocks).isSome := by
  rw [addObserverFor_blocks_frame g v tmpl ip]
  exact insertConstant_blocksSome g ip _ cb

theorem addObserverFor_blockNodes_Ins (g : Graph) (v : Nat) (tmpl : ObserverTemplate)
    (ip : Option Nat) (cb : Nat) :
    Ins (fun x => g.freshN ≤ x) (blockNodesAt g cb)
      (blockNodesAt (addObserverFor g v tmpl ip).1 cb) := by
  rw [blockNodesAt_ext (addObserverFor_blocks_frame g v tmpl ip) cb]
  exact insertConstant_Ins g ip _ cb

theorem addObserverFor_topBlock (g : Graph) (v : Nat) (tmpl : ObserverTemplate)
    (ip : Option Nat) :
    (addObserverFor g v tmpl ip).1.topBlock = g.topBlock := by
  rw [show (addObserverFor g v tmpl ip).1.topBlock =
    (insertConstant g ip (.strL (uniqueNameOf g v))).1.topBlock from rfl]
  exact insertConstant_topBlock g ip _

theorem addObserverFor_inputs (g : Graph) (v : Nat) (tmpl : ObserverTemplate)
    (ip : Option Nat) :
    (addObserverFor g v tmpl ip).1.inputs = g.inputs := by
  rw [show (addObserverFor g v tmpl ip).1.inputs =
    (insertConstant g ip (.strL (uniqueNameOf g v))).1.inputs from rfl]
  exact insertConstant_inputs g ip _

theorem addObserverFor_nodes (g : Graph) (v : Nat) (tmpl : ObserverTemplate)
    (ip : Option Nat)
    (hnlt : ∀ p ∈ g.nodes, p.1 < g.freshN) :
    (addObserverFor g v tmpl ip).1.nodes =
      g.nodes ++ obsNewNodes tmpl g.freshN g.freshV v (uniqueNameOf g v) := by
  simp only [obsNewNodes]
  simp only [addObserverFor, createCloneNoBlocks, addOutput, setValueType,
    setUniqueName, updValue, addInput, updNode,
    insertConstant_nodes, insertConstant_freshN, insertConstant_freshV, insertConstant_out,
    List.append_assoc, List.cons_append, List.nil_append]
  rw [mapVals_mapVals, mapVals_mapVals]
  rw [mapVals_tail2 _ _ _ _ _ _ (fun p hp => by
    have := hnlt p hp
    simp only [if_neg (by omega : ¬ (p.1 = g.freshN + 1))])]
  simp [List.append_assoc]

theorem addObserverFor_values (g : Graph) (v : Nat) (tmpl : ObserverTemplate)
    (ip : Option Nat) (vv : Value)
    (hv : List.lookup v g.values = some vv)
    (hvlt : ∀ p ∈ g.values, p.1 < g.freshV) :
    (addObserverFor g v tmpl ip).1.values =
      g.values ++ obsNewVals tmpl g.freshN g.freshV vv := by
  simp only [obsNewVals]
  have hvV : v < g.freshV := hvlt (v, vv) (lookup_mem hv)
  have hO : ¬ (v = g.freshV + 1 + tmpl.outMeta.length) := by omega
  simp only [addObserverFor, createCloneNoBlocks, addOutput, setValueType, setUniqueName,
    updValue, addInput, updNode, typeOf, uniqueNameOf, findValue,
    insertConstant_values, insertConstant_freshN, insertConstant_freshV, insertConstant_out,
    List.append_assoc, List.cons_append, List.nil_append]
  rw [mapVals_mapVals]
  simp only [lookup_append, lookup_mapVals, lookup_cons, hv, Option.or_some, Option.or,
    Option.map_some, Option.getD_some, if_neg hO, litVType]
  rw [mapVals_append, mapVals_cons, mapVals_append, mapVals_cons, mapVals_nil]
  rw [mapVals_eq_self (fun p hp => by
    have := hvlt p hp
    simp only [if_neg (by omega : ¬ (p.1 = g.freshV + 1 + tmpl.outMeta.length))])]
  rw [mapVals_eq_self (fun p hp => by
    obtain ⟨z, hz, he⟩ := List.mem_map.mp hp
    have hz2 := (List.of_mem_zip hz).2
    obtain ⟨k, hk, hke⟩ := List.mem_map.mp hz2
    have hklt := List.mem_range.mp hk
    have hkey : p.1 = g.freshV + 1 + k := by rw [← he, ← hke]
    simp only [if_neg (by omega : ¬ (p.1 = g.freshV + 1 + tmpl.outMeta.length))])]
  have hf : ¬ (g.freshV = g.freshV + 1 + tmpl.outMeta.length) := by omega
  simp [if_neg hf]

theorem lookup_stable_append {F : List (Nat × α)} (m w : Nat)
    (hF : ∀ p ∈ F, m ≤ p.1) (hw : w < m) (l : List (Nat × α)) :
    List.lookup w (l ++ F) = List.lookup w l := by
  rw [lookup_append, lookup_eq_none_of_ge F m w hF hw]
  cases List.lookup w l <;> rfl

theorem addObserverFor_lookup_old (g : Graph) (v : Nat) (tmpl : ObserverTemplate)
    (ip : Option Nat) (vv : Value)
    (hv : List.lookup v g.values = some vv)
    (hvlt : ∀ p ∈ g.values, p.1 < g.freshV)
    (w : Nat) (hw : w < g.freshV) :
    List.lookup w (addObserverFor g v tmpl ip).1.values = List.lookup w g.values := by
  rw [addObserverFor_values g v tmpl ip vv hv hvlt]
  exact lookup_stable_append g.freshV w
    (fun p hp => (obsNewVals_facts tmpl g.freshN g.freshV vv p hp).1) hw g.values

theorem addObserverFor_lookup_obs (g : Graph) (v : Nat) (tmpl : ObserverTemplate)
    (ip : Option Nat) (vv : Value)
    (hv : List.lookup v g.values = some vv)
    (hvlt : ∀ p ∈ g.values, p.1 < g.freshV) :
    List.lookup (g.freshV + 1 + tmpl.outMeta.length) (addObserverFor g v tmpl ip).1.values =
      some { vtype := vv.vtype, uniqueName := vv.uniqueName ++ ".observed",
             producer := .node (g.freshN + 1) } := by
  rw [addObserverFor_values g v tmpl ip vv hv hvlt]
  rw [lookup_append,
    lookup_eq_none_of_lt g.values g.freshV _ hvlt (by omega), Option.none_or]
  simp only [obsNewVals, lookup_cons, if_neg (by omega : ¬ (g.freshV + 1 + tmpl.outMeta.length = g.freshV))]
  rw [lookup_append]
  rw [lookup_eq_none_of_lt _ (g.freshV + 1 + tmpl.outMeta.length) _ (fun p hp => by
      obtain ⟨z, hz, he⟩ := List.mem_map.mp hp
      have hz2 := (List.of_mem_zip hz).2
      obtain ⟨k, hk, hke⟩ := List.mem_map.mp hz2
      have hklt := List.mem_range.mp hk
      rw [← he]
      simp only
      omega) (Nat.le_refl _), Option.none_or]
  rw [lookup_single, if_pos rfl]

theorem isTensorTyped_stable {g gk : Graph} {F : List (Nat × Value)}
    (hval : gk.values = g.values ++ F) (hF : ∀ p ∈ F, g.freshV ≤ p.1)
    (v : Nat) (hv : v < g.freshV) :
    isTensorTyped gk v = isTensorTyped g v := by
  simp only [isTensorTyped, findValue, hval, lookup_stable_append g.freshV v hF hv]

theorem producerOf_stable {g gk : Graph} {F : List (Nat × Value)}
    (hval : gk.values = g.values ++ F) (hF : ∀ p ∈ F, g.freshV ≤ p.1)
    (v : Nat) (hv : v < g.freshV) :
    producerOf gk v = producerOf g v := by
  simp only [producerOf, findValue, hval, lookup_stable_append g.freshV v hF hv]

theorem length_mapVals (f : Nat → α → α) (l : List (Nat × α)) :
    (mapVals f l).length = l.length := by
  simp [mapVals]

theorem lookup_isSome_mapVals (f : Nat → α → α) (i : Nat) (l : List (Nat × α)) :
    (List.lookup i (mapVals f l)).isSome = (List.lookup i l).isSome := by
  rw [lookup_mapVals]; cases List.lookup i l <;> rfl

theorem blockOutputsAt_mapVals (g : Graph) (f : Nat → Block → Block)
    (hf : ∀ j b, (f j b).outputs = b.outputs) (cb : Nat) :
    blockOutputsAt { g with blocks := mapVals f g.blocks } cb = blockOutputsAt g cb := by
  simp only [blockOutputsAt, findBlock, lookup_mapVals]
  cases List.lookup cb g.blocks with
  | none => rfl
  | some blk => simp [hf]

theorem Ins_blockNodes_mapVals (g : Graph) (f : Nat → Block → Block) (P : Nat → Prop)
    (hf : ∀ j b, Ins P b.nodes (f j b).nodes) (cb : Nat) :
    Ins P (blockNodesAt g cb) (blockNodesAt { g with blocks := mapVals f g.blocks } cb) := by
  simp only [blockNodesAt, findBlock, lookup_mapVals]
  cases List.lookup cb g.blocks with
  | none => exact Ins.nil
  | some blk => simpa using hf cb blk

theorem CloneShape_mono {tmpl : ObserverTemplate} {vals more : List (Nat × Value)} {nd : Node}
    (h : CloneShape tmpl vals nd) : CloneShape tmpl (vals ++ more) nd := by
  obtain ⟨v, w, outs, o, ov, vv, h1, h2, h3, h4, h5, h6, h7⟩ := h
  refine ⟨v, w, outs, o, ov, vv, h1, h2, h3, ?_, ?_, h6, h7⟩
  · rw [lookup_append, h4]; rfl
  · rw [lookup_append, h5]; rfl

theorem ObsCore_blocks_step {g : Graph} {tmpl : ObserverTemplate} {gk : Graph}
    {E : List (Nat × Node)} {c : Nat}
    (h : ObsCore g tmpl gk E c) (f : Nat → Block → Block)
    (hfo : ∀ j b, (f j b).outputs = b.outputs)
    (hfn : ∀ j b, Ins (fun x => g.freshN ≤ x) b.nodes (f j b).nodes) :
    ObsCore g tmpl { gk with blocks := mapVals f gk.blocks } E c := by
  obtain ⟨h1, h2, h3, h4, h5, h6, h7, h8, h9, h10, h11, h12, h13, h14, h15⟩ := h
  refine ⟨h1, h2, h3, h4, h5, h6, h7, h8, h9, ?_, ?_, ?_, ?_, h14, h15⟩
  · simp only [length_mapVals]; exact h10
  · intro cb; rw [show ({ gk with blocks := mapVals f gk.blocks } : Graph).blocks =
      mapVals f gk.blocks from rfl, lookup_isSome_mapVals]; exact h11 cb
  · intro cb
    rw [show ({ gk with blocks := mapVals f gk.blocks } : Graph) =
      { gk with blocks := mapVals f gk.blocks } from rfl]
    rw [blockOutputsAt_mapVals gk f hfo cb]
    exact h12 cb
  · intro cb
    exact Ins_trans (h13 cb) (by
      have := Ins_blockNodes_mapVals gk f (fun x => g.freshN ≤ x) hfn cb
      exact Ins_trans (Ins_refl _ _) this)

theorem ObsCore_insertBefore {g : Graph} {tmpl : ObserverTemplate} {gk : Graph}
    {E : List (Nat × Node)} {c : Nat}
    (h : ObsCore g tmpl gk E c) (anchor nid : Nat) (hn : g.freshN ≤ nid) :
    ObsCore g tmpl (insertBeforeNode gk anchor nid) E c := by
  simp only [insertBeforeNode]
  exact ObsCore_blocks_step h _ (fun j b => rfl)
    (fun j b => Ins_insertBeforeL hn anchor b.nodes)

theorem ObsCore_insertAfter {g : Graph} {tmpl : ObserverTemplate} {gk : Graph}
    {E : List (Nat × Node)} {c : Nat}
    (h : ObsCore g tmpl gk E c) (anchor nid : Nat) (hn : g.freshN ≤ nid) :
    ObsCore g tmpl (insertAfterNode gk anchor nid) E c := by
  simp only [insertAfterNode]
  exact ObsCore_blocks_step h _ (fun j b => rfl)
    (fun j b => Ins_insertAfterL hn anchor b.nodes)

theorem ObsCore_topAppend {g : Graph} {tmpl : ObserverTemplate} {gk : Graph}
    {E : List (Nat × Node)} {c : Nat}
    (h : ObsCore g tmpl gk E c) (nid : Nat) (hn : g.freshN ≤ nid) :
    ObsCore g tmpl { gk with blocks := (mapVals
      (fun j b => if j = gk.topBlock then { b with nodes := b.nodes ++ [nid] } else b)
      gk.blocks) } E c := by
  refine ObsCore_blocks_step h _ (fun j b => ?_) (fun j b => ?_)
  · by_cases hj : j = gk.topBlock <;> simp [hj]
  · by_cases hj : j = gk.topBlock
    · simpa [hj] using Ins_snoc hn b.nodes
    · simpa [hj] using Ins_refl _ b.nodes

theorem ObsCore_addObserverFor {g : Graph} {tmpl : ObserverTemplate} {gk : Graph}
    {E : List (Nat × Node)} {c : Nat}
    (htk : tmpl.kind ≠ "prim::Constant")
    (h : ObsCore g tmpl gk E c) (v : Nat) (vv : Value)
    (hv : List.lookup v gk.values = some vv) (ip : Option Nat) :
    ObsCore g tmpl (addObserverFor gk v tmpl ip).1
      (E ++ obsNewNodes tmpl gk.freshN gk.freshV v (uniqueNameOf gk v)) (c + 1) := by
  obtain ⟨h1, h2, h3, h4, h5, h6, h7, h8, h9, h10, h11, h12, h13, h14, h15⟩ := h
  obtain ⟨F, hF, hFf⟩ := h5
  have hvV : v < gk.freshV := h9 (v, vv) (lookup_mem hv)
  have hnodes := addObserverFor_nodes gk v tmpl ip h8
  have hvals := addObserverFor_values gk v tmpl ip vv hv h9
  have hNf := obsNewNodes_facts tmpl gk.freshN gk.freshV v (uniqueNameOf gk v)
  have hVf := obsNewVals_facts tmpl gk.freshN gk.freshV vv
  refine ⟨?_, ?_, ?_, ?_, ?_, ?_, ?_, ?_, ?_, ?_, ?_, ?_, ?_, ?_, ?_⟩
  · rw [hnodes, h1, List.append_assoc]
  · intro p hp
    rcases List.mem_append.mp hp with hp | hp
    · exact h2 p hp
    · obtain ⟨hge, _, hbl, hkd⟩ := hNf p hp
      exact ⟨Nat.le_trans h6 hge, hbl, hkd⟩
  · intro p hp hk
    rcases List.mem_append.mp hp with hp | hp
    · have := h3 p hp hk
      rw [hvals]
      exact CloneShape_mono this
    · simp only [obsNewNodes, List.mem_cons, List.not_mem_nil, or_false] at hp
      rcases hp with hp | hp
      · exfalso; rw [hp] at hk; exact htk hk.symm
      · rw [hp]
        refine ⟨v, gk.freshV, (List.range tmpl.outMeta.length).map (fun k => gk.freshV + 1 + k),
          gk.freshV + 1 + tmpl.outMeta.length,
          { vtype := vv.vtype, uniqueName := vv.uniqueName ++ ".observed",
            producer := .node (gk.freshN + 1) }, vv, rfl, rfl, by simp, ?_, ?_, rfl, rfl⟩
        · exact addObserverFor_lookup_obs gk v tmpl ip vv hv h9
        · rw [addObserverFor_lookup_old gk v tmpl ip vv hv h9 v hvV]; exact hv
  · rw [List.filter_append, List.length_append, h4]
    simp only [obsNewNodes, List.filter]
    have hc : (("prim::Constant" == tmpl.kind) = false) := by
      simp [beq_eq_false_iff_ne]
      exact fun hh => htk hh.symm
    simp [hc]
  · refine ⟨F ++ obsNewVals tmpl gk.freshN gk.freshV vv, ?_, ?_⟩
    · rw [hvals, hF, List.append_assoc]
    · intro p hp
      rcases List.mem_append.mp hp with hp | hp
      · exact hFf p hp
      · exact Nat.le_trans h7 (hVf p hp).1
  · rw [addObserverFor_freshN]; omega
  · rw [addObserverFor_freshV]; omega
  · intro p hp
    rw [hnodes] at hp
    rw [addObserverFor_freshN]
    rcases List.mem_append.mp hp with hp | hp
    · have := h8 p hp; omega
    · have := (hNf p hp).2.1; omega
  · intro p hp
    rw [hvals] at hp
    rw [addObserverFor_freshV]
    rcases List.mem_append.mp hp with hp | hp
    · have := h9 p hp; omega
    · have := (hVf p hp).2; omega
  · rw [addObserverFor_blocks_frame]
    rw [show ((insertConstant gk ip (.strL (uniqueNameOf gk v))).1.blocks).length =
      gk.blocks.length from ?_]
    · exact h10
    · cases ip with
      | none => simp [insertConstant, length_mapVals]
      | some a => simp [insertConstant, insertBeforeNode, length_mapVals]
  · intro cb
    rw [addObserverFor_blocksSome gk v tmpl ip cb]
    exact h11 cb
  · intro cb
    rw [addObserverFor_blockOutputs gk v tmpl ip cb]
    exact h12 cb
  · intro cb
    refine Ins_trans (h13 cb) (Ins_mono (fun x hx => ?_) (addObserverFor_blockNodes_Ins gk v tmpl ip cb))
    exact Nat.le_trans h6 hx
  · rw [addObserverFor_topBlock]; exact h14
  · rw [addObserverFor_inputs]; exact h15

theorem ObsCore_init (g : Graph) (tmpl : ObserverTemplate)
    (hnlt : ∀ p ∈ g.nodes, p.1 < g.freshN)
    (hvlt : ∀ p ∈ g.values, p.1 < g.freshV) :
    ObsCore g tmpl g [] 0 := by
  refine ⟨by simp, by simp, by simp, rfl, ⟨[], by simp, by simp⟩,
    Nat.le_refl _, Nat.le_refl _, hnlt, hvlt, rfl, fun cb => rfl, fun cb => rfl,
    fun cb => Ins_refl _ _, rfl, rfl⟩

theorem obsNewNodes_clone_id (tmpl : ObserverTemplate) (fN fV v : Nat) (s : String)
    (htk : tmpl.kind ≠ "prim::Constant") :
    ∀ p ∈ obsNewNodes tmpl fN fV v s, p.2.kind = tmpl.kind → p.1 = fN + 1 := by
  intro p hp hk
  simp only [obsNewNodes, List.mem_cons, List.not_mem_nil, or_false] at hp
  rcases hp with hp | hp
  · exfalso; rw [hp] at hk; exact htk hk.symm
  · rw [hp]

theorem step1_fold_strong (g : Graph) (tmpl : ObserverTemplate)
    (htk : tmpl.kind ≠ "prim::Constant") (ipt : Option Nat)
    (plant : Graph → Nat → Graph)
    (hplant : ∀ (gk' : Graph) (E' : List (Nat × Node)) (c' : Nat) (nid : Nat),
      ObsCore g tmpl gk' E' c' → g.freshN ≤ nid → ObsCore g tmpl (plant gk' nid) E' c') :
    ∀ (vs : List Nat) (gk : Graph) (obs : List Nat) (E : List (Nat × Node)) (c : Nat),
      ObsCore g tmpl gk E c →
      (∀ v ∈ vs, v < g.freshV) →
      (∀ x ∈ obs, g.freshN ≤ x) →
      (∀ p ∈ E, p.2.kind = tmpl.kind → p.1 ∈ obs) →
      ∃ E',
        ObsCore g tmpl
          (vs.foldl (fun (acc : Graph × List Nat) v =>
            if isTensorTyped acc.1 v then
              (plant (addObserverFor acc.1 v tmpl ipt).1 (addObserverFor acc.1 v tmpl ipt).2,
               acc.2 ++ [(addObserverFor acc.1 v tmpl ipt).2])
            else acc) (gk, obs)).1 E'
          (c + (vs.filter (fun v => isTensorTyped g v)).length) ∧
        (∀ x ∈ (vs.foldl (fun (acc : Graph × List Nat) v =>
            if isTensorTyped acc.1 v then
              (plant (addObserverFor acc.1 v tmpl ipt).1 (addObserverFor acc.1 v tmpl ipt).2,
               acc.2 ++ [(addObserverFor acc.1 v tmpl ipt).2])
            else acc) (gk, obs)).2, g.freshN ≤ x) ∧
        (∀ p ∈ E', p.2.kind = tmpl.kind → p.1 ∈ (vs.foldl (fun (acc : Graph × List Nat) v =>
            if isTensorTyped acc.1 v then
              (plant (addObserverFor acc.1 v tmpl ipt).1 (addObserverFor acc.1 v tmpl ipt).2,
               acc.2 ++ [(addObserverFor acc.1 v tmpl ipt).2])
            else acc) (gk, obs)).2)
  | [], gk, obs, E, c, hcore, hvs, hobs, hEo => by
    simp only [List.foldl_nil, List.filter_nil, List.length_nil, Nat.add_zero]
    exact ⟨E, hcore, hobs, hEo⟩
  | v :: vs, gk, obs, E, c, hcore, hvs, hobs, hEo => by
    have h6 : g.freshN ≤ gk.freshN := hcore.2.2.2.2.2.1
    obtain ⟨F, hF, hFf⟩ := hcore.2.2.2.2.1
    have hvlt : v < g.freshV := hvs v (List.mem_cons_self v vs)
    have hstab : isTensorTyped gk v = isTensorTyped g v :=
      isTensorTyped_stable hF hFf v hvlt
    simp only [List.foldl_cons]
    cases ht : isTensorTyped gk v with
    | false =>
      rw [if_neg Bool.false_ne_true]
      have hgf : isTensorTyped g v = false := by rw [← hstab]; exact ht
      rw [List.filter_cons_of_neg (by simp [hgf])]
      exact step1_fold_strong g tmpl htk ipt plant hplant vs gk obs E c hcore
        (fun w hw => hvs w (List.mem_cons_of_mem v hw)) hobs hEo
    | true =>
      rw [if_pos rfl]
      have hgt : isTensorTyped g v = true := by rw [← hstab]; exact ht
      rw [List.filter_cons_of_pos (by simp [hgt])]
      cases hlv : List.lookup v gk.values with
      | none => exfalso; rw [isTensorTyped, findValue, hlv] at ht; exact Bool.false_ne_true ht
      | some vv =>
        have hcore2 := ObsCore_addObserverFor htk hcore v vv hlv ipt
        have hret := addObserverFor_ret gk v tmpl ipt
        have hn : g.freshN ≤ (addObserverFor gk v tmpl ipt).2 := by rw [hret]; omega
        have hcore3 := hplant _ _ _ _ hcore2 hn
        have hobs' : ∀ x ∈ obs ++ [(addObserverFor gk v tmpl ipt).2], g.freshN ≤ x := by
          intro x hx
          rcases List.mem_append.mp hx with hx | hx
          · exact hobs x hx
          · rw [List.mem_singleton.mp hx]; exact hn
        have hEo' : ∀ p ∈ E ++ obsNewNodes tmpl gk.freshN gk.freshV v (uniqueNameOf gk v),
            p.2.kind = tmpl.kind → p.1 ∈ obs ++ [(addObserverFor gk v tmpl ipt).2] := by
          intro p hp hk
          rcases List.mem_append.mp hp with hp | hp
          · exact List.mem_append_left _ (hEo p hp hk)
          · refine List.mem_append_right _ ?_
            rw [obsNewNodes_clone_id tmpl gk.freshN gk.freshV v (uniqueNameOf gk v) htk p hp hk]
            rw [hret]
            exact List.mem_singleton_self _
        have := step1_fold_strong g tmpl htk ipt plant hplant vs
          (plant (addObserverFor gk v tmpl ipt).1 (addObserverFor gk v tmpl ipt).2)
          (obs ++ [(addObserverFor gk v tmpl ipt).2])
          (E ++ obsNewNodes tmpl gk.freshN gk.freshV v (uniqueNameOf gk v)) (c + 1)
          hcore3 (fun w hw => hvs w (List.mem_cons_of_mem v hw)) hobs' hEo'
        obtain ⟨E', hE1, hE2, hE3⟩ := this
        refine ⟨E', ?_, hE2, hE3⟩
        rw [show c + (v :: List.filter (fun v => isTensorTyped g v) vs).length =
          (c + 1) + (List.filter (fun v => isTensorTyped g v) vs).length from by
            simp [List.length_cons]; omega]
        exact hE1

theorem step3_fold_strong (g : Graph) (tmpl : ObserverTemplate)
    (htk : tmpl.kind ≠ "prim::Constant")
    (hgv : ∀ p ∈ g.values, p.1 < g.freshV) :
    ∀ (vs : List Nat) (gk : Graph) (E : List (Nat × Node)) (c : Nat),
      ObsCore g tmpl gk E c →
      (∀ v ∈ vs, ∃ vv pn, List.lookup v g.values = some vv ∧
        vv.producer = Producer.node pn) →
      ∃ E', ObsCore g tmpl
        (vs.foldl (fun gk v =>
          if isTensorTyped gk v then
            match producerOf gk v with
            | some pn =>
              let r := addObserverFor gk v tmpl (some pn)
              insertAfterNode r.1 pn r.2
            | none => gk
          else gk) gk) E'
        (c + (vs.filter (fun v => isTensorTyped g v)).length)
  | [], gk, E, c, hcore, _ => by
    simp only [List.foldl_nil, List.filter_nil, List.length_nil, Nat.add_zero]
    exact ⟨E, hcore⟩
  | v :: vs, gk, E, c, hcore, hHv => by
    have h6 : g.freshN ≤ gk.freshN := hcore.2.2.2.2.2.1
    obtain ⟨F, hF, hFf⟩ := hcore.2.2.2.2.1
    obtain ⟨vv, pn, hv, hprod⟩ := hHv v (List.mem_cons_self v vs)
    have hvV : v < g.freshV := hgv (v, vv) (lookup_mem hv)
    have hstab : isTensorTyped gk v = isTensorTyped g v :=
      isTensorTyped_stable hF hFf v hvV
    simp only [List.foldl_cons]
    cases ht : isTensorTyped gk v with
    | false =>
      rw [if_neg Bool.false_ne_true]
      have hgf : isTensorTyped g v = false := by rw [← hstab]; exact ht
      rw [List.filter_cons_of_neg (by simp [hgf])]
      exact step3_fold_strong g tmpl htk hgv vs gk E c hcore
        (fun w hw => hHv w (List.mem_cons_of_mem v hw))
    | true =>
      rw [if_pos rfl]
      have hgt : isTensorTyped g v = true := by rw [← hstab]; exact ht
      rw [List.filter_cons_of_pos (by simp [hgt])]
      have hpg : producerOf g v = some pn := by
        simp [producerOf, findValue, hv, hprod]
      have hpgk : producerOf gk v = some pn := by
        rw [producerOf_stable hF hFf v hvV]; exact hpg
      rw [hpgk]
      have hlvgk : List.lookup v gk.values = some vv := by
        rw [hF, lookup_stable_append g.freshV v hFf hvV g.values]; exact hv
      have hcore2 := ObsCore_addObserverFor htk hcore v vv hlvgk (some pn)
      have hret := addObserverFor_ret gk v tmpl (some pn)
      have hn : g.freshN ≤ (addObserverFor gk v tmpl (some pn)).2 := by rw [hret]; omega
      have hcore3 := ObsCore_insertAfter hcore2 pn _ hn
      have := step3_fold_strong g tmpl htk hgv vs
        (insertAfterNode (addObserverFor gk v tmpl (some pn)).1 pn
          (addObserverFor gk v tmpl (some pn)).2)
        (E ++ obsNewNodes tmpl gk.freshN gk.freshV v (uniqueNameOf gk v)) (c + 1)
        hcore3 (fun w hw => hHv w (List.mem_cons_of_mem v hw))
      obtain ⟨E', hE1⟩ := this
      refine ⟨E', ?_⟩
      rw [show c + (v :: List.filter (fun v => isTensorTyped g v) vs).length =
        (c + 1) + (List.filter (fun v => isTensorTyped g v) vs).length from by
          simp [List.length_cons]; omega]
      exact hE1

theorem step1_fold_weak (g : Graph) (tmpl : ObserverTemplate)
    (htk : tmpl.kind ≠ "prim::Constant") (ipt : Option Nat)
    (plant : Graph → Nat → Graph)
    (hplant : ∀ (gk' : Graph) (E' : List (Nat × Node)) (c' : Nat) (nid : Nat),
      ObsCore g tmpl gk' E' c' → g.freshN ≤ nid → ObsCore g tmpl (plant gk' nid) E' c') :
    ∀ (vs : List Nat) (gk : Graph) (obs : List Nat) (E : List (Nat × Node)) (c : Nat),
      ObsCore g tmpl gk E c →
      ∃ E' c', ObsCore g tmpl
        (vs.foldl (fun (acc : Graph × List Nat) v =>
          if isTensorTyped acc.1 v then
            (plant (addObserverFor acc.1 v tmpl ipt).1 (addObserverFor acc.1 v tmpl ipt).2,
             acc.2 ++ [(addObserverFor acc.1 v tmpl ipt).2])
          else acc) (gk, obs)).1 E' c'
  | [], gk, obs, E, c, hcore => ⟨E, c, hcore⟩
  | v :: vs, gk, obs, E, c, hcore => by
    have h6 : g.freshN ≤ gk.freshN := hcore.2.2.2.2.2.1
    simp only [List.foldl_cons]
    cases ht : isTensorTyped gk v with
    | false =>
      rw [if_neg Bool.false_ne_true]
      exact step1_fold_weak g tmpl htk ipt plant hplant vs gk obs E c hcore
    | true =>
      rw [if_pos rfl]
      cases hlv : List.lookup v gk.values with
      | none => exfalso; rw [isTensorTyped, findValue, hlv] at ht; exact Bool.false_ne_true ht
      | some vv =>
        have hcore2 := ObsCore_addObserverFor htk hcore v vv hlv ipt
        have hret := addObserverFor_ret gk v tmpl ipt
        have hn : g.freshN ≤ (addObserverFor gk v tmpl ipt).2 := by rw [hret]; omega
        have hcore3 := hplant _ _ _ _ hcore2 hn
        exact step1_fold_weak g tmpl htk ipt plant hplant vs
          (plant (addObserverFor gk v tmpl ipt).1 (addObserverFor gk v tmpl ipt).2)
          (obs ++ [(addObserverFor gk v tmpl ipt).2])
          (E ++ obsNewNodes tmpl gk.freshN gk.freshV v (uniqueNameOf gk v)) (c + 1)
          hcore3

theorem step3_fold_weak (g : Graph) (tmpl : ObserverTemplate)
    (htk : tmpl.kind ≠ "prim::Constant") :
    ∀ (vs : List Nat) (gk : Graph) (E : List (Nat × Node)) (c : Nat),
      ObsCore g tmpl gk E c →
      ∃ E' c', ObsCore g tmpl
        (vs.foldl (fun gk v =>
          if isTensorTyped gk v then
            match producerOf gk v with
            | some pn =>
              let r := addObserverFor gk v tmpl (some pn)
              insertAfterNode r.1 pn r.2
            | none => gk
          else gk) gk) E' c'
  | [], gk, E, c, hcore => ⟨E, c, hcore⟩
  | v :: vs, gk, E, c, hcore => by
    have h6 : g.freshN ≤ gk.freshN := hcore.2.2.2.2.2.1
    simp only [List.foldl_cons]
    cases ht : isTensorTyped gk v with
    | false =>
      rw [if_neg Bool.false_ne_true]
      exact step3_fold_weak g tmpl htk vs gk E c hcore
    | true =>
      rw [if_pos rfl]
      cases hp : producerOf gk v with
      | none =>
        exact step3_fold_weak g tmpl htk vs gk E c hcore
      | some pn =>
        cases hlv : List.lookup v gk.values with
        | none => exfalso; rw [isTensorTyped, findValue, hlv] at ht; exact Bool.false_ne_true ht
        | some vv =>
          have hcore2 := ObsCore_addObserverFor htk hcore v vv hlv (some pn)
          have hret := addObserverFor_ret gk v tmpl (some pn)
          have hn : g.freshN ≤ (addObserverFor gk v tmpl (some pn)).2 := by rw [hret]; omega
          have hcore3 := ObsCore_insertAfter hcore2 pn _ hn
          exact step3_fold_weak g tmpl htk vs
            (insertAfterNode (addObserverFor gk v tmpl (some pn)).1 pn
              (addObserverFor gk v tmpl (some pn)).2)
            (E ++ obsNewNodes tmpl gk.freshN gk.freshV v (uniqueNameOf gk v)) (c + 1)
            hcore3

theorem insertObservers_core (g : Graph) (tmpl : ObserverTemplate)
    (num : Nat) (g2 : Graph)
    (hok : InsertObserverNodes g tmpl num = .ok g2)
    (htk : tmpl.kind ≠ "prim::Constant")
    (hnlt : ∀ p ∈ g.nodes, p.1 < g.freshN)
    (hvlt : ∀ p ∈ g.values, p.1 < g.freshV) :
    ∃ E c, ObsCore g tmpl g2 E c := by
  by_cases hle : num ≤ g.inputs.length
  · simp only [InsertObserverNodes, if_pos hle] at hok
    rw [Except.ok.injEq] at hok
    subst hok
    have hplant : ∀ (gk' : Graph) (E' : List (Nat × Node)) (c' : Nat) (nid : Nat),
        ObsCore g tmpl gk' E' c' → g.freshN ≤ nid →
        ObsCore g tmpl
          ((fun (gg : Graph) (nn : Nat) =>
            match (((List.lookup g.topBlock g.blocks).map Block.nodes).getD []).head? with
            | some anchor => insertBeforeNode gg anchor nn
            | none => { gg with blocks := (mapVals (fun j b =>
                if j = gg.topBlock then { b with nodes := b.nodes ++ [nn] } else b) gg.blocks) })
            gk' nid) E' c' := by
      intro gk' E' c' nid hco hn
      cases (((List.lookup g.topBlock g.blocks).map Block.nodes).getD []).head? with
      | some anchor => exact ObsCore_insertBefore hco anchor nid hn
      | none => exact ObsCore_topAppend hco nid hn
    obtain ⟨E1, c1, hcore1⟩ := step1_fold_weak g tmpl htk
      ((((List.lookup g.topBlock g.blocks).map Block.nodes).getD []).head?)
      _ hplant (g.inputs.take num) g [] [] 0 (ObsCore_init g tmpl hnlt hvlt)
    obtain ⟨E2, c2, hcore2⟩ := step3_fold_weak g tmpl htk
      _ _ _ _ hcore1
    exact ⟨E2, c2, hcore2⟩
  · simp only [InsertObserverNodes, if_neg hle] at hok
    exact absurd hok (by simp)

/-- C8: observation is non-intrusive.  For every successful
`InsertObserverNodes` run, every pre-existing node (hence every pre-existing
consumer edge) and every pre-existing value is looked up unchanged in the
result, block outputs are untouched, the graph inputs are untouched, and
every new observer clone is well-shaped: its one new output value carries
the observed value's type and its name suffixed `.observed`; that output is
recorded nowhere in the old nodes, so it never replaces the original
value's uses. -/
theorem observer_pass_nonintrusive (g : Graph) (tmpl : ObserverTemplate)
    (num : Nat) (g2 : Graph)
    (hok : InsertObserverNodes g tmpl num = .ok g2)
    (htk : tmpl.kind ≠ "prim::Constant")
    (hnlt : ∀ p ∈ g.nodes, p.1 < g.freshN)
    (hvlt : ∀ p ∈ g.values, p.1 < g.freshV)
    (hnnd : (g.nodes.map Prod.fst).Nodup)
    (hvnd : (g.values.map Prod.fst).Nodup) :
    (∀ p ∈ g.nodes, List.lookup p.1 g2.nodes = some p.2) ∧
    (∀ p ∈ g.values, List.lookup p.1 g2.values = some p.2) ∧
    (∀ cb, blockOutputsAt g2 cb = blockOutputsAt g cb) ∧
    (∀ p ∈ newNodes g g2, p.2.kind = tmpl.kind → CloneShape tmpl g2.values p.2) ∧
    g2.inputs = g.inputs := by
  obtain ⟨E, c, hcore⟩ := insertObservers_core g tmpl num g2 hok htk hnlt hvlt
  obtain ⟨h1, h2, h3, h4, h5, h6, h7, h8, h9, h10, h11, h12, h13, h14, h15⟩ := hcore
  obtain ⟨F, hF, hFf⟩ := h5
  have hEeq : newNodes g g2 = E := by
    rw [newNodes, h1, List.drop_left]
  refine ⟨?_, ?_, h12, ?_, h15⟩
  · intro p hp
    rw [h1, lookup_append, lookup_of_mem_nodup hnnd hp]
    rfl
  · intro p hp
    rw [hF, lookup_append, lookup_of_mem_nodup hvnd hp]
    rfl
  · intro p hp hk
    rw [hEeq] at hp
    exact h3 p hp hk

theorem obs_fold (g : Graph) (ofi : List Nat)
    (hskip : ∀ r ∈ g.nodes,
      (!outputsNeedToBeObserved r.2 || ofi.contains r.1) = true → r.2.blocks = [])
    (ns : List Nat) :
    ∀ (acc : List Nat) (subs0 : List Nat),
    ns.foldl
      (fun (st : List Nat × List Nat) nid =>
        match List.lookup nid g.nodes with
        | none => st
        | some nd =>
          if !outputsNeedToBeObserved nd || ofi.contains nid then st
          else (st.1 ++ nd.outputs, st.2 ++ nd.blocks))
      (acc, subs0) =
      (acc ++ cmap (obsSel g ofi) (blockPairs g { nodes := ns }),
       subs0 ++ blockSubIds g { nodes := ns }) := by
  induction ns with
  | nil => intro acc subs0; simp [blockPairs, blockSubIds, cmap]
  | cons x xs ih =>
    intro acc subs0
    simp only [List.foldl_cons]
    cases hx : List.lookup x g.nodes with
    | none =>
      simp only [hx, ih]
      simp [blockPairs, blockSubIds, cmap, hx]
    | some nd =>
      simp only [hx]
      cases hsk : (!outputsNeedToBeObserved nd || ofi.contains x) with
      | true =>
        have hbl : nd.blocks = [] := hskip (x, nd) (lookup_mem hx) hsk
        rw [if_pos rfl]
        have hsel : obsSel g ofi (x, nd) = [] := by rw [obsSel, if_pos hsk]
        simp only [ih]
        simp [blockPairs, blockSubIds, cmap, hx, hsel, hbl]
      | false =>
        rw [if_neg Bool.false_ne_true]
        have hsel : obsSel g ofi (x, nd) = nd.outputs := by
          rw [obsSel, if_neg (by rw [hsk]; exact Bool.false_ne_true)]
        simp only [ih]
        simp [blockPairs, blockSubIds, cmap, hx, hsel, List.append_assoc]

theorem obsCollect_perm (g : Graph) (ofi : List Nat)
    (hskip : ∀ r ∈ g.nodes,
      (!outputsNeedToBeObserved r.2 || ofi.contains r.1) = true → r.2.blocks = []) :
    ∀ (fuel : Nat) (forest : List BTree) (acc : List Nat),
      describesF g forest = true → sizeF forest ≤ fuel →
      (obsCollect g ofi fuel (forest.map BTree.rootId) acc).Perm
        (acc ++ cmap (obsSel g ofi) (forestPairs g forest)) := by
  intro fuel
  induction fuel with
  | zero =>
    intro forest acc hdesc hsize
    cases forest with
    | nil => simp [obsCollect, forestPairs, cmap]
    | cons t ts =>
      exfalso
      have := bsize_pos t
      simp [sizeF] at hsize
      omega
  | succ fuel ih =>
    intro forest acc hdesc hsize
    cases forest with
    | nil => simp [obsCollect, forestPairs, cmap]
    | cons t ts =>
      cases t with
      | mk i cs =>
        have hall := (describesF_forall g _).mp hdesc
        have hdt : describes g (BTree.mk i cs) = true := hall _ (by simp)
        have hdts : describesF g ts = true :=
          (describesF_forall g ts).mpr (fun s hs => hall s (by simp [hs]))
        cases hlk : List.lookup i g.blocks with
        | none => rw [describes, hlk] at hdt; simp at hdt
        | some blk =>
          rw [describes, hlk] at hdt
          simp only [Bool.and_eq_true, beq_iff_eq] at hdt
          obtain ⟨hsub, hdcs⟩ := hdt
          have hszt : sizeF cs + sizeF ts ≤ fuel := by
            have h1 : sizeF (BTree.mk i cs :: ts) = (1 + sizeF cs) + sizeF ts := by
              simp [sizeF, BTree.size]
            omega
          show (obsCollect g ofi (fuel + 1) (i :: ts.map BTree.rootId) acc).Perm _
          rw [show obsCollect g ofi (fuel + 1) (i :: ts.map BTree.rootId) acc =
                obsCollect g ofi fuel
                  ((blockSubIds g blk).reverse ++ ts.map BTree.rootId)
                  (acc ++ cmap (obsSel g ofi) (blockPairs g blk)) by
            simp only [obsCollect, hlk]
            rw [show blk = { nodes := blk.nodes, outputs := blk.outputs } from rfl]
            rw [obs_fold g ofi hskip]
            simp [blockPairs, blockSubIds]]
          have hstack : (blockSubIds g blk).reverse ++ ts.map BTree.rootId =
              (cs.reverse ++ ts).map BTree.rootId := by
            rw [hsub]
            simp [List.map_reverse]
          rw [hstack]
          have hdrev : describesF g (cs.reverse ++ ts) = true := by
            rw [describesF_forall]
            intro s hs
            rcases List.mem_append.mp hs with hs | hs
            · exact (describesF_forall g cs).mp hdcs s (List.mem_reverse.mp hs)
            · exact (describesF_forall g ts).mp hdts s hs
          have hsrev : sizeF (cs.reverse ++ ts) ≤ fuel := by
            rw [sizeF_append, sizeF_reverse]; omega
          have hmain := ih (cs.reverse ++ ts)
            (acc ++ cmap (obsSel g ofi) (blockPairs g blk)) hdrev hsrev
          refine hmain.trans ?_
          rw [forestPairs_append, cmap_append, List.append_assoc]
          refine (List.Perm.refl acc).append ?_
          have hx := List.Perm.append_left (cmap (obsSel g ofi) (blockPairs g blk))
            ((cmap_perm (obsSel g ofi) (forestPairs_reverse_perm g cs)).append_right
              (cmap (obsSel g ofi) (forestPairs g ts)))
          refine hx.trans ?_
          rw [show forestPairs g (BTree.mk i cs :: ts) =
                (blockPairs g blk ++ forestPairs g cs) ++ forestPairs g ts from by
              simp [forestPairs, treePairs, hlk]]
          rw [cmap_append, cmap_append, List.append_assoc]


theorem cmap_congr {f h : α → List β} : ∀ {l : List α},
    (∀ x ∈ l, f x = h x) → cmap f l = cmap h l
  | [], _ => rfl
  | x :: xs, hfh => by
    simp only [cmap]
    rw [hfh x (List.mem_cons_self x xs),
      cmap_congr (fun y hy => hfh y (List.mem_cons_of_mem x hy))]

theorem cmap_blockPairs (gX : Graph) (f : Nat × Node → List Nat) (blk : Block) :
    cmap f (blockPairs gX blk) = cmap (pairSel gX f) blk.nodes := by
  rw [blockPairs]
  induction blk.nodes with
  | nil => rfl
  | cons x xs ih =>
    simp only [cmap]
    cases hx : List.lookup x gX.nodes with
    | none => simp [cmap, pairSel, hx, ih]
    | some nd => simp [cmap, pairSel, hx, ih]

theorem lookup_nodes_fresh (g g1 : Graph) (E1 : List (Nat × Node))
    (h1 : g1.nodes = g.nodes ++ E1)
    (hnlt : ∀ p ∈ g.nodes, p.1 < g.freshN)
    (x : Nat) (hx : g.freshN ≤ x) :
    List.lookup x g1.nodes = List.lookup x E1 := by
  rw [h1, lookup_append, lookup_eq_none_of_lt g.nodes g.freshN x hnlt hx, Option.none_or]

mutual

theorem describes_lift (g g1 : Graph) (E1 : List (Nat × Node))
    (h1 : g1.nodes = g.nodes ++ E1)
    (hnlt : ∀ p ∈ g.nodes, p.1 < g.freshN)
    (hE1 : ∀ p ∈ E1, g.freshN ≤ p.1 ∧ p.2.blocks = [])
    (hb : ∀ cb, ∀ nid ∈ blockNodesAt g cb, nid < g.freshN)
    (h11 : ∀ cb, (List.lookup cb g1.blocks).isSome = (List.lookup cb g.blocks).isSome)
    (h13 : ∀ cb, Ins (fun x => g.freshN ≤ x) (blockNodesAt g cb) (blockNodesAt g1 cb)) :
    ∀ t : BTree, describes g t = true → describes g1 t = true
  | .mk i cs, hd => by
    rw [describes] at hd ⊢
    simp only [Bool.and_eq_true] at hd ⊢
    obtain ⟨hblk, hcs⟩ := hd
    refine ⟨?_, describesF_lift g g1 E1 h1 hnlt hE1 hb h11 h13 cs hcs⟩
    cases hlk : List.lookup i g.blocks with
    | none => rw [hlk] at hblk; simp at hblk
    | some blk =>
      rw [hlk] at hblk
      have hsome : (List.lookup i g1.blocks).isSome = true := by
        rw [h11 i, hlk]; rfl
      cases hlk1 : List.lookup i g1.blocks with
      | none => rw [hlk1] at hsome; simp at hsome
      | some blk1 =>
        simp only [beq_iff_eq] at hblk ⊢
        have hbn : blockNodesAt g i = blk.nodes := by simp [blockNodesAt, findBlock, hlk]
        have hbn1 : blockNodesAt g1 i = blk1.nodes := by simp [blockNodesAt, findBlock, hlk1]
        have hins : Ins (fun x => g.freshN ≤ x) blk.nodes blk1.nodes := by
          have := h13 i; rw [hbn, hbn1] at this; exact this
        have hsub1 : cmap (fun nid => match List.lookup nid g1.nodes with
              | some nd => nd.blocks
              | none => []) blk1.nodes =
            cmap (fun nid => match List.lookup nid g1.nodes with
              | some nd => nd.blocks
              | none => []) blk.nodes :=
          cmap_Ins_eq hins (fun x hx => by
            show (match List.lookup x g1.nodes with
              | some nd => nd.blocks
              | none => []) = []
            rw [lookup_nodes_fresh g g1 E1 h1 hnlt x hx]
            cases hlE : List.lookup x E1 with
            | none => rfl
            | some e =>
              have hbe := (hE1 (x, e) (lookup_mem hlE)).2
              show e.blocks = []
              exact hbe)
        have hsub2 : cmap (fun nid => match List.lookup nid g1.nodes with
              | some nd => nd.blocks
              | none => []) blk.nodes =
            cmap (fun nid => match List.lookup nid g.nodes with
              | some nd => nd.blocks
              | none => []) blk.nodes :=
          cmap_congr (fun nid hnid => by
            have hlt : nid < g.freshN := by rw [← hbn] at hnid; exact hb i nid hnid
            show (match List.lookup nid g1.nodes with
              | some nd => nd.blocks
              | none => []) = (match List.lookup nid g.nodes with
              | some nd => nd.blocks
              | none => [])
            rw [h1, lookup_stable_append g.freshN nid (fun p hp => (hE1 p hp).1) hlt g.nodes])
        exact hsub1.trans (hsub2.trans hblk)

theorem describesF_lift (g g1 : Graph) (E1 : List (Nat × Node))
    (h1 : g1.nodes = g.nodes ++ E1)
    (hnlt : ∀ p ∈ g.nodes, p.1 < g.freshN)
    (hE1 : ∀ p ∈ E1, g.freshN ≤ p.1 ∧ p.2.blocks = [])
    (hb : ∀ cb, ∀ nid ∈ blockNodesAt g cb, nid < g.freshN)
    (h11 : ∀ cb, (List.lookup cb g1.blocks).isSome = (List.lookup cb g.blocks).isSome)
    (h13 : ∀ cb, Ins (fun x => g.freshN ≤ x) (blockNodesAt g cb) (blockNodesAt g1 cb)) :
    ∀ l : List BTree, describesF g l = true → describesF g1 l = true
  | [], _ => rfl
  | t :: ts, hd => by
    rw [describesF] at hd ⊢
    simp only [Bool.and_eq_true] at hd ⊢
    exact ⟨describes_lift g g1 E1 h1 hnlt hE1 hb h11 h13 t hd.1,
      describesF_lift g g1 E1 h1 hnlt hE1 hb h11 h13 ts hd.2⟩

end

mutual

theorem obsOut_lift (g g1 : Graph) (E1 : List (Nat × Node)) (ofi : List Nat)
    (tmpl : ObserverTemplate)
    (h1 : g1.nodes = g.nodes ++ E1)
    (hnlt : ∀ p ∈ g.nodes, p.1 < g.freshN)
    (hE1 : ∀ p ∈ E1, g.freshN ≤ p.1 ∧ p.2.blocks = [] ∧
      (p.2.kind = "prim::Constant" ∨ p.2.kind = tmpl.kind))
    (hcl : ∀ p ∈ E1, p.2.kind = tmpl.kind → p.1 ∈ ofi)
    (hofi : ∀ x ∈ ofi, g.freshN ≤ x)
    (hb : ∀ cb, ∀ nid ∈ blockNodesAt g cb, nid < g.freshN)
    (h11 : ∀ cb, (List.lookup cb g1.blocks).isSome = (List.lookup cb g.blocks).isSome)
    (h13 : ∀ cb, Ins (fun x => g.freshN ≤ x) (blockNodesAt g cb) (blockNodesAt g1 cb)) :
    ∀ t : BTree, describes g t = true →
      cmap (obsSel g1 ofi) (treePairs g1 t) =
        cmap (fun p => if outputsNeedToBeObserved p.2 then p.2.outputs else [])
          (treePairs g t)
  | .mk i cs, hd => by
    rw [describes] at hd
    simp only [Bool.and_eq_true] at hd
    obtain ⟨hblk, hcs⟩ := hd
    rw [treePairs, treePairs, cmap_append, cmap_append]
    rw [obsOutF_lift g g1 E1 ofi tmpl h1 hnlt hE1 hcl hofi hb h11 h13 cs hcs]
    cases hlk : List.lookup i g.blocks with
    | none => rw [hlk] at hblk; simp at hblk
    | some blk =>
      have hsome : (List.lookup i g1.blocks).isSome = true := by
        rw [h11 i, hlk]; rfl
      cases hlk1 : List.lookup i g1.blocks with
      | none => rw [hlk1] at hsome; simp at hsome
      | some blk1 =>
        have hbn : blockNodesAt g i = blk.nodes := by simp [blockNodesAt, findBlock, hlk]
        have hbn1 : blockNodesAt g1 i = blk1.nodes := by simp [blockNodesAt, findBlock, hlk1]
        have hins : Ins (fun x => g.freshN ≤ x) blk.nodes blk1.nodes := by
          have := h13 i; rw [hbn, hbn1] at this; exact this
        rw [cmap_blockPairs, cmap_blockPairs]
        have hstep1 : cmap (pairSel g1 (obsSel g1 ofi)) blk1.nodes =
            cmap (pairSel g1 (obsSel g1 ofi)) blk.nodes :=
          cmap_Ins_eq hins (fun x hx => by
            rw [pairSel, lookup_nodes_fresh g g1 E1 h1 hnlt x hx]
            cases hlE : List.lookup x E1 with
            | none => rfl
            | some e =>
              obtain ⟨_, _, hkd⟩ := hE1 (x, e) (lookup_mem hlE)
              have hsk : (!outputsNeedToBeObserved e || ofi.contains x) = true := by
                simp only [Bool.or_eq_true, Bool.not_eq_true']
                rcases hkd with hkd | hkd
                · exact Or.inl (by simp only [outputsNeedToBeObserved, bne_eq_false_iff_eq]; exact hkd)
                · exact Or.inr (List.elem_eq_true_of_mem (hcl (x, e) (lookup_mem hlE) hkd))
              show obsSel g1 ofi (x, e) = []
              rw [obsSel, if_pos hsk])
        have hstep2 : cmap (pairSel g1 (obsSel g1 ofi)) blk.nodes =
            cmap (pairSel g
              (fun p => if outputsNeedToBeObserved p.2 then p.2.outputs else []))
              blk.nodes :=
          cmap_congr (fun nid hnid => by
            have hlt : nid < g.freshN := by rw [← hbn] at hnid; exact hb i nid hnid
            rw [pairSel, pairSel, h1,
              lookup_stable_append g.freshN nid (fun p hp => (hE1 p hp).1) hlt g.nodes]
            cases hn : List.lookup nid g.nodes with
            | none => rfl
            | some nd =>
              have hco : ofi.contains nid = false := by
                cases hc : ofi.contains nid with
                | false => rfl
                | true =>
                  exfalso
                  have := hofi nid (List.mem_of_elem_eq_true hc)
                  omega
              simp only [obsSel, hco, Bool.or_false]
              cases hne : outputsNeedToBeObserved nd <;> simp)
        rw [hstep1, hstep2]

theorem obsOutF_lift (g g1 : Graph) (E1 : List (Nat × Node)) (ofi : List Nat)
    (tmpl : ObserverTemplate)
    (h1 : g1.nodes = g.nodes ++ E1)
    (hnlt : ∀ p ∈ g.nodes, p.1 < g.freshN)
    (hE1 : ∀ p ∈ E1, g.freshN ≤ p.1 ∧ p.2.blocks = [] ∧
      (p.2.kind = "prim::Constant" ∨ p.2.kind = tmpl.kind))
    (hcl : ∀ p ∈ E1, p.2.kind = tmpl.kind → p.1 ∈ ofi)
    (hofi : ∀ x ∈ ofi, g.freshN ≤ x)
    (hb : ∀ cb, ∀ nid ∈ blockNodesAt g cb, nid < g.freshN)
    (h11 : ∀ cb, (List.lookup cb g1.blocks).isSome = (List.lookup cb g.blocks).isSome)
    (h13 : ∀ cb, Ins (fun x => g.freshN ≤ x) (blockNodesAt g cb) (blockNodesAt g1 cb)) :
    ∀ l : List BTree, describesF g l = true →
      cmap (obsSel g1 ofi) (forestPairs g1 l) =
        cmap (fun p => if outputsNeedToBeObserved p.2 then p.2.outputs else [])
          (forestPairs g l)
  | [], _ => rfl
  | t :: ts, hd => by
    rw [describesF] at hd
    simp only [Bool.and_eq_true] at hd
    rw [forestPairs, forestPairs, cmap_append, cmap_append]
    rw [obsOut_lift g g1 E1 ofi tmpl h1 hnlt hE1 hcl hofi hb h11 h13 t hd.1,
      obsOutF_lift g g1 E1 ofi tmpl h1 hnlt hE1 hcl hofi hb h11 h13 ts hd.2]

end


theorem cmap_mem {f : α → List β} {x : β} : ∀ {l : List α},
    x ∈ cmap f l → ∃ a ∈ l, x ∈ f a
  | [], h => absurd h (by simp [cmap])
  | a :: as, h => by
    rw [cmap] at h
    rcases List.mem_append.mp h with h | h
    · exact ⟨a, List.mem_cons_self a as, h⟩
    · obtain ⟨b, hb, hxb⟩ := cmap_mem h
      exact ⟨b, List.mem_cons_of_mem a hb, hxb⟩

theorem blockPairs_sub (g : Graph) (blk : Block) :
    ∀ p ∈ blockPairs g blk, p ∈ g.nodes := by
  intro p hp
  rw [blockPairs] at hp
  obtain ⟨nid, _, hpf⟩ := cmap_mem hp
  cases hlk : List.lookup nid g.nodes with
  | none => rw [hlk] at hpf; simp at hpf
  | some nd =>
    rw [hlk] at hpf
    simp only [List.mem_singleton] at hpf
    rw [hpf]
    exact lookup_mem hlk

mutual

theorem treePairs_sub (g : Graph) : ∀ (t : BTree), ∀ p ∈ treePairs g t, p ∈ g.nodes
  | .mk i cs, p, hp => by
    rw [treePairs] at hp
    rcases List.mem_append.mp hp with hp | hp
    · cases hlk : List.lookup i g.blocks with
      | none => rw [hlk] at hp; simp at hp
      | some blk =>
        rw [hlk] at hp
        exact blockPairs_sub g blk p hp
    · exact forestPairs_sub g cs p hp

theorem forestPairs_sub (g : Graph) : ∀ (l : List BTree), ∀ p ∈ forestPairs g l, p ∈ g.nodes
  | [], p, hp => by rw [forestPairs] at hp; simp at hp
  | t :: ts, p, hp => by
    rw [forestPairs] at hp
    rcases List.mem_append.mp hp with hp | hp
    · exact treePairs_sub g t p hp
    · exact forestPairs_sub g ts p hp

end


theorem obs_stage23 (g : Graph) (tmpl : ObserverTemplate)
    (htk : tmpl.kind ≠ "prim::Constant")
    (hnlt : ∀ p ∈ g.nodes, p.1 < g.freshN)
    (hvlt : ∀ p ∈ g.values, p.1 < g.freshV)
    (hb : ∀ cb, ∀ nid ∈ blockNodesAt g cb, nid < g.freshN)
    (hconstb : ∀ p ∈ g.nodes, outputsNeedToBeObserved p.2 = false → p.2.blocks = [])
    (hout : ∀ p ∈ g.nodes, ∀ o ∈ p.2.outputs, ∃ vv pn,
      List.lookup o g.values = some vv ∧ vv.producer = Producer.node pn)
    (t : BTree)
    (hroot : t.rootId = g.topBlock)
    (hdesc : describes g t = true)
    (hsize : BTree.size t ≤ g.blocks.length)
    (g1 : Graph) (ofi : List Nat) (E1 : List (Nat × Node)) (k : Nat)
    (hcore1 : ObsCore g tmpl g1 E1 k)
    (hofi1 : ∀ x ∈ ofi, g.freshN ≤ x)
    (hcl1 : ∀ p ∈ E1, p.2.kind = tmpl.kind → p.1 ∈ ofi) :
    ∃ E2, ObsCore g tmpl
      ((obsCollect g1 ofi g1.blocks.length [g1.topBlock] []).foldl
        (fun gk v =>
          if isTensorTyped gk v then
            match producerOf gk v with
            | some pn =>
              let r := addObserverFor gk v tmpl (some pn)
              insertAfterNode r.1 pn r.2
            | none => gk
          else gk) g1) E2
      (k + (observableTensorOutputs g t).length) := by
  have hc := hcore1
  obtain ⟨h1, h2, h3, h4, h5, h6, h7, h8, h9, h10, h11, h12, h13, h14, h15⟩ := hc
  have hskip : ∀ r ∈ g1.nodes,
      (!outputsNeedToBeObserved r.2 || ofi.contains r.1) = true → r.2.blocks = [] := by
    intro r hr hsk
    rw [h1] at hr
    rcases List.mem_append.mp hr with hr | hr
    · simp only [Bool.or_eq_true, Bool.not_eq_true'] at hsk
      rcases hsk with hsk | hsk
      · exact hconstb r hr hsk
      · exfalso
        have hge := hofi1 r.1 (List.mem_of_elem_eq_true hsk)
        have := hnlt r hr
        omega
    · exact (h2 r hr).2.1
  have hdesc1 : describesF g1 [t] = true := by
    rw [describesF_forall]
    intro s hs
    simp only [List.mem_singleton] at hs
    rw [hs]
    exact describes_lift g g1 E1 h1 hnlt (fun p hp => ⟨(h2 p hp).1, (h2 p hp).2.1⟩)
      hb h11 h13 t hdesc
  have hsz1 : sizeF [t] ≤ g1.blocks.length := by
    have hs : sizeF [t] = t.size := by simp [sizeF]
    rw [hs, h10]
    exact hsize
  have hWperm := obsCollect_perm g1 ofi hskip g1.blocks.length [t] [] hdesc1 hsz1
  have hmap : [t].map BTree.rootId = [g1.topBlock] := by simp [hroot, h14]
  rw [hmap] at hWperm
  have hfp : forestPairs g1 [t] = treePairs g1 t := by simp [forestPairs]
  rw [hfp, List.nil_append] at hWperm
  have hcongr := obsOut_lift g g1 E1 ofi tmpl h1 hnlt h2 hcl1 hofi1 hb h11 h13 t hdesc
  rw [hcongr] at hWperm
  have hHv : ∀ v ∈ obsCollect g1 ofi g1.blocks.length [g1.topBlock] [],
      ∃ vv pn, List.lookup v g.values = some vv ∧ vv.producer = Producer.node pn := by
    intro v hv
    have hv2 := hWperm.mem_iff.mp hv
    obtain ⟨p, hp, hvp⟩ := cmap_mem hv2
    have hpg : p ∈ g.nodes := treePairs_sub g t p hp
    have hvo : v ∈ p.2.outputs := by
      by_cases hob : outputsNeedToBeObserved p.2 = true
      · rw [if_pos hob] at hvp; exact hvp
      · rw [if_neg hob] at hvp; simp at hvp
    exact hout p hpg v hvo
  have hcnt : (List.filter (fun v => isTensorTyped g v)
      (obsCollect g1 ofi g1.blocks.length [g1.topBlock] [])).length =
      (observableTensorOutputs g t).length := by
    have hlen := (hWperm.filter (fun v => isTensorTyped g v)).length_eq
    rw [hlen]
    rfl
  obtain ⟨E2, hcore2⟩ := step3_fold_strong g tmpl htk hvlt
    (obsCollect g1 ofi g1.blocks.length [g1.topBlock] []) g1 E1 k hcore1 hHv
  refine ⟨E2, ?_⟩
  rw [← hcnt]
  exact hcore2


/-- C5: for a graph whose block nesting is described by tree `t` rooted at
the top block, with `k` tensor-typed values among the first
`num_activation_inputs` graph inputs and `j` tensor-typed output values
across all non-constant, non-input-observer nodes of all blocks, a
successful `InsertObserverNodes` run appends exactly `k + j` clones of the
observer template, and every appended clone is well-shaped: beyond the
template's own outputs it gained exactly one new output value, carrying the
observed value's type and its name with the `.observed` marker. -/
theorem insertObservers_clone_count (g : Graph) (tmpl : ObserverTemplate)
    (num : Nat) (t : BTree) (g2 : Graph)
    (hok : InsertObserverNodes g tmpl num = .ok g2)
    (htk : tmpl.kind ≠ "prim::Constant")
    (hnlt : ∀ p ∈ g.nodes, p.1 < g.freshN)
    (hvlt : ∀ p ∈ g.values, p.1 < g.freshV)
    (hin : ∀ v ∈ g.inputs, v < g.freshV)
    (hba : ∀ q ∈ g.blocks, ∀ nid ∈ q.2.nodes, nid < g.freshN)
    (hconstb : ∀ p ∈ g.nodes, outputsNeedToBeObserved p.2 = false → p.2.blocks = [])
    (hout : ∀ p ∈ g.nodes, ∀ o ∈ p.2.outputs, ∃ vv pn,
      List.lookup o g.values = some vv ∧ vv.producer = Producer.node pn)
    (hroot : t.rootId = g.topBlock)
    (hdesc : describes g t = true)
    (hsize : BTree.size t ≤ g.blocks.length) :
    (newNodesOfKind g g2 tmpl.kind).length =
      (tensorActivationInputs g num).length + (observableTensorOutputs g t).length ∧
    ∀ p ∈ newNodesOfKind g g2 tmpl.kind, CloneShape tmpl g2.values p.2 := by
  have hb : ∀ cb, ∀ nid ∈ blockNodesAt g cb, nid < g.freshN := by
    intro cb nid hnid
    cases hlk : List.lookup cb g.blocks with
    | none => simp [blockNodesAt, findBlock, hlk] at hnid
    | some blk =>
      simp only [blockNodesAt, findBlock, hlk, Option.map_some, Option.getD_some] at hnid
      exact hba (cb, blk) (lookup_mem hlk) nid hnid
  by_cases hle : num ≤ g.inputs.length
  · simp only [InsertObserverNodes, if_pos hle] at hok
    rw [Except.ok.injEq] at hok
    have hplant : ∀ (gk' : Graph) (E' : List (Nat × Node)) (c' : Nat) (nid : Nat),
        ObsCore g tmpl gk' E' c' → g.freshN ≤ nid →
        ObsCore g tmpl
          ((fun (gg : Graph) (nn : Nat) =>
            match (((List.lookup g.topBlock g.blocks).map Block.nodes).getD []).head? with
            | some anchor => insertBeforeNode gg anchor nn
            | none => { gg with blocks := (mapVals (fun j b =>
                if j = gg.topBlock then { b with nodes := b.nodes ++ [nn] } else b) gg.blocks) })
            gk' nid) E' c' := by
      intro gk' E' c' nid hco hn
      cases (((List.lookup g.topBlock g.blocks).map Block.nodes).getD []).head? with
      | some anchor => exact ObsCore_insertBefore hco anchor nid hn
      | none => exact ObsCore_topAppend hco nid hn
    obtain ⟨E1, hcore1, hofi1, hcl1⟩ := step1_fold_strong g tmpl htk
      ((((List.lookup g.topBlock g.blocks).map Block.nodes).getD []).head?)
      _ hplant (g.inputs.take num) g [] [] 0 (ObsCore_init g tmpl hnlt hvlt)
      (fun v hv => hin v (List.mem_of_mem_take hv))
      (by intro x hx; simp at hx)
      (by intro p hp; simp at hp)
    obtain ⟨E2, hcore2⟩ := obs_stage23 g tmpl htk hnlt hvlt hb hconstb hout
      t hroot hdesc hsize _ _ E1 _ hcore1 hofi1 hcl1
    have hfin : ObsCore g tmpl g2 E2
        (0 + (List.filter (fun v => isTensorTyped g v) (g.inputs.take num)).length +
          (observableTensorOutputs g t).length) := by
      rw [← hok]
      exact hcore2
    obtain ⟨h1, h2, h3, h4, h5, h6, h7, h8, h9, h10, h11, h12, h13, h14, h15⟩ := hfin
    have hnn : newNodesOfKind g g2 tmpl.kind =
        E2.filter (fun p => p.2.kind == tmpl.kind) := by
      rw [newNodesOfKind, newNodes, h1, List.drop_left]
    constructor
    · rw [hnn, h4, tensorActivationInputs]
      omega
    · intro p hp
      rw [hnn] at hp
      have hm := List.mem_of_mem_filter hp
      have hk : p.2.kind = tmpl.kind := by
        have := List.of_mem_filter hp
        simpa using this
      exact h3 p hm hk
  · simp only [InsertObserverNodes, if_neg hle] at hok
    exact absurd hok (by simp)


/-- Witness for C5 at `exG5` with the one-block tree: one tensor-typed
activation input and two observable tensor outputs give exactly three
observer clones. -/
theorem insertObservers_clone_count_witness :
    (newNodesOfKind exG5 exG5obs obsTmpl.kind).length =
      (tensorActivationInputs exG5 2).length +
        (observableTensorOutputs exG5 (BTree.mk 0 [])).length ∧
    (tensorActivationInputs exG5 2).length = 1 ∧
    (observableTensorOutputs exG5 (BTree.mk 0 [])).length = 2 ∧
    (newNodesOfKind exG5 exG5obs obsTmpl.kind).length = 3 := by
  have h := insertObservers_clone_count exG5 obsTmpl 2 (BTree.mk 0 []) exG5obs
    rfl (by decide) (by decide) (by decide) (by decide) (by decide) (by decide)
    (by
      intro p hp o ho
      simp only [exG5, List.mem_cons, List.not_mem_nil, or_false] at hp
      rcases hp with h | h | h
      · subst h
        simp only [List.mem_singleton] at ho
        subst ho
        exact ⟨{ vtype := .tensor, uniqueName := "t", producer := .node 0 }, 0,
          by decide, rfl⟩
      · subst h
        simp only [List.mem_singleton] at ho
        subst ho
        exact ⟨{ vtype := .other "Int", uniqueName := "c", producer := .node 1 }, 1,
          by decide, rfl⟩
      · subst h
        simp only [List.mem_singleton] at ho
        subst ho
        exact ⟨{ vtype := .tensor, uniqueName := "u", producer := .node 2 }, 2,
          by decide, rfl⟩)
    (by decide) (by decide) (by decide)
  exact ⟨h.1, by decide, by decide, by decide⟩

/-- Witness for C8 at `exG5`: after the pass the original `conv2d` node and
the original value `110` are looked up unchanged, the block outputs and the
graph inputs are untouched. -/
theorem observer_pass_nonintrusive_witness :
    List.lookup 0 exG5obs.nodes =
      some { kind := "aten::conv2d", inputs := [100], outputs := [110] } ∧
    List.lookup 110 exG5obs.values =
      some { vtype := .tensor, uniqueName := "t", producer := .node 0 } ∧
    blockOutputsAt exG5obs 0 = blockOutputsAt exG5 0 ∧
    exG5obs.inputs = exG5.inputs := by
  have h := observer_pass_nonintrusive exG5 obsTmpl 2 exG5obs rfl (by decide)
    (by decide) (by decide) (by decide) (by decide)
  exact ⟨h.1 (0, { kind := "aten::conv2d", inputs := [100], outputs := [110] }) (by decide),
    h.2.1 (110, { vtype := .tensor, uniqueName := "t", producer := .node 0 }) (by decide),
    h.2.2.1 0, h.2.2.2.2⟩

end JitQuant
